import Mathlib

/-!
# fdm: proxy URL parsing and proxy negotiation (connect.c), the cache (cache.c)

A shallow embedding of `getproxy`, `getport`, `socks5proxy`, `httpproxy`,
`makessl`, `connectio` and `connectproxy` from `connect.c`, and of
`cache_clear`, `cache_add`, `cache_delete` and `cache_find` from `cache.c`.

Conventions of the embedding:

* a C string is the list of its characters before the terminating NUL
  (`List Char`); a `char *` that may be `NULL` is an `Option (List Char)`;
* a pointer into a string is the index of the character it points to, so
  `strchr` returns `Option Nat` and `ptr >= end` is a comparison of indices;
* bytes on the wire are natural numbers below 256.
-/

set_option autoImplicit false

namespace Fdm

/-! ## Data model (fdm.h) -/

/-- Proxy type, `enum proxytype`. -/
inductive proxytype where
  | PROXY_HTTP
  | PROXY_HTTPS
  | PROXY_SOCKS5
  deriving DecidableEq, Repr

/-- Server description, `struct server`: host, port (number or service name),
the "use TLS" flag and the "verify certificate" flag. Host and port are
strings that are never `NULL` in a descriptor handed to a caller. -/
structure server where
  host : List Char
  port : List Char
  ssl : Int
  verify : Int
  deriving DecidableEq, Repr

/-- Proxy description, `struct proxy`. -/
structure proxy where
  type : proxytype
  user : Option (List Char)
  pass : Option (List Char)
  server : server
  deriving DecidableEq, Repr

/-! ## String primitives of libc used by `getproxy` -/

/-- Index of the first occurrence of `c` in `s`, or `none` (`NULL`). -/
def strchr : List Char → Char → Option Nat
  | [], _ => none
  | x :: xs, c => if x = c then some 0 else (strchr xs c).map (· + 1)

/-- Compare at most `n` characters of two strings; the end of a string
compares as the NUL character. Zero means equal. -/
def strncmp : List Char → List Char → Nat → Int
  | _, _, 0 => 0
  | [], [], _ + 1 => 0
  | [], y :: _, _ + 1 => 0 - (y.toNat : Int)
  | x :: _, [], _ + 1 => (x.toNat : Int)
  | x :: xs, y :: ys, n + 1 =>
    if x = y then strncmp xs ys n else (x.toNat : Int) - (y.toNat : Int)

/-! ## getproxy -/

/-- One row of the local table `proxylist` of `getproxy`. -/
structure proxyent where
  proto : List Char
  type : proxytype
  ssl : Int
  port : List Char
  deriving DecidableEq, Repr

/-- The table `proxylist` of `getproxy` (without its `NULL` terminator). -/
def proxylist : List proxyent :=
  [ ⟨"http://".toList, proxytype.PROXY_HTTP, 0, "http".toList⟩,
    ⟨"https://".toList, proxytype.PROXY_HTTPS, 1, "https".toList⟩,
    ⟨"socks://".toList, proxytype.PROXY_SOCKS5, 0, "socks".toList⟩,
    ⟨"socks5://".toList, proxytype.PROXY_SOCKS5, 0, "socks".toList⟩ ]

/-- The `for` loop that finds the proxy entry: the first row whose `proto`
is matched by `strncmp(url, proto, strlen(proto)) == 0`; `none` when the loop
reaches the terminator. -/
def findproxy (url : List Char) : List proxyent → Option proxyent
  | [] => none
  | e :: es => if strncmp url e.proto e.proto.length = 0 then some e else findproxy url es

/-- The loop `while (ptr >= url && *ptr == '/') *ptr-- = 0`, run on the
reversed string: drops the leading slashes of the reversal. -/
def stripslash : List Char → List Char
  | [] => []
  | c :: cs => if c = '/' then stripslash cs else c :: cs

/-- Strip trailing slash characters. -/
def striptrailing (url : List Char) : List Char :=
  (stripslash url.reverse).reverse

/-- The "extract port if available" and "fill in the host" tail of
`getproxy`; `pr` is the descriptor built so far and `url` points after the
credentials. -/
def getproxy_hostport (pr : proxy) (url : List Char) : Option proxy :=
  match strchr url ':' with
  | some ptr =>
    -- *ptr++ = 0
    let port := url.drop (ptr + 1)
    let url := url.take ptr
    if port = [] then none
    else
      let pr := { pr with server := { pr.server with port := port } }
      if url = [] then none
      else some { pr with server := { pr.server with host := url } }
  | none =>
    if url = [] then none
    else some { pr with server := { pr.server with host := url } }

/-- The body of `getproxy` once the proxy entry is found; `url` points after
the scheme prefix (`url += strlen(proxyent->proto)`). The host of the zeroed
descriptor is written as the empty string until it is filled in; no
descriptor is returned before that. -/
def getproxy_parse (proxyent : proxyent) (url : List Char) : Option proxy :=
  let pr : proxy :=
    { type := proxyent.type, user := none, pass := none,
      server := { host := [], port := proxyent.port, ssl := proxyent.ssl, verify := 0 } }
  -- strip trailing slash characters
  let url := striptrailing url
  if url = [] then none
  else
    -- look for a user/pass
    match strchr url '@' with
    | some e =>
      match strchr url ':' with
      | none => none
      | some ptr =>
        if ptr ≥ e then none
        else
          -- *ptr++ = 0; pr->user = xstrdup(url); *end++ = 0; pr->pass = xstrdup(ptr)
          let user := url.take ptr
          let pass := (url.take e).drop (ptr + 1)
          let pr := { pr with user := some user, pass := some pass }
          if user = [] ∨ pass = [] then none
          else getproxy_hostport pr (url.drop (e + 1))
    | none => getproxy_hostport pr url

/-- Parse a proxy URL, `getproxy`. `none` is the `NULL` returned on the
`error` path. -/
def getproxy (xurl : List Char) : Option proxy :=
  match findproxy xurl proxylist with
  | none => none
  | some proxyent => getproxy_parse proxyent (xurl.drop proxyent.proto.length)

/-! ## Implementation-defined parameters of C -/

/-- The implementation-defined choices of the C compiler that the code of
`socks5proxy` depends on: whether plain `char` is signed (the buffer is
declared `char buf[1024]`) and the width of `size_t` in bits. -/
structure abi where
  char_signed : Bool
  size_bits : Nat
  deriving DecidableEq, Repr

/-- Value of a `char` object holding the byte `b`, after promotion to
`int`. -/
def charval (a : abi) (b : Nat) : Int :=
  if a.char_signed = true ∧ 128 ≤ b then (b : Int) - 256 else (b : Int)

/-- Conversion of an `int` to `size_t`: reduction modulo `2 ^ size_bits`. -/
def to_size_t (a : abi) (v : Int) : Nat :=
  (v % (2 : Int) ^ a.size_bits).toNat

/-- Bytes of a C string, as copied by `memcpy`. -/
def bytes (s : List Char) : List Nat :=
  s.map Char.toNat

/-- Output of the `%d` conversion of `xasprintf`. -/
def fmt_d (v : Int) : String :=
  toString v

/-- Output of the `%s` conversion of `xasprintf`. -/
def fmt_s (s : List Char) : String :=
  String.mk s

/-! ## The buffered I/O transport (io.c) -/

/-- Modelled from the spec: the buffered-I/O transport `struct io` (section 6:
byte write, wait-for-N-bytes-with-timeout, exact-read-of-N-already-waited
bytes); io.c is not among the sources. `rd` holds the bytes that the peer
delivers before the timeout and that are not yet read, `wr` the bytes written
so far, `error` the transport's own cause for a failed wait. -/
structure io where
  rd : List Nat
  wr : List Nat
  error : String
  deriving DecidableEq, Repr

/-- Modelled from the spec: `io_write(io, buf, len)`, byte write; `buf` is
the `len` bytes written. -/
def io_write (i : io) (buf : List Nat) : io :=
  { i with wr := i.wr ++ buf }

/-- Modelled from the spec: `io_wait(io, len, cause)`,
wait-for-N-bytes-with-timeout: returns 0 when `len` bytes are available and
non-zero, with the transport's cause, when they do not arrive. -/
def io_wait (i : io) (len : Nat) : Int :=
  if len ≤ i.rd.length then 0 else 1

/-- Modelled from the spec: `io_read2(io, buf, len)`,
exact-read-of-N-already-waited bytes: the bytes placed in `buf` and the
transport after they are consumed. -/
def io_read2 (i : io) (len : Nat) : List Nat × io :=
  (i.rd.take len, { i with rd := i.rd.drop len })

/-! ## getport -/

/-- Value of a string of decimal digits. -/
def decimal (s : List Char) : Nat :=
  s.foldl (fun n c => 10 * n + (c.toNat - 48)) 0

/-- Modelled from the spec: `strtonum(numstr, minval, maxval, &errstr)`,
which is not among the sources ("parsing as a decimal number in [1, 65535]"):
a non-empty string of decimal digits whose value lies in
`[minval, maxval]`; otherwise the error string. -/
def strtonum (numstr : List Char) (minval maxval : Int) : Except String Int :=
  if numstr = [] ∨ numstr.all Char.isDigit = false then Except.error "invalid"
  else if (decimal numstr : Int) < minval then Except.error "too small"
  else if (decimal numstr : Int) > maxval then Except.error "too large"
  else Except.ok (decimal numstr : Int)

/-- Resolve a port string, `getport`. The services database is the
parameter `sv`: `sv port` is `none` when `getservbyname(port, NULL)` returns
`NULL` and otherwise the port number of the entry in host byte order; `ntohs`
returns a `uint16_t`. -/
def getport (sv : List Char → Option Nat) (port : List Char) : Int :=
  match sv port with
  | none =>
    match strtonum port 1 65535 with
    | Except.error _ => -1
    | Except.ok n => n
  | some s_port => ((s_port % 65536 : Nat) : Int)

/-! ## socks5proxy -/

/-- Result of one step of a negotiation: it either goes on to the next step
with a value and the transport, or makes the function return 1 with a
cause. -/
inductive stage (α : Type) where
  | next (a : α) (i : io)
  | fail (cause : String) (i : io)
  deriving DecidableEq, Repr

/-- What a negotiator hands back: its return value, the cause it stored (if
any) and the transport. -/
structure outcome where
  ret : Int
  cause : Option String
  conn : io
  deriving DecidableEq, Repr

/-- The transport as a step leaves it, whether it goes on or fails. -/
def stage.conn {α : Type} : stage α → io
  | stage.next _ i => i
  | stage.fail _ i => i

/-- The "method selection" block of `socks5proxy`; on success it yields the
two bytes read into `buf`. -/
def socks5_method (a : abi) (pr : proxy) (i : io) : stage (List Nat) :=
  let auth := pr.user.isSome && pr.pass.isSome
  let buf : List Nat := [5, if auth then 2 else 1, 0, 2]
  let i := io_write i (buf.take (if auth then 4 else 3))
  if io_wait i 2 ≠ 0 then stage.fail i.error i
  else
    let buf := (io_read2 i 2).1
    let i := (io_read2 i 2).2
    if charval a (buf.getD 0 0) ≠ 5 then
      stage.fail ("bad protocol version: " ++ fmt_d (charval a (buf.getD 0 0))) i
    else if (charval a (buf.getD 1 0) ≠ 0 ∧ charval a (buf.getD 1 0) ≠ 2)
        ∨ (auth = false ∧ charval a (buf.getD 1 0) = 2) then
      stage.fail ("unexpected method: " ++ fmt_d (charval a (buf.getD 1 0))) i
    else stage.next buf i

/-- The "user/pass negotiation" block of `socks5proxy`; `buf` holds the
method reply. The block is entered with `buf[1] == 2` only when `auth` was
set, so `pr->user` and `pr->pass` are not `NULL` where their length is
taken. -/
def socks5_userpass (a : abi) (pr : proxy) (buf : List Nat) (i : io) : stage Unit :=
  if charval a (buf.getD 1 0) = 2 then
    let user := pr.user.getD []
    let pass := pr.pass.getD []
    let ptr : List Nat := [5]
    let len := user.length
    if len > 255 then stage.fail "user too long" i
    else
      let ptr := ptr ++ [len % 256] ++ bytes user
      let len := pass.length
      if len > 255 then stage.fail "pass too long" i
      else
        let ptr := ptr ++ [len % 256] ++ bytes pass
        let i := io_write i ptr
        if io_wait i 2 ≠ 0 then stage.fail i.error i
        else
          let buf := (io_read2 i 2).1
          let i := (io_read2 i 2).2
          if charval a (buf.getD 0 0) ≠ 5 then
            stage.fail ("bad protocol version: " ++ fmt_d (charval a (buf.getD 0 0))) i
          else if charval a (buf.getD 1 0) ≠ 0 then
            stage.fail "authentication failed" i
          else stage.next () i
  else stage.next () i

/-- The "connect request" block of `socks5proxy`; `port` is the value of
`getport`, not negative here. -/
def socks5_request (srv : server) (port : Int) (i : io) : stage Unit :=
  let ptr : List Nat := [5, 1, 0, 3]
  let len := srv.host.length
  if len > 255 then stage.fail "host too long" i
  else
    let ptr := ptr ++ [len % 256] ++ bytes srv.host
    let ptr := ptr ++ [port.toNat / 256 % 256, port.toNat % 256]
    stage.next () (io_write i ptr)

/-- The `switch (buf[1])` of the connect response: `none` for `case 0`
(break), otherwise the cause of the failure. -/
def socks5_status (v : Int) : Option String :=
  if v = 0 then none
  else if v = 1 then some (fmt_d v ++ ": server failure")
  else if v = 2 then some (fmt_d v ++ ": connection not permitted")
  else if v = 3 then some (fmt_d v ++ ": network unreachable")
  else if v = 4 then some (fmt_d v ++ ": host unreachable")
  else if v = 5 then some (fmt_d v ++ ": connection refused")
  else if v = 6 then some (fmt_d v ++ ": TTL expired")
  else if v = 7 then some (fmt_d v ++ ": command not supported")
  else if v = 8 then some (fmt_d v ++ ": address type not supported")
  else some (fmt_d v ++ ": unknown failure")

/-- The "connect response" block of `socks5proxy`; on success it yields the
five bytes read into `buf`. -/
def socks5_response (a : abi) (i : io) : stage (List Nat) :=
  if io_wait i 5 ≠ 0 then stage.fail i.error i
  else
    let buf := (io_read2 i 5).1
    let i := (io_read2 i 5).2
    if charval a (buf.getD 0 0) ≠ 5 then
      stage.fail ("bad protocol version: " ++ fmt_d (charval a (buf.getD 0 0))) i
    else
      match socks5_status (charval a (buf.getD 1 0)) with
      | some cause => stage.fail cause i
      | none => stage.next buf i

/-- The `switch (buf[3])` of "flush the rest": the value assigned to the
`size_t len`, or the cause for an unknown address type. -/
def socks5_flushlen (a : abi) (buf : List Nat) : Except String Nat :=
  if charval a (buf.getD 3 0) = 1 then Except.ok 5
  else if charval a (buf.getD 3 0) = 3 then Except.ok 17
  else if charval a (buf.getD 3 0) = 4 then Except.ok (to_size_t a (charval a (buf.getD 4 0) + 2))
  else Except.error ("unknown address type: " ++ fmt_d (charval a (buf.getD 3 0)))

/-- The "flush the rest" block of `socks5proxy`; `buf` holds the connect
response. -/
def socks5_flush (a : abi) (buf : List Nat) (i : io) : stage Unit :=
  match socks5_flushlen a buf with
  | Except.error cause => stage.fail cause i
  | Except.ok len =>
    if io_wait i len ≠ 0 then stage.fail i.error i
    else stage.next () (io_read2 i len).2

/-- SOCKS5 negotiation, `socks5proxy`. -/
def socks5proxy (a : abi) (sv : List Char → Option Nat) (srv : server) (pr : proxy)
    (i : io) : outcome :=
  if getport sv srv.port < 0 then ⟨1, some ("bad port: " ++ fmt_s srv.port), i⟩
  else
    match socks5_method a pr i with
    | stage.fail cause i => ⟨1, some cause, i⟩
    | stage.next buf i =>
      match socks5_userpass a pr buf i with
      | stage.fail cause i => ⟨1, some cause, i⟩
      | stage.next _ i =>
        match socks5_request srv (getport sv srv.port) i with
        | stage.fail cause i => ⟨1, some cause, i⟩
        | stage.next _ i =>
          match socks5_response a i with
          | stage.fail cause i => ⟨1, some cause, i⟩
          | stage.next buf i =>
            match socks5_flush a buf i with
            | stage.fail cause i => ⟨1, some cause, i⟩
            | stage.next _ i => ⟨0, none, i⟩

/-! ## Line I/O of the transport (io.c) -/

/-- The C string that a buffer of bytes holds: its bytes up to the first
NUL. -/
def cstr (bs : List Nat) : List Char :=
  (bs.takeWhile (· ≠ 0)).map Char.ofNat

/-- Search of the unread bytes for the line terminator `eol`: the bytes
before its first occurrence and the bytes after it, or `none` when no
terminator is there. -/
def findeol (eol : List Nat) : List Nat → Option (List Nat × List Nat)
  | [] => if eol = [] then some ([], []) else none
  | b :: bs =>
    if eol.isPrefixOf (b :: bs) = true then some ([], (b :: bs).drop eol.length)
    else
      match findeol eol bs with
      | none => none
      | some (l, r) => some (b :: l, r)

/-- Modelled from the spec: `io_writeline(io, fmt, ...)`, line write
(section 6): the formatted line followed by the line terminator `eol` of the
transport; `none` is the `NULL` format, which writes an empty line. -/
def io_writeline (eol : List Char) (i : io) (line : Option (List Char)) : io :=
  io_write i (bytes (line.getD []) ++ bytes eol)

/-- Modelled from the spec: `io_pollline(io, &line, cause)`,
poll-for-complete-line (section 6): returns 1 with the next line, its
terminator `eol` stripped, as a C string, and consumes the line and its
terminator; returns a value other than 1, with the transport's cause, when no
complete line arrives. -/
def io_pollline (eol : List Char) (i : io) : Int × List Char × io :=
  match findeol (bytes eol) i.rd with
  | some (l, r) => (1, cstr l, { i with rd := r })
  | none => (0, [], i)

/-! ## httpproxy -/

/-- The condition under which `httpproxy` refuses the first line:
`strlen(line) < 12 || strncmp(line, "HTTP/", 5) != 0 ||
strncmp(line + 8, " 200", 4) != 0`. -/
def httpproxy_unexpected (line : List Char) : Prop :=
  line.length < 12 ∨ strncmp line "HTTP/".toList 5 ≠ 0
    ∨ strncmp (line.drop 8) " 200".toList 4 ≠ 0

instance (line : List Char) : Decidable (httpproxy_unexpected line) := by
  unfold httpproxy_unexpected
  infer_instance

/-- The `for (;;)` loop of `httpproxy`. `freed` gives what a read of the
memory of a string yields after `xfree` has released it (the first line is
formatted into the cause after `xfree(line)`); `header` is the local variable
of that name. The first argument bounds the number of iterations: every
iteration that does not return consumes at least one unread byte, so
`httpproxy` starts the loop with more iterations than there are unread
bytes. -/
def httpproxy_loop (freed : List Char → List Char) (eol : List Char) :
    Nat → Int → io → outcome
  | 0, _, i => ⟨1, some i.error, i⟩
  | n + 1, header, i =>
    if (io_pollline eol i).1 ≠ 1 then ⟨1, some i.error, (io_pollline eol i).2.2⟩
    else
      let line := (io_pollline eol i).2.1
      let i := (io_pollline eol i).2.2
      if header = 0 then
        if httpproxy_unexpected line then
          -- xfree(line); xasprintf(cause, "unexpected data: %s", line)
          ⟨1, some ("unexpected data: " ++ fmt_s (freed line)), i⟩
        else httpproxy_loop freed eol n 1 i
      else if line = [] then ⟨0, none, i⟩
      else httpproxy_loop freed eol n header i

/-- HTTP CONNECT negotiation, `httpproxy`; `eol` is the line terminator of
the transport `io`. -/
def httpproxy (freed : List Char → List Char) (sv : List Char → Option Nat)
    (eol : List Char) (srv : server) (pr : proxy) (i : io) : outcome :=
  if pr.user ≠ none ∨ pr.pass ≠ none then
    ⟨1, some "HTTP proxy authentication is not supported", i⟩
  else if getport sv srv.port < 0 then ⟨1, some ("bad port: " ++ fmt_s srv.port), i⟩
  else
    let i := io_writeline eol i
      (some ("CONNECT ".toList ++ srv.host ++ ":".toList
        ++ (fmt_d (getport sv srv.port)).toList ++ " HTTP/1.1".toList))
    let i := io_writeline eol i none
    httpproxy_loop freed eol (i.rd.length + 1) 0 i

/-! ## The operating system and the TLS library -/

/-- The calls that act on the outside world, recorded in the order in which
a connection attempt makes them. -/
inductive event where
  | getaddrinfo (host port : List Char)
  | socket (addr : Nat)
  | connect (fd : Int) (addr : Nat)
  | close (fd : Int)
  | setfl (fd : Int) (flags : Nat)
  | ssl_connect (fd : Int)
  | ssl_ctx_free
  | ssl_free
  | x509_free
  | io_create (fd : Int)
  | io_close (fd : Int)
  | io_free (fd : Int)
  deriving DecidableEq, Repr

/-- One candidate address of the list that `getaddrinfo` returns
(`struct addrinfo`), together with what the operating system answers for it
in this attempt: the value returned by `socket` and the `errno` it leaves
when it fails, the value returned by `connect` and the `errno` it leaves when
it fails. -/
structure candidate where
  addr : Nat
  sock : Int
  sock_errno : Int
  conn : Int
  conn_errno : Int
  deriving DecidableEq, Repr

/-- The operating system and the C library as a connection attempt sees
them: the bit `O_NONBLOCK`, whether `fcntl` succeeds on the descriptors of
the attempt, the file status flags of a new socket, the value of `errno` on
entry, the resolver with its error strings, `strerror`, and for a new
connection the bytes that the peer delivers before the timeout and the cause
that the transport reports when they run out. -/
structure env where
  O_NONBLOCK : Nat
  fcntl_ok : Bool
  newflags : Nat
  errno : Int
  getaddrinfo : List Char → List Char → Except Int (List candidate)
  gai_strerror : Int → String
  strerror : Int → String
  peer : List Nat
  ioerror : String

/-- What the TLS library and the peer do for one session: whether `SSL_new`
returns a session, the values returned by `SSL_set_fd`, `SSL_connect` and
`SSL_get_error`, the `errno` after the handshake, whether
`SSL_get_peer_certificate` returns a certificate, the value of
`SSL_get_verify_result`, and the strings of `ERR_error_string` and
`X509_verify_cert_error_string`. -/
structure tls where
  ssl_new : Bool
  ssl_set_fd : Int
  ssl_connect : Int
  ssl_get_error : Int
  errno : Int
  peer_cert : Bool
  verify_result : Int
  err_string : String
  verify_string : String
  deriving DecidableEq, Repr

/-- A TLS session (`SSL *`), bound to a descriptor. -/
structure SSL where
  fd : Int
  deriving DecidableEq, Repr

/-- `SSL_ERROR_WANT_READ` of openssl/ssl.h. -/
def SSL_ERROR_WANT_READ : Int := 2

/-- `SSL_ERROR_WANT_WRITE` of openssl/ssl.h. -/
def SSL_ERROR_WANT_WRITE : Int := 3

/-- `SSL_ERROR_SYSCALL` of openssl/ssl.h. -/
def SSL_ERROR_SYSCALL : Int := 5

/-- `SSL_ERROR_ZERO_RETURN` of openssl/ssl.h. -/
def SSL_ERROR_ZERO_RETURN : Int := 6

/-- `SSL_ERROR_WANT_CONNECT` of openssl/ssl.h. -/
def SSL_ERROR_WANT_CONNECT : Int := 7

/-- `SSL_ERROR_WANT_ACCEPT` of openssl/ssl.h. -/
def SSL_ERROR_WANT_ACCEPT : Int := 8

/-- `X509_V_OK` of openssl/x509_vfy.h. -/
def X509_V_OK : Int := 0

/-- The expression `m & ~b` on file status flags. -/
def andnot (m b : Nat) : Nat :=
  m ^^^ (m &&& b)

/-! ## sslerror, sslerror2 and makessl -/

/-- Cause for a failed TLS library call, `sslerror`. -/
def sslerror (t : tls) (fn : String) : String :=
  fn ++ ": " ++ t.err_string

/-- Cause for a failed handshake, `sslerror2`; `saved_errno` is the `errno`
on entry. -/
def sslerror2 (e : env) (t : tls) (n : Int) (fn : String) : String :=
  if n = SSL_ERROR_ZERO_RETURN ∨ n = SSL_ERROR_SYSCALL then fn ++ ": " ++ e.strerror t.errno
  else if n = SSL_ERROR_WANT_CONNECT then fn ++ ": want connect"
  else if n = SSL_ERROR_WANT_ACCEPT then fn ++ ": want accept"
  else if n = SSL_ERROR_WANT_READ then fn ++ ": want read"
  else if n = SSL_ERROR_WANT_WRITE then fn ++ ": want write"
  else fn ++ ": " ++ fmt_d n ++ ": " ++ t.err_string

/-- What `makessl` hands back: the session or `NULL`, the cause it stored,
the message of `fatal` when it aborted the process, the file status flags of
the descriptor when it returns, and the calls it made. -/
structure sslres where
  ssl : Option SSL
  cause : Option String
  fatal : Option String
  flags : Nat
  trace : List event
  deriving DecidableEq, Repr

/-- Establish a TLS session on a descriptor, `makessl`. `mode` holds the
file status flags of `fd` on entry, which `fcntl(fd, F_GETFL)` returns. -/
def makessl (e : env) (t : tls) (fd : Int) (mode : Nat) (verify : Int) : sslres :=
  -- ctx = SSL_CTX_new(...); SSL_CTX_set_verify(ctx, SSL_VERIFY_NONE, NULL); ssl = SSL_new(ctx)
  if t.ssl_new = false then
    ⟨none, some (sslerror t "SSL_new"), none, mode, [event.ssl_ctx_free]⟩
  else if t.ssl_set_fd ≠ 1 then
    ⟨none, some (sslerror t "SSL_set_fd"), none, mode, [event.ssl_ctx_free, event.ssl_free]⟩
  else if e.fcntl_ok = false then
    ⟨none, none, some "fcntl", mode, []⟩
  else
    -- fcntl(fd, F_SETFL, mode & ~O_NONBLOCK); SSL_set_connect_state(ssl); SSL_connect(ssl)
    let blocking := andnot mode e.O_NONBLOCK
    if t.ssl_connect < 1 then
      ⟨none, some (sslerror2 e t t.ssl_get_error "SSL_connect"), none, blocking,
        [event.setfl fd blocking, event.ssl_connect fd, event.ssl_ctx_free, event.ssl_free]⟩
    else
      -- reset to non-blocking mode: fcntl(fd, F_SETFL, mode & ~O_NONBLOCK)
      let reset := andnot mode e.O_NONBLOCK
      let trace := [event.setfl fd blocking, event.ssl_connect fd, event.setfl fd reset]
      if t.peer_cert = true then
        if verify ≠ 0 ∧ t.verify_result ≠ X509_V_OK then
          ⟨none, some ("certificate verification failed: " ++ t.verify_string), none, reset,
            trace ++ [event.x509_free, event.ssl_ctx_free, event.ssl_free]⟩
        else ⟨some ⟨fd⟩, none, none, reset, trace⟩
      else if verify ≠ 0 then
        ⟨none, some "certificate verification failed: no certificate", none, reset,
          trace ++ [event.ssl_ctx_free, event.ssl_free]⟩
      else ⟨some ⟨fd⟩, none, none, reset, trace⟩

/-! ## connectio -/

/-- The transport handle, `struct io`: the descriptor, the TLS session or
`NULL`, the line terminator, the timeout, and the buffers. `flags` follows
the file status flags of the descriptor. -/
structure transport where
  fd : Int
  ssl : Option SSL
  eol : List Char
  timeout : Int
  flags : Nat
  buf : io
  deriving DecidableEq, Repr

/-- Modelled from the spec: `io_create(fd, ssl, eol, timeout)` of io.c, which
is not among the sources: bundles the descriptor, the optional TLS session,
the line-termination convention and the timeout into a transport handle with
empty buffers, and sets the descriptor non-blocking ("Normally io_create does
this", connectio). `flags` holds the file status flags of the descriptor
before the call. -/
def io_create (e : env) (fd : Int) (ssl : Option SSL) (eol : List Char) (timeout : Int)
    (flags : Nat) : transport :=
  ⟨fd, ssl, eol, timeout, flags ||| e.O_NONBLOCK, ⟨e.peer, [], e.ioerror⟩⟩

/-- The local variables of `connectio` that its loop over the candidate
addresses updates: `fd`, `fn`, `errno`, and the calls made so far. -/
structure loopstate where
  fd : Int
  fn : Option String
  errno : Int
  trace : List event
  deriving DecidableEq, Repr

/-- The loop `for (ai = srv->ai; ai != NULL; ai = ai->ai_next)` of
`connectio`. -/
def connectio_loop : List candidate → loopstate → loopstate
  | [], st => st
  | ai :: rest, st =>
    -- fd = socket(...)
    if ai.sock < 0 then
      connectio_loop rest ⟨ai.sock, some "socket", ai.sock_errno,
        st.trace ++ [event.socket ai.addr]⟩
    else if ai.conn < 0 then
      -- error = errno; close(fd); errno = error; fd = -1
      connectio_loop rest ⟨-1, some "connect", ai.conn_errno,
        st.trace ++ [event.socket ai.addr, event.connect ai.sock ai.addr, event.close ai.sock]⟩
    else
      -- break
      ⟨ai.sock, st.fn, st.errno,
        st.trace ++ [event.socket ai.addr, event.connect ai.sock ai.addr]⟩

/-- What `connectio` hands back: the transport or `NULL`, the cause it
stored, the message of `fatal` when it aborted the process, the cached
address list `srv->ai` as it leaves it, and the calls it made. -/
structure connres where
  io : Option transport
  cause : Option String
  fatal : Option String
  ai : Option (List candidate)
  trace : List event
  deriving DecidableEq, Repr

/-- The body of `connectio` once the address list `ai` is there; `trace`
holds the calls made before. -/
def connectio_connect (e : env) (t : tls) (srv : server) (ai : List candidate)
    (eol : List Char) (timeout : Int) (trace : List event) : connres :=
  let st := connectio_loop ai ⟨-1, none, e.errno, trace⟩
  if st.fd < 0 then
    -- xasprintf(cause, "%s: %s", fn, strerror(errno)); a NULL fn prints as "(null)"
    ⟨none, some (st.fn.getD "(null)" ++ ": " ++ e.strerror st.errno), none, some ai, st.trace⟩
  else if srv.ssl = 0 then
    ⟨some (io_create e st.fd none eol timeout e.newflags), none, none, some ai,
      st.trace ++ [event.setfl st.fd (e.newflags ||| e.O_NONBLOCK), event.io_create st.fd]⟩
  else if e.fcntl_ok = false then
    ⟨none, none, some "fcntl", some ai, st.trace⟩
  else
    -- mode = fcntl(fd, F_GETFL); fcntl(fd, F_SETFL, mode | O_NONBLOCK)
    let mode := e.newflags ||| e.O_NONBLOCK
    let s := makessl e t st.fd mode srv.verify
    let trace := st.trace ++ [event.setfl st.fd mode] ++ s.trace
    match s.fatal with
    | some msg => ⟨none, none, some msg, some ai, trace⟩
    | none =>
      match s.ssl with
      | none => ⟨none, s.cause, none, some ai, trace ++ [event.close st.fd]⟩
      | some ssl =>
        ⟨some (io_create e st.fd (some ssl) eol timeout s.flags), none, none, some ai,
          trace ++ [event.setfl st.fd (s.flags ||| e.O_NONBLOCK), event.io_create st.fd]⟩

/-- Resolve and connect, `connectio`. `ai` is the cached address list
`srv->ai` (`none` is `NULL`). -/
def connectio (e : env) (t : tls) (srv : server) (ai : Option (List candidate))
    (eol : List Char) (timeout : Int) : connres :=
  match ai with
  | some l => connectio_connect e t srv l eol timeout []
  | none =>
    match e.getaddrinfo srv.host srv.port with
    | Except.error code =>
      ⟨none, some (e.gai_strerror code), none, none, [event.getaddrinfo srv.host srv.port]⟩
    | Except.ok l =>
      connectio_connect e t srv l eol timeout [event.getaddrinfo srv.host srv.port]

/-! ## connectproxy -/

/-- The line terminator `IO_CRLF`. -/
def IO_CRLF : List Char := "\r\n".toList

/-- The `switch (pr->type)` of `connectproxy`: the result of the negotiator
that the proxy type selects, or `none` for the `default` case, which calls
`fatalx("unknown proxy type")`. -/
def connectproxy_negotiate (a : abi) (freed : List Char → List Char)
    (sv : List Char → Option Nat) (srv : server) (pr : proxy) (io : transport) :
    Option outcome :=
  match pr.type with
  | proxytype.PROXY_HTTP => some (httpproxy freed sv io.eol srv pr io.buf)
  | proxytype.PROXY_SOCKS5 => some (socks5proxy a sv srv pr io.buf)
  | proxytype.PROXY_HTTPS => none

/-- Connect to a target, through a proxy when there is one, `connectproxy`.
`pr` is the proxy descriptor or `none` for `NULL`; `srvai` and `prai` are the
cached address lists of the target and of the proxy server; `tp` is the TLS
session that `connectio` may open with the proxy and `tt` the one opened for
the target. -/
def connectproxy (a : abi) (e : env) (tp tt : tls) (freed : List Char → List Char)
    (sv : List Char → Option Nat) (srv : server) (srvai : Option (List candidate))
    (pr : Option proxy) (prai : Option (List candidate)) (eol : List Char)
    (timeout : Int) : connres :=
  match pr with
  | none => connectio e tt srv srvai eol timeout
  | some pr =>
    let c := connectio e tp pr.server prai IO_CRLF timeout
    match c.io with
    | none => c
    | some io =>
      match connectproxy_negotiate a freed sv srv pr io with
      | none => ⟨none, none, some "unknown proxy type", c.ai, c.trace⟩
      | some o =>
        if o.ret ≠ 0 then
          -- error: io_close(io); io_free(io); return (NULL)
          ⟨none, o.cause, none, c.ai, c.trace ++ [event.io_close io.fd, event.io_free io.fd]⟩
        else if srv.ssl ≠ 0 then
          -- io->ssl = makessl(io->fd, srv->verify, cause)
          let s := makessl e tt io.fd io.flags srv.verify
          match s.fatal with
          | some msg => ⟨none, none, some msg, c.ai, c.trace ++ s.trace⟩
          | none =>
            match s.ssl with
            | none =>
              ⟨none, s.cause, none, c.ai,
                c.trace ++ s.trace ++ [event.io_close io.fd, event.io_free io.fd]⟩
            | some ssl =>
              ⟨some { io with ssl := some ssl, eol := eol, flags := s.flags, buf := o.conn },
                none, none, c.ai, c.trace ++ s.trace⟩
        else
          ⟨some { io with eol := eol, buf := o.conn }, none, none, c.ai, c.trace⟩

/-! ## cache.c -/

/-- Compare two C strings, `strcmp`: the sign of the result is that of the
difference of the first characters that differ; the end of a string compares
as the NUL character. -/
def strcmp : List Char → List Char → Int
  | [], [] => 0
  | [], y :: _ => 0 - (y.toNat : Int)
  | x :: _, [] => (x.toNat : Int)
  | x :: xs, y :: ys => if x = y then strcmp xs ys else (x.toNat : Int) - (y.toNat : Int)

/-- The NUL character that ends a C string. -/
def NUL : Char := Char.ofNat 0

/-- The C string that starts at offset `off` of a character area. -/
def cstr_at (s : List Char) (off : Nat) : List Char :=
  (s.drop off).takeWhile (· ≠ NUL)

/-- The effect of `memcpy(dst, src, strlen(src) + 1)` with `dst` at offset
`off` of a character area: the string and its terminating NUL replace the
characters from `off` on. -/
def memcpy_str (s : List Char) (off : Nat) (src : List Char) : List Char :=
  s.take off ++ (src ++ [NUL]) ++ s.drop (off + (src.length + 1))

/-- Cache entry, `struct cacheent`: the flag `used` and the offsets of the
key and of the value in the string area. -/
structure cacheent where
  used : Int
  key : Nat
  value : Nat
  deriving DecidableEq, Repr

/-- The cache, `struct cache` together with the memory that follows it in
the same block: the array of entries (`CACHE_ENTRY(cc, n)` is `ents[n]` and
`cc->entries` the length of `ents`), the string area (`cc->str_size` is the
length of `str`) and `cc->str_used`. The macros of fdm.h that place the two
areas in the block are not among the sources; the entries and the strings are
kept as two lists. -/
structure cache where
  ents : List cacheent
  str : List Char
  str_used : Nat
  deriving DecidableEq, Repr

/-- What cache.c takes from outside: the constants `CACHEENTRIES`,
`CACHEBUFFER`, `SIZE_MAX` and `UINT_MAX`, the macro `CACHE_SIZE` (from the
number of entries and the size of the string area), the functions `qsort` and
`bsearch` of the C library (`bsearch` yields the index of the element it
returns), and two facts about the allocator: `junk`, the content of the
characters that `xrealloc` adds to the block, and `stale`, what the entry
array reads as through the pointer `ce` that `cache_add` takes before
`xrealloc` and passes to `memmove` after it (the array itself when the block
was not moved, the content of the released block when it was). -/
structure cachecfg where
  CACHEENTRIES : Nat
  CACHEBUFFER : Nat
  SIZE_MAX : Nat
  UINT_MAX : Nat
  CACHE_SIZE : Nat → Nat → Nat
  junk : Char
  stale : List cacheent → List cacheent
  qsort : (cacheent → cacheent → Int) → List cacheent → List cacheent
  bsearch : (cacheent → Int) → List cacheent → Option Nat

/-- The key of an entry, `CACHE_KEY(cc, ce)`. -/
def CACHE_KEY (c : cache) (ce : cacheent) : List Char :=
  cstr_at c.str ce.key

/-- The value of an entry, `CACHE_VALUE(cc, ce)`. -/
def CACHE_VALUE (c : cache) (ce : cacheent) : List Char :=
  cstr_at c.str ce.value

/-- Comparison of two entries for `qsort`, `cache_sortcmp`; `c` is the cache
that `cache_reference` points to. -/
def cache_sortcmp (c : cache) (ce1 ce2 : cacheent) : Int :=
  if ce1.used = 0 ∧ ce2.used ≠ 0 then 1
  else if ce1.used ≠ 0 ∧ ce2.used = 0 then -1
  else if ce1.used = 0 ∧ ce2.used = 0 then 0
  else strcmp (CACHE_KEY c ce1) (CACHE_KEY c ce2)

/-- Comparison of a key with an entry for `bsearch`, `cache_searchcmp`. -/
def cache_searchcmp (c : cache) (key1 : List Char) (ce : cacheent) : Int :=
  if ce.used = 0 then -1 else strcmp key1 (CACHE_KEY c ce)

/-- The entry `CACHE_ENTRY(cc, n)`; the zeroed entry stands for a read
outside the array. -/
def cache_entry (c : cache) (n : Nat) : cacheent :=
  c.ents.getD n ⟨0, 0, 0⟩

/-- Reset a cache, `cache_clear`: `CACHEENTRIES` zeroed entries and a string
area of `CACHEBUFFER` characters, none of them in use. -/
def cache_clear (cfg : cachecfg) (c : cache) : cache :=
  { ents := List.replicate cfg.CACHEENTRIES ⟨0, 0, 0⟩,
    str := (c.str ++ List.replicate cfg.CACHEBUFFER cfg.junk).take cfg.CACHEBUFFER,
    str_used := 0 }

/-- Look a key up, `cache_find`: the index of the entry that `bsearch`
returns, or `none` for `NULL`. -/
def cache_find (cfg : cachecfg) (c : cache) (key : List Char) : Option Nat :=
  cfg.bsearch (cache_searchcmp c key) c.ents

/-- The loop of `cache_add` that doubles `str_size` until `need` characters
are free; `size` is the running value of `str_size`. The argument before
`size` bounds the number of iterations: with a string area that is not empty
every doubling frees at least one more character, so `need + 1` iterations
are enough (`cache_add_size_fuel`). -/
def cache_add_size (cfg : cachecfg) (c : cache) (need : Nat) : Nat → Nat → Except String Nat
  | 0, _ => Except.error "cache_add: no return"
  | n + 1, size =>
    if size - c.str_used < need then
      if cfg.CACHE_SIZE c.ents.length size > cfg.SIZE_MAX / 2 then
        Except.error "cache_add: size too large"
      else cache_add_size cfg c need n (size * 2)
    else Except.ok size

/-- The block of `cache_add` that stores the key in the entry `n`:
`ce->key = str_used; memcpy(CACHE_KEY(*cc, ce), key, keylen);
str_used += keylen`. -/
def cache_add_key (c : cache) (n : Nat) (key : List Char) : cache :=
  { ents := c.ents.set n { cache_entry c n with key := c.str_used },
    str := memcpy_str c.str c.str_used key,
    str_used := c.str_used + (key.length + 1) }

/-- The end of `cache_add` for the entry `n`: the value is stored, and an
entry that was not in use is marked used and the array is sorted. -/
def cache_add_value (cfg : cachecfg) (c : cache) (n : Nat) (value : List Char) : cache :=
  let c1 : cache :=
    { ents := c.ents.set n { cache_entry c n with value := c.str_used },
      str := memcpy_str c.str c.str_used value,
      str_used := c.str_used + (value.length + 1) }
  if (cache_entry c1 n).used ≠ 0 then c1
  else
    let c2 : cache := { c1 with ents := c1.ents.set n { cache_entry c1 n with used := 1 } }
    { c2 with ents := cfg.qsort (cache_sortcmp c2) c2.ents }

/-- The block of `cache_add` that follows the loop, for the new `str_size`
`size`: when the size has changed, `xrealloc` enlarges the block and
`memmove` copies the entries read through `ce` to their place. -/
def cache_add_grow (cfg : cachecfg) (c : cache) (size : Nat) : cache :=
  if size ≠ c.str.length then
    { c with ents := cfg.stale c.ents,
             str := c.str ++ List.replicate (size - c.str.length) cfg.junk }
  else c

/-- The block of `cache_add` that doubles the entry array: the new half is
zeroed by `memset`. -/
def cache_add_double (c : cache) : cache :=
  { c with ents := c.ents ++ List.replicate c.ents.length ⟨0, 0, 0⟩ }

/-- The part of `cache_add` after the string area has been enlarged: the
entry of the key is looked up; a key that is not found takes the last entry,
after the array has been doubled when that entry is in use. -/
def cache_add_entry (cfg : cachecfg) (c : cache) (key value : List Char) :
    Except String cache :=
  match cache_find cfg c key with
  | some n => Except.ok (cache_add_value cfg c n value)
  | none =>
    -- all of the unused entries are at the end
    if (cache_entry c (c.ents.length - 1)).used ≠ 0 then
      -- allocate some more
      if c.ents.length > cfg.UINT_MAX / 2 then Except.error "cache_add: entries too large"
      else
        Except.ok (cache_add_value cfg
          (cache_add_key (cache_add_double c) ((cache_add_double c).ents.length - 1) key)
          ((cache_add_double c).ents.length - 1) value)
    else
      Except.ok (cache_add_value cfg (cache_add_key c (c.ents.length - 1) key)
        (c.ents.length - 1) value)

/-- Add a key and its value, `cache_add`; the error is the message of
`fatalx`. -/
def cache_add (cfg : cachecfg) (c : cache) (key value : List Char) : Except String cache :=
  let keylen := key.length + 1
  let valuelen := value.length + 1
  match cache_add_size cfg c (keylen + valuelen) (keylen + valuelen + 1) c.str.length with
  | Except.error msg => Except.error msg
  | Except.ok size => cache_add_entry cfg (cache_add_grow cfg c size) key value

/-- Delete the entry `n`, `cache_delete`. -/
def cache_delete (cfg : cachecfg) (c : cache) (n : Nat) : cache :=
  let c1 : cache := { c with ents := c.ents.set n { cache_entry c n with used := 0 } }
  { c1 with ents := cfg.qsort (cache_sortcmp c1) c1.ents }

/-! ## Words of the specification -/

/-- The four scheme prefixes with the type, the TLS-to-proxy flag and the
default service name that the specification assigns to each. -/
def spec_schemes : List (List Char × proxytype × Int × List Char) :=
  [ ("http://".toList, proxytype.PROXY_HTTP, 0, "http".toList),
    ("https://".toList, proxytype.PROXY_HTTPS, 1, "https".toList),
    ("socks://".toList, proxytype.PROXY_SOCKS5, 0, "socks".toList),
    ("socks5://".toList, proxytype.PROXY_SOCKS5, 0, "socks".toList) ]

/-- A non-empty URL component without colon, at sign or slash. -/
def plain (s : List Char) : Prop :=
  s ≠ [] ∧ ':' ∉ s ∧ '@' ∉ s ∧ '/' ∉ s

instance (s : List Char) : Decidable (plain s) := by
  unfold plain
  infer_instance

/-- The optional `user:pass@` part of a URL. -/
def credpart : Option (List Char × List Char) → List Char
  | none => []
  | some (u, p) => u ++ ':' :: p ++ ['@']

/-- The optional `:port` part of a URL. -/
def portpart : Option (List Char) → List Char
  | none => []
  | some q => ':' :: q

/-- What remains of a URL remainder once all trailing slashes are stripped. -/
def spec_strip (r : List Char) : List Char :=
  r.rdropWhile (· = '/')

/-- The part of the remainder before the at sign. -/
def before_at (rem : List Char) : List Char :=
  rem.takeWhile (· ≠ '@')

/-- The part of the remainder after the credentials: what follows the at
sign when there is one, the whole remainder otherwise. -/
def after_cred (rem : List Char) : List Char :=
  if '@' ∈ rem then (rem.dropWhile (· ≠ '@')).tail else rem

/-- The user part: everything before the first colon. -/
def user_part (rem : List Char) : List Char :=
  rem.takeWhile (· ≠ ':')

/-- The password part: everything between the first colon and the at
sign. -/
def pass_part (rem : List Char) : List Char :=
  ((before_at rem).dropWhile (· ≠ ':')).tail

/-- The host: the part after the credentials up to its first colon. -/
def host_part (rem : List Char) : List Char :=
  (after_cred rem).takeWhile (· ≠ ':')

/-- The port: what follows the first colon of the part after the
credentials. -/
def port_part (rem : List Char) : List Char :=
  ((after_cred rem).dropWhile (· ≠ ':')).tail

/-- Conditions (ii) to (v) under which a stripped remainder is rejected:
it is empty; it contains an at sign and there is no colon before the at sign,
or the user part is empty, or the password part is empty; the part after the
credentials contains a colon followed by an empty port; the host is empty. -/
def rem_rejected (rem : List Char) : Prop :=
  rem = []
    ∨ ('@' ∈ rem ∧ (':' ∉ before_at rem ∨ user_part rem = [] ∨ pass_part rem = []))
    ∨ (':' ∈ after_cred rem ∧ port_part rem = [])
    ∨ host_part rem = []

instance (rem : List Char) : Decidable (rem_rejected rem) := by
  unfold rem_rejected
  infer_instance

/-- Conditions (i) to (v) under which a URL is rejected: it starts with none
of the four scheme prefixes, or the remainder after its scheme prefix, with
the trailing slashes stripped, is rejected. -/
def url_rejected (url : List Char) : Prop :=
  (∀ row ∈ spec_schemes, ¬ row.1 <+: url)
    ∨ (∃ row ∈ spec_schemes, row.1 <+: url ∧ rem_rejected (spec_strip (url.drop row.1.length)))

instance (url : List Char) : Decidable (url_rejected url) := by
  unfold url_rejected
  infer_instance

/-- The user as the specification words it: everything before the last colon
that precedes the at sign. -/
def user_lastcolon (rem : List Char) : List Char :=
  (((before_at rem).reverse.dropWhile (· ≠ ':')).tail).reverse

/-- The password as the specification words it: everything between the last
colon that precedes the at sign and the at sign. -/
def pass_lastcolon (rem : List Char) : List Char :=
  ((before_at rem).reverse.takeWhile (· ≠ ':')).reverse

/-- A port string resolves to `n`: the services table is consulted first,
otherwise the string is a decimal number in [1, 65535]. -/
def spec_resolves (sv : List Char → Option Nat) (port : List Char) (n : Nat) : Prop :=
  sv port = some n
    ∨ (sv port = none ∧ port ≠ [] ∧ (∀ c ∈ port, c.isDigit = true) ∧ decimal port = n
        ∧ 1 ≤ n ∧ n ≤ 65535)

instance (sv : List Char → Option Nat) (port : List Char) (n : Nat) :
    Decidable (spec_resolves sv port n) := by
  unfold spec_resolves
  infer_instance

/-- The description that the specification assigns to a non-zero status
byte of the connect response. -/
def spec_status_text (s : Nat) : String :=
  if s = 1 then "server failure"
  else if s = 2 then "connection not permitted"
  else if s = 3 then "network unreachable"
  else if s = 4 then "host unreachable"
  else if s = 5 then "connection refused"
  else if s = 6 then "TTL expired"
  else if s = 7 then "command not supported"
  else if s = 8 then "address type not supported"
  else "unknown failure"

/-- The status-line condition of the specification: at least 12 characters,
starting with `HTTP/`, with the four characters ` 200` at offset 8. -/
def spec_status_ok (line : List Char) : Prop :=
  12 ≤ line.length ∧ "HTTP/".toList <+: line ∧ (line.drop 8).take 4 = " 200".toList

instance (line : List Char) : Decidable (spec_status_ok line) := by
  unfold spec_status_ok
  infer_instance

/-- A sequence of bytes is one line for the terminator `eol`: the terminator
does not occur in the terminated line before its end. -/
def isline (eol : List Nat) (l : List Nat) : Prop :=
  ∀ k, k < l.length → ¬ eol <+: (l ++ eol).drop k

instance (eol l : List Nat) : Decidable (isline eol l) := by
  unfold isline
  infer_instance

/-- A line of a response, as a C string: no NUL character, and one line for
the terminator. -/
def wfline (eol : List Char) (l : List Char) : Prop :=
  (∀ c ∈ l, c.toNat ≠ 0) ∧ isline (bytes eol) (bytes l)

instance (eol l : List Char) : Decidable (wfline eol l) := by
  unfold wfline
  infer_instance

/-- The bytes of a response made of the given lines, each followed by the
line terminator. -/
def spec_response (eol : List Char) : List (List Char) → List Nat
  | [] => []
  | l :: ls => bytes l ++ bytes eol ++ spec_response eol ls

/-- The request line of the HTTP CONNECT negotiation for a host and a port
number. -/
def spec_connect_line (host : List Char) (n : Nat) : List Char :=
  "CONNECT ".toList ++ host ++ ":".toList ++ (toString n).toList ++ " HTTP/1.1".toList

/-- A candidate address succeeds: both `socket` and `connect` succeed for
it. -/
def cand_ok (c : candidate) : Prop :=
  0 ≤ c.sock ∧ 0 ≤ c.conn

instance (c : candidate) : Decidable (cand_ok c) := by
  unfold cand_ok
  infer_instance

/-- The calls made for a candidate that does not succeed: `socket` alone
when it fails, otherwise `socket`, the failing `connect`, and `close` of the
socket. -/
def spec_failed_calls (c : candidate) : List event :=
  if c.sock < 0 then [event.socket c.addr]
  else [event.socket c.addr, event.connect c.sock c.addr, event.close c.sock]

/-- The calls made for a list of candidates none of which succeeds, in list
order. -/
def spec_failed : List candidate → List event
  | [] => []
  | c :: cs => spec_failed_calls c ++ spec_failed cs

/-- The cause after a candidate that did not succeed: the name of the
operation that failed for it and the description of its system error. -/
def spec_failed_cause (e : env) (c : candidate) : String :=
  if c.sock < 0 then "socket" ++ ": " ++ e.strerror c.sock_errno
  else "connect" ++ ": " ++ e.strerror c.conn_errno

/-- A sort that meets the contract of `qsort`: insertion sort. -/
def qsort_insertion (cmp : cacheent → cacheent → Int) (l : List cacheent) : List cacheent :=
  l.insertionSort (fun x y => cmp x y ≤ 0)

/-- A search that meets the contract of `bsearch`: the index of the first
element that compares equal. -/
def bsearch_scan (cmp : cacheent → Int) : List cacheent → Option Nat
  | [] => none
  | x :: xs => if cmp x = 0 then some 0 else (bsearch_scan cmp xs).map (· + 1)

/-- An instance of what cache.c takes from outside: four entries and sixteen
characters to start with, a block of a 24-byte header and 24-byte entries,
conforming `qsort` and `bsearch`, and an allocator whose `xrealloc` moves the
block and clears the memory it releases, so that the entries read as zeroes
through a pointer into the old block. -/
def cachecfg_cleared : cachecfg :=
  ⟨4, 16, 2 ^ 64 - 1, 2 ^ 32 - 1, fun e s => 24 + 24 * e + s, 'J',
    fun l => l.map (fun _ => ⟨0, 0, 0⟩), qsort_insertion, bsearch_scan⟩

/-- The contract of `qsort` in ISO C, for a comparison that orders its
arguments consistently: the result holds the same elements, in ascending
order. -/
def qsort_ok (q : (cacheent → cacheent → Int) → List cacheent → List cacheent) : Prop :=
  ∀ cmp : cacheent → cacheent → Int,
    (∀ x y, cmp x y ≤ 0 ∨ cmp y x ≤ 0) →
    (∀ x y z, cmp x y ≤ 0 → cmp y z ≤ 0 → cmp x z ≤ 0) →
    ∀ l, (q cmp l).Perm l ∧ (q cmp l).Pairwise (fun x y => cmp x y ≤ 0)

/-- The contract of `bsearch` in ISO C: in an array whose elements below the
key come first, then those equal to it, then those above it, the result is an
element that compares equal, and it is `NULL` only when there is none. -/
def bsearch_ok (b : (cacheent → Int) → List cacheent → Option Nat) : Prop :=
  ∀ (cmp : cacheent → Int) (l : List cacheent),
    l.Pairwise (fun x y => (0 ≤ cmp y → 0 ≤ cmp x) ∧ (0 < cmp y → 0 < cmp x)) →
    (∀ n, b cmp l = some n → n < l.length ∧ cmp (l.getD n ⟨0, 0, 0⟩) = 0) ∧
    (b cmp l = none → ∀ x ∈ l, cmp x ≠ 0)

/-- The order of the entry array: an unused entry is followed by unused
entries only, and the keys of used entries increase strictly under
`strcmp`. -/
def cache_before (c : cache) (x y : cacheent) : Prop :=
  (x.used = 0 → y.used = 0) ∧
  (x.used ≠ 0 → y.used ≠ 0 → strcmp (CACHE_KEY c x) (CACHE_KEY c y) < 0)

/-- A well-formed cache: there is an entry, the string area is not empty and
holds `str_used` characters, the entries are in order, and the key and the
value of every used entry end below `str_used`. -/
def cache_inv (c : cache) : Prop :=
  c.ents ≠ [] ∧ 1 ≤ c.str.length ∧ c.str_used ≤ c.str.length ∧
  c.ents.Pairwise (cache_before c) ∧
  ∀ e ∈ c.ents, e.used ≠ 0 →
    (CACHE_KEY c e).length + e.key < c.str_used ∧
    (CACHE_VALUE c e).length + e.value < c.str_used

/-- The caches reachable from `cache_clear` by `cache_add` of C strings and
`cache_delete` of an entry of the array. -/
inductive cache_reachable (cfg : cachecfg) : cache → Prop
  | clear (c : cache) : cache_reachable cfg (cache_clear cfg c)
  | add (c c2 : cache) (k v : List Char) : cache_reachable cfg c → NUL ∉ k → NUL ∉ v →
      cache_add cfg c k v = Except.ok c2 → cache_reachable cfg c2
  | delete (c : cache) (n : Nat) : cache_reachable cfg c → n < c.ents.length →
      cache_reachable cfg (cache_delete cfg c n)

/-- `cache_find` returns a used entry of the array whose key is `k` and whose
value is `v`. -/
def cache_found (cfg : cachecfg) (c : cache) (k v : List Char) : Prop :=
  ∃ n, cache_find cfg c k = some n ∧ n < c.ents.length ∧ (cache_entry c n).used ≠ 0 ∧
    CACHE_KEY c (cache_entry c n) = k ∧ CACHE_VALUE c (cache_entry c n) = v

/-- Some used entry of the array has key `k` and value `v`. -/
def cache_holds (c : cache) (k v : List Char) : Prop :=
  ∃ e ∈ c.ents, e.used ≠ 0 ∧ CACHE_KEY c e = k ∧ CACHE_VALUE c e = v

/-- The number of used entries. -/
def cache_used (c : cache) : Nat :=
  (c.ents.filter (fun e => decide (e.used ≠ 0))).length

/-- The same instance with an allocator that leaves the entries as they
were when they are read through a pointer into the old block. -/
def cachecfg_kept : cachecfg :=
  { cachecfg_cleared with stale := fun l => l }

/-- The order of the entry array can be decided. -/
instance cache_before_decidable (c : cache) : DecidableRel (cache_before c) :=
  fun x y => by unfold cache_before; exact inferInstance

/-- The same instance with an allocator whose `xrealloc` grows the block into
free space in front of it, by the size of one entry: the data moves down by
one entry, so that a pointer to the old place of the entry array reads the
entries from the second on, and the last entry, which was not overwritten,
once more. -/
def cachecfg_shifted : cachecfg :=
  { cachecfg_cleared with stale := fun l => l.drop 1 ++ l.drop (l.length - 1) }

end Fdm

namespace Fdm

/-! ## Lemmas on the string primitives -/

theorem strchr_eq (s : List Char) (c : Char) :
    strchr s c = if c ∈ s then some (s.takeWhile (· ≠ c)).length else none := by
  induction s with
  | nil => simp [strchr]
  | cons x xs ih =>
    by_cases hx : x = c
    · simp [strchr, hx]
    · have hx2 : ¬ c = x := fun h => hx h.symm
      simp only [strchr, hx, if_false, ih, List.mem_cons, hx2, false_or]
      by_cases hm : c ∈ xs
      · simp [hm, List.takeWhile, hx]
      · simp [hm]

theorem take_takeWhile_length (s : List Char) (p : Char → Bool) :
    s.take (s.takeWhile p).length = s.takeWhile p := by
  induction s with
  | nil => simp
  | cons x xs ih =>
    by_cases hx : p x = true
    · simp [List.takeWhile, hx, ih]
    · simp [List.takeWhile, hx]

theorem drop_takeWhile_length (s : List Char) (p : Char → Bool) :
    s.drop (s.takeWhile p).length = s.dropWhile p := by
  induction s with
  | nil => simp
  | cons x xs ih =>
    by_cases hx : p x = true
    · simp [List.takeWhile, List.dropWhile, hx, ih]
    · simp [List.takeWhile, List.dropWhile, hx]

theorem strchr_not_mem (s : List Char) (c : Char) (h : c ∉ s) : strchr s c = none := by
  simp [strchr_eq, h]

theorem strchr_append_cons (a b : List Char) (c : Char) (h : c ∉ a) :
    strchr (a ++ c :: b) c = some a.length := by
  induction a with
  | nil => simp [strchr]
  | cons x xs ih =>
    have hx : ¬ x = c := fun e => h (by simp [e])
    have hxs : c ∉ xs := fun e => h (by simp [e])
    simp [strchr, hx, ih hxs]

theorem drop_append_cons (a b : List Char) (c : Char) :
    (a ++ c :: b).drop (a.length + 1) = b := by
  induction a with
  | nil => simp
  | cons x xs ih => simp

theorem stripslash_eq (s : List Char) : stripslash s = s.dropWhile (· = '/') := by
  induction s with
  | nil => simp [stripslash]
  | cons x xs ih =>
    by_cases hx : x = '/'
    · simp [stripslash, List.dropWhile, hx, ih]
    · simp [stripslash, List.dropWhile, hx]

theorem striptrailing_eq (s : List Char) : striptrailing s = s.rdropWhile (· = '/') := by
  simp [striptrailing, stripslash_eq, List.rdropWhile]

theorem striptrailing_eq_self (s : List Char) (h : '/' ∉ s) : striptrailing s = s := by
  rw [striptrailing_eq, List.rdropWhile_eq_self_iff]
  intro hl hp
  apply h
  have := List.getLast_mem hl
  simpa using (by simpa using hp : s.getLast hl = '/') ▸ this

theorem findproxy_spec (row : List Char × proxytype × Int × List Char)
    (hrow : row ∈ spec_schemes) (r : List Char) :
    findproxy (row.1 ++ r) proxylist = some ⟨row.1, row.2.1, row.2.2.1, row.2.2.2⟩ := by
  simp only [spec_schemes, List.mem_cons, List.mem_singleton, List.not_mem_nil, or_false] at hrow
  rcases hrow with h | h | h | h <;> subst h <;>
    simp [findproxy, proxylist, strncmp]

theorem getproxy_spec (row : List Char × proxytype × Int × List Char)
    (hrow : row ∈ spec_schemes) (r : List Char) :
    getproxy (row.1 ++ r) = getproxy_parse ⟨row.1, row.2.1, row.2.2.1, row.2.2.2⟩ r := by
  simp [getproxy, findproxy_spec row hrow r]

theorem getproxy_hostport_plain (pr : proxy) (h : List Char) (q : Option (List Char))
    (hh : plain h) (hq : ∀ x, q = some x → plain x) :
    getproxy_hostport pr (h ++ portpart q)
      = some { pr with server := { pr.server with host := h, port := q.getD pr.server.port } } := by
  obtain ⟨hne, hcolon, -, -⟩ := hh
  cases q with
  | none =>
    simp [getproxy_hostport, portpart, strchr_not_mem h ':' hcolon, hne]
  | some x =>
    obtain ⟨xne, -, -, -⟩ := hq x rfl
    simp [getproxy_hostport, portpart, strchr_append_cons h x ':' hcolon, hne, xne]

/-! ## getproxy: round trip -/

theorem not_mem_plain_tail (h : List Char) (q : Option (List Char)) (c : Char)
    (hc : c ≠ ':') (hh : c ∉ h) (hq : ∀ x, q = some x → c ∉ x) : c ∉ h ++ portpart q := by
  cases q with
  | none => simpa [portpart] using hh
  | some x => simp [portpart, hh, hc, hq x rfl]

/-- C1: round trip of `getproxy` over well-formed URLs. For each of the four
scheme prefixes, every non-empty host `h`, optional non-empty port `q` and
optional non-empty user and password `c = (u, p)`, none of them containing a
colon, an at sign or a slash, `getproxy` applied to
`scheme ++ [u ':' p '@'] ++ h ++ [':' q]` returns the descriptor with host `h`,
port `q` (or the default service name of the scheme), user `u` and password
`p` (or both absent), the type of the scheme, and the TLS flag of the scheme
(1 for https only). -/
theorem getproxy_roundtrip (row : List Char × proxytype × Int × List Char)
    (hrow : row ∈ spec_schemes) (h : List Char) (q : Option (List Char))
    (c : Option (List Char × List Char)) (hh : plain h) (hq : ∀ x, q = some x → plain x)
    (hc : ∀ u p, c = some (u, p) → plain u ∧ plain p) :
    getproxy (row.1 ++ (credpart c ++ (h ++ portpart q)))
      = some { type := row.2.1, user := c.map Prod.fst, pass := c.map Prod.snd,
               server := { host := h, port := q.getD row.2.2.2, ssl := row.2.2.1,
                           verify := 0 } } := by
  rw [getproxy_spec row hrow]
  have hslash : '/' ∉ h ++ portpart q :=
    not_mem_plain_tail h q '/' (by decide) hh.2.2.2 (fun x hx => (hq x hx).2.2.2)
  have hat : '@' ∉ h ++ portpart q :=
    not_mem_plain_tail h q '@' (by decide) hh.2.2.1 (fun x hx => (hq x hx).2.2.1)
  have hne : h ++ portpart q ≠ [] := by
    have := hh.1
    simp [this]
  cases c with
  | none =>
    simp only [credpart, List.nil_append, getproxy_parse, striptrailing_eq_self _ hslash,
      strchr_not_mem _ '@' hat, if_neg hne, Option.map_none']
    rw [getproxy_hostport_plain _ h q hh hq]
  | some up =>
    obtain ⟨u, p⟩ := up
    obtain ⟨⟨une, ucolon, uat, uslash⟩, ⟨pne, pcolon, pat, pslash⟩⟩ := hc u p rfl
    have hs : '/' ∉ credpart (some (u, p)) ++ (h ++ portpart q) := by
      simp only [List.mem_append, not_or] at hslash
      simp [credpart, uslash, pslash, hslash.1, hslash.2]
    have e1 : credpart (some (u, p)) ++ (h ++ portpart q)
        = (u ++ ':' :: p) ++ '@' :: (h ++ portpart q) := by
      simp [credpart]
    have e2 : (u ++ ':' :: p) ++ '@' :: (h ++ portpart q)
        = u ++ ':' :: (p ++ '@' :: (h ++ portpart q)) := by
      simp
    have hat2 : '@' ∉ u ++ ':' :: p := by
      simp [uat, pat]
    have s1 : strchr (credpart (some (u, p)) ++ (h ++ portpart q)) '@'
        = some (u ++ ':' :: p).length := by
      rw [e1]; exact strchr_append_cons _ _ _ hat2
    have s2 : strchr (credpart (some (u, p)) ++ (h ++ portpart q)) ':' = some u.length := by
      rw [e1, e2]; exact strchr_append_cons _ _ _ ucolon
    have t1 : (credpart (some (u, p)) ++ (h ++ portpart q)).take u.length = u := by
      rw [e1, e2]; simp
    have t2 : ((credpart (some (u, p)) ++ (h ++ portpart q)).take (u ++ ':' :: p).length).drop
        (u.length + 1) = p := by
      rw [e1, List.take_left]
      simp
    have t3 : (credpart (some (u, p)) ++ (h ++ portpart q)).drop ((u ++ ':' :: p).length + 1)
        = h ++ portpart q := by
      rw [e1]
      exact drop_append_cons _ _ _
    have hcne : credpart (some (u, p)) ++ (h ++ portpart q) ≠ [] := by
      simp [credpart]
    have hlt : ¬ (u.length ≥ (u ++ ':' :: p).length) := by
      simp
    simp only [getproxy_parse, striptrailing_eq_self _ hs, if_neg hcne, s1, s2, if_neg hlt, t1, t2,
      t3, une, pne, or_self, if_false, Option.map_some']
    rw [getproxy_hostport_plain _ h q hh hq]

/-- C1 witness: the URL `socks5://u:p@host:1080`. -/
theorem getproxy_roundtrip_witness :
    getproxy ("socks5://".toList ++ (credpart (some (['u'], ['p']))
        ++ ("host".toList ++ portpart (some "1080".toList))))
      = some { type := proxytype.PROXY_SOCKS5, user := some ['u'], pass := some ['p'],
               server := { host := "host".toList, port := "1080".toList, ssl := 0,
                           verify := 0 } } :=
  getproxy_roundtrip ("socks5://".toList, proxytype.PROXY_SOCKS5, 0, "socks".toList)
    (by simp [spec_schemes]) "host".toList (some "1080".toList) (some (['u'], ['p']))
    (by simp [plain]) (by simp [plain]) (by simp [plain])

/-! ## getproxy: the parse in terms of the parts of the remainder -/

theorem mem_take_idx (s : List Char) (c : Char) (n : Nat) (hc : c ∈ s) :
    c ∈ s.take n ↔ (s.takeWhile (· ≠ c)).length < n := by
  induction s generalizing n with
  | nil => simp at hc
  | cons x xs ih =>
    cases n with
    | zero => simp
    | succ n =>
      by_cases hx : x = c
      · simp [List.takeWhile, hx]
      · have hxs : c ∈ xs := by
          rcases List.mem_cons.1 hc with h | h
          · exact absurd h.symm hx
          · exact h
        have hx2 : ¬ c = x := fun h => hx h.symm
        simp [List.takeWhile, hx, hx2, ih n hxs]

theorem takeWhile_take (s : List Char) (p : Char → Bool) (n : Nat)
    (h : (s.takeWhile p).length < n) : (s.take n).takeWhile p = s.takeWhile p := by
  induction s generalizing n with
  | nil => simp
  | cons x xs ih =>
    cases n with
    | zero => simp at h
    | succ n =>
      by_cases hx : p x = true
      · simp only [List.takeWhile, hx, List.length_cons, Nat.add_lt_add_iff_right] at h
        simp [List.takeWhile, hx, ih n h]
      · simp [List.takeWhile, hx]

theorem getproxy_hostport_eq (pr : proxy) (url : List Char) :
    getproxy_hostport pr url =
      if ':' ∈ url then
        if (url.dropWhile (· ≠ ':')).tail = [] then none
        else if url.takeWhile (· ≠ ':') = [] then none
        else some { pr with server := { pr.server with
                      host := url.takeWhile (· ≠ ':'),
                      port := (url.dropWhile (· ≠ ':')).tail } }
      else if url = [] then none
      else some { pr with server := { pr.server with host := url } } := by
  unfold getproxy_hostport
  rw [strchr_eq]
  by_cases hc : ':' ∈ url
  · simp only [hc, if_true, take_takeWhile_length, ← List.tail_drop, drop_takeWhile_length]
  · simp only [hc, if_false]

theorem getproxy_parse_eq (pe : proxyent) (r : List Char) :
    getproxy_parse pe r =
      if spec_strip r = [] then none
      else if '@' ∈ spec_strip r then
        if ':' ∈ before_at (spec_strip r) then
          if user_part (spec_strip r) = [] ∨ pass_part (spec_strip r) = [] then none
          else getproxy_hostport
            { type := pe.type, user := some (user_part (spec_strip r)),
              pass := some (pass_part (spec_strip r)),
              server := { host := [], port := pe.port, ssl := pe.ssl, verify := 0 } }
            (after_cred (spec_strip r))
        else none
      else getproxy_hostport
        { type := pe.type, user := none, pass := none,
          server := { host := [], port := pe.port, ssl := pe.ssl, verify := 0 } }
        (spec_strip r) := by
  unfold getproxy_parse
  simp only [striptrailing_eq, strchr_eq]
  have hs : List.rdropWhile (fun x => decide (x = '/')) r = spec_strip r := rfl
  rw [hs]
  generalize spec_strip r = rem
  by_cases hne : rem = []
  · simp [hne]
  by_cases hat : '@' ∈ rem
  · have hb : before_at rem = rem.take (rem.takeWhile (· ≠ '@')).length := by
      rw [take_takeWhile_length]; rfl
    by_cases hc : ':' ∈ rem
    · have hidx := mem_take_idx rem ':' (rem.takeWhile (· ≠ '@')).length hc
      rw [← hb] at hidx
      by_cases hcb : ':' ∈ before_at rem
      · have hlt := hidx.1 hcb
        have hu : rem.take (rem.takeWhile (· ≠ ':')).length = user_part rem := by
          rw [take_takeWhile_length]; rfl
        have hp : (rem.take (rem.takeWhile (· ≠ '@')).length).drop
            ((rem.takeWhile (· ≠ ':')).length + 1) = pass_part rem := by
          unfold pass_part
          rw [← drop_takeWhile_length, ← hb, List.tail_drop, hb, takeWhile_take _ _ _ hlt]
        have ha : rem.drop ((rem.takeWhile (· ≠ '@')).length + 1) = after_cred rem := by
          unfold after_cred
          rw [if_pos hat, ← List.tail_drop, drop_takeWhile_length]
        simp only [hne, hat, hc, hcb, if_true, if_false, hu, hp, ha, ge_iff_le,
          Nat.not_le.2 hlt]
      · have hge : ¬ (rem.takeWhile (· ≠ ':')).length < (rem.takeWhile (· ≠ '@')).length :=
          fun h => hcb (hidx.2 h)
        simp only [hne, hat, hc, hcb, if_true, if_false, ge_iff_le, Nat.not_lt.1 hge]
    · have hcb : ':' ∉ before_at rem := fun h => hc ((List.takeWhile_prefix _).subset h)
      simp only [hne, hat, hc, hcb, if_true, if_false]
  · simp only [hne, hat, if_false]

/-! ## getproxy: rejected URLs -/

theorem strncmp_zero_starts (p url : List Char) (hp : ∀ c ∈ p, c.toNat ≠ 0)
    (h : strncmp url p p.length = 0) : p <+: url := by
  induction p generalizing url with
  | nil => exact List.nil_prefix
  | cons y ys ih =>
    have hy : y.toNat ≠ 0 := hp y (by simp)
    cases url with
    | nil =>
      simp only [List.length_cons, strncmp] at h
      omega
    | cons x xs =>
      simp only [List.length_cons, strncmp] at h
      by_cases hxy : x = y
      · rw [if_pos hxy] at h
        subst hxy
        obtain ⟨t, ht⟩ := ih xs (fun c hc => hp c (by simp [hc])) h
        exact ⟨t, by simp [ht]⟩
      · rw [if_neg hxy] at h
        exfalso
        apply hxy
        have hn : x.toNat = y.toNat := by omega
        rw [← Char.ofNat_toNat x, ← Char.ofNat_toNat y, hn]

theorem findproxy_none (url : List Char) (h : ∀ row ∈ spec_schemes, ¬ row.1 <+: url) :
    findproxy url proxylist = none := by
  have h1 := h ("http://".toList, proxytype.PROXY_HTTP, 0, "http".toList) (by simp [spec_schemes])
  have h2 := h ("https://".toList, proxytype.PROXY_HTTPS, 1, "https".toList)
    (by simp [spec_schemes])
  have h3 := h ("socks://".toList, proxytype.PROXY_SOCKS5, 0, "socks".toList)
    (by simp [spec_schemes])
  have h4 := h ("socks5://".toList, proxytype.PROXY_SOCKS5, 0, "socks".toList)
    (by simp [spec_schemes])
  have n1 : strncmp url "http://".toList "http://".toList.length ≠ 0 :=
    fun e => h1 (strncmp_zero_starts _ _ (by decide) e)
  have n2 : strncmp url "https://".toList "https://".toList.length ≠ 0 :=
    fun e => h2 (strncmp_zero_starts _ _ (by decide) e)
  have n3 : strncmp url "socks://".toList "socks://".toList.length ≠ 0 :=
    fun e => h3 (strncmp_zero_starts _ _ (by decide) e)
  have n4 : strncmp url "socks5://".toList "socks5://".toList.length ≠ 0 :=
    fun e => h4 (strncmp_zero_starts _ _ (by decide) e)
  simp only [findproxy, proxylist, if_neg n1, if_neg n2, if_neg n3, if_neg n4]

theorem getproxy_hostport_none_iff (pr : proxy) (url : List Char) :
    getproxy_hostport pr url = none ↔
      (':' ∈ url ∧ (url.dropWhile (· ≠ ':')).tail = []) ∨ url.takeWhile (· ≠ ':') = [] := by
  rw [getproxy_hostport_eq]
  by_cases hc : ':' ∈ url
  · simp only [hc, if_true, true_and]
    by_cases hp : (url.dropWhile (· ≠ ':')).tail = []
    · simp only [hp, if_true, true_or]
    · by_cases hh : url.takeWhile (· ≠ ':') = []
      · simp only [hp, hh, if_true, if_false, or_true]
      · simp only [hp, hh, if_false, or_self, reduceCtorEq]
  · have ht : url.takeWhile (· ≠ ':') = url := by
      rw [List.takeWhile_eq_self_iff]
      intro x hx
      have : x ≠ ':' := fun e => hc (e ▸ hx)
      simpa using this
    by_cases hne : url = []
    · simp [hne]
    · simp only [hc, if_false, hne, false_and, false_or, ht]
      simp

theorem getproxy_parse_none_iff (pe : proxyent) (r : List Char) :
    getproxy_parse pe r = none ↔ rem_rejected (spec_strip r) := by
  rw [getproxy_parse_eq]
  unfold rem_rejected host_part port_part
  generalize spec_strip r = rem
  by_cases hne : rem = []
  · simp [hne]
  by_cases hat : '@' ∈ rem
  · by_cases hcb : ':' ∈ before_at rem
    · by_cases hup : user_part rem = [] ∨ pass_part rem = []
      · have : ':' ∉ before_at rem ∨ user_part rem = [] ∨ pass_part rem = [] := Or.inr hup
        simp [hne, hat, hcb, hup, this]
      · simp only [hne, hat, hcb, hup, if_true, if_false, getproxy_hostport_none_iff,
          not_true_eq_false, false_or, true_and]
    · simp [hne, hat, hcb]
  · have ha : after_cred rem = rem := by simp [after_cred, hat]
    simp only [hne, hat, if_false, getproxy_hostport_none_iff, ha, false_and, false_or]

/-- C2: `getproxy` returns no descriptor if and only if the URL is
rejected by one of the conditions (i) to (v): it starts with none of the four
scheme prefixes; the remainder with its trailing slashes stripped is empty;
the remainder contains an at sign and there is no colon before it, or the
user part (the text before the first colon) or the password part is empty;
the part after the credentials contains a colon followed by an empty port;
the host is empty. In particular `http://` and `http://u@host` are rejected
and `socks://host` is accepted without credentials. -/
theorem getproxy_none_iff_rejected :
    (∀ url : List Char, getproxy url = none ↔ url_rejected url)
      ∧ getproxy "http://".toList = none
      ∧ getproxy "http://u@host".toList = none
      ∧ getproxy "socks://host".toList
          = some { type := proxytype.PROXY_SOCKS5, user := none, pass := none,
                   server := { host := "host".toList, port := "socks".toList, ssl := 0,
                               verify := 0 } } := by
  refine ⟨?_, by decide, by decide, by decide⟩
  intro url
  constructor
  · intro hnone
    by_cases hm : ∃ row ∈ spec_schemes, row.1 <+: url
    · obtain ⟨row, hrow, r, hr⟩ := hm
      refine Or.inr ⟨row, hrow, ⟨r, hr⟩, ?_⟩
      subst hr
      rw [getproxy_spec row hrow, getproxy_parse_none_iff] at hnone
      simpa using hnone
    · exact Or.inl (fun row hrow hp => hm ⟨row, hrow, hp⟩)
  · rintro (hno | ⟨row, hrow, ⟨r, hr⟩, hrej⟩)
    · simp [getproxy, findproxy_none url hno]
    · subst hr
      rw [getproxy_spec row hrow, getproxy_parse_none_iff]
      simpa using hrej

/-! ## getproxy: credentials -/

theorem getproxy_hostport_some (pr d : proxy) (url : List Char)
    (h : getproxy_hostport pr url = some d) :
    d.type = pr.type ∧ d.user = pr.user ∧ d.pass = pr.pass := by
  rw [getproxy_hostport_eq] at h
  split_ifs at h <;> (injection h with h; subst h; exact ⟨rfl, rfl, rfl⟩)

theorem getproxy_parse_some (pe : proxyent) (r : List Char) (d : proxy)
    (h : getproxy_parse pe r = some d) :
    d.type = pe.type ∧
      (('@' ∉ spec_strip r ∧ d.user = none ∧ d.pass = none) ∨
       ('@' ∈ spec_strip r ∧ ':' ∈ before_at (spec_strip r)
          ∧ user_part (spec_strip r) ≠ [] ∧ pass_part (spec_strip r) ≠ []
          ∧ d.user = some (user_part (spec_strip r))
          ∧ d.pass = some (pass_part (spec_strip r)))) := by
  rw [getproxy_parse_eq] at h
  by_cases hne : spec_strip r = []
  · simp [hne] at h
  by_cases hat : '@' ∈ spec_strip r
  · by_cases hcb : ':' ∈ before_at (spec_strip r)
    · by_cases hup : user_part (spec_strip r) = [] ∨ pass_part (spec_strip r) = []
      · simp [hne, hat, hcb, hup] at h
      · simp only [hne, hat, hcb, hup, if_true, if_false] at h
        obtain ⟨h1, h2, h3⟩ := getproxy_hostport_some _ _ _ h
        exact ⟨h1, Or.inr ⟨hat, hcb, fun e => hup (Or.inl e), fun e => hup (Or.inr e), h2, h3⟩⟩
    · simp [hne, hat, hcb] at h
  · simp only [hne, hat, if_false] at h
    obtain ⟨h1, h2, h3⟩ := getproxy_hostport_some _ _ _ h
    exact ⟨h1, Or.inl ⟨hat, h2, h3⟩⟩

theorem getproxy_some (url : List Char) (d : proxy) (h : getproxy url = some d) :
    ∃ pe, findproxy url proxylist = some pe
      ∧ getproxy_parse pe (url.drop pe.proto.length) = some d := by
  unfold getproxy at h
  cases hf : findproxy url proxylist with
  | none => simp [hf] at h
  | some pe =>
    rw [hf] at h
    exact ⟨pe, rfl, h⟩

theorem takeWhile_append_of_neg (s t : List Char) (p : Char → Bool)
    (h : ∃ x ∈ s, p x = false) : (s ++ t).takeWhile p = s.takeWhile p := by
  induction s with
  | nil => simp at h
  | cons x xs ih =>
    by_cases hx : p x = true
    · obtain ⟨y, hy, hpy⟩ := h
      have hy2 : y ∈ xs := by
        rcases List.mem_cons.1 hy with e | e
        · rw [e, hx] at hpy
          exact absurd hpy (by simp)
        · exact e
      simp [List.takeWhile, hx, ih ⟨y, hy2, hpy⟩]
    · simp [List.takeWhile, hx]

theorem spec_strip_append (r : List Char) :
    ∃ t, r = spec_strip r ++ t ∧ ∀ x ∈ t, x = '/' := by
  refine ⟨(r.reverse.takeWhile (· = '/')).reverse, ?_, ?_⟩
  · unfold spec_strip List.rdropWhile
    rw [← List.reverse_append, List.takeWhile_append_dropWhile, List.reverse_reverse]
  · intro x hx
    have := List.mem_takeWhile_imp (List.mem_reverse.1 hx)
    simpa using this

theorem spec_strip_parts (r : List Char) (hat : '@' ∈ r) :
    '@' ∈ spec_strip r ∧ before_at (spec_strip r) = before_at r
      ∧ pass_part (spec_strip r) = pass_part r
      ∧ (':' ∈ before_at (spec_strip r) → user_part (spec_strip r) = user_part r) := by
  obtain ⟨t, ht, hall⟩ := spec_strip_append r
  have hs : '@' ∈ spec_strip r := by
    rw [ht] at hat
    rcases List.mem_append.1 hat with h | h
    · exact h
    · exact absurd (hall _ h) (by decide)
  have hb : before_at (spec_strip r) = before_at r := by
    unfold before_at
    conv_rhs => rw [ht]
    exact (takeWhile_append_of_neg _ t _ ⟨'@', hs, by simp⟩).symm
  refine ⟨hs, hb, by unfold pass_part; rw [hb], ?_⟩
  intro hc
  have hc2 : ':' ∈ spec_strip r := (List.takeWhile_prefix _).subset hc
  unfold user_part
  conv_rhs => rw [ht]
  exact (takeWhile_append_of_neg _ t _ ⟨':', hc2, by simp⟩).symm

/-- C3 (as stated, refuted): for `socks5://a:b:c@host` the code returns the
user `a` and the password `b:c`, whereas the split at the last colon before
the at sign is `a:b` and `c`. -/
theorem getproxy_lastcolon_counterexample :
    getproxy "socks5://a:b:c@host".toList
        = some { type := proxytype.PROXY_SOCKS5, user := some "a".toList,
                 pass := some "b:c".toList,
                 server := { host := "host".toList, port := "socks".toList, ssl := 0,
                             verify := 0 } }
      ∧ user_lastcolon "a:b:c@host".toList = "a:b".toList
      ∧ pass_lastcolon "a:b:c@host".toList = "c".toList
      ∧ ¬ (∀ d, getproxy "socks5://a:b:c@host".toList = some d →
            d.user = some (user_lastcolon "a:b:c@host".toList)
              ∧ d.pass = some (pass_lastcolon "a:b:c@host".toList)) := by
  refine ⟨by decide, by decide, by decide, ?_⟩
  intro h
  have h2 := (h _ (by decide : getproxy "socks5://a:b:c@host".toList
        = some { type := proxytype.PROXY_SOCKS5, user := some "a".toList,
                 pass := some "b:c".toList,
                 server := { host := "host".toList, port := "socks".toList, ssl := 0,
                             verify := 0 } })).1
  revert h2
  decide

/-- C3 (amended): for every URL accepted by `getproxy` whose remainder `r`
after the scheme prefix contains an at sign, the user of the returned
descriptor is everything before the first colon of the remainder and the
password is everything between that colon and the first at sign. -/
theorem getproxy_user_pass_firstcolon (row : List Char × proxytype × Int × List Char)
    (hrow : row ∈ spec_schemes) (r : List Char) (d : proxy)
    (hd : getproxy (row.1 ++ r) = some d) (hat : '@' ∈ r) :
    d.user = some (user_part r) ∧ d.pass = some (pass_part r) := by
  rw [getproxy_spec row hrow] at hd
  obtain ⟨hs, -, hp, hu⟩ := spec_strip_parts r hat
  obtain ⟨-, h | ⟨-, hcb, -, -, h1, h2⟩⟩ := getproxy_parse_some _ _ _ hd
  · exact absurd hs h.1
  · rw [h1, h2, hp, hu hcb]
    exact ⟨rfl, rfl⟩

/-- C3 (amended) witness: `socks5://a:b:c@host` gives user `a` and password
`b:c`. -/
theorem getproxy_user_pass_firstcolon_witness :
    getproxy ("socks5://".toList ++ "a:b:c@host".toList)
        = some { type := proxytype.PROXY_SOCKS5, user := some "a".toList,
                 pass := some "b:c".toList,
                 server := { host := "host".toList, port := "socks".toList, ssl := 0,
                             verify := 0 } }
      ∧ '@' ∈ "a:b:c@host".toList
      ∧ some "a".toList = some (user_part "a:b:c@host".toList)
      ∧ some "b:c".toList = some (pass_part "a:b:c@host".toList) :=
  ⟨by decide, by decide,
    getproxy_user_pass_firstcolon
      ("socks5://".toList, proxytype.PROXY_SOCKS5, 0, "socks".toList) (by simp [spec_schemes])
      "a:b:c@host".toList
      { type := proxytype.PROXY_SOCKS5, user := some "a".toList, pass := some "b:c".toList,
        server := { host := "host".toList, port := "socks".toList, ssl := 0, verify := 0 } }
      (by decide) (by decide)⟩

/-- C4: credential invariant of the descriptor. If `getproxy` returns a
descriptor, its user is present if and only if its password is present, and
when present both are non-empty. -/
theorem getproxy_credentials_invariant (url : List Char) (d : proxy)
    (hd : getproxy url = some d) :
    (d.user.isSome ↔ d.pass.isSome)
      ∧ (∀ u, d.user = some u → u ≠ [])
      ∧ (∀ p, d.pass = some p → p ≠ []) := by
  obtain ⟨pe, -, hp⟩ := getproxy_some url d hd
  obtain ⟨-, ⟨-, h1, h2⟩ | ⟨-, -, hu, hpw, h1, h2⟩⟩ := getproxy_parse_some _ _ _ hp
  · simp [h1, h2]
  · refine ⟨by simp [h1, h2], ?_, ?_⟩
    · intro u e
      rw [h1] at e
      injection e with e
      exact e ▸ hu
    · intro p e
      rw [h2] at e
      injection e with e
      exact e ▸ hpw

/-- C4 witness: the descriptor of `socks5://u:p@host:1080`. -/
theorem getproxy_credentials_invariant_witness :
    getproxy "socks5://u:p@host:1080".toList
        = some { type := proxytype.PROXY_SOCKS5, user := some "u".toList,
                 pass := some "p".toList,
                 server := { host := "host".toList, port := "1080".toList, ssl := 0,
                             verify := 0 } }
      ∧ ((some "u".toList : Option (List Char)).isSome
            ↔ (some "p".toList : Option (List Char)).isSome)
      ∧ (∀ u, some "u".toList = some u → u ≠ [])
      ∧ (∀ p, some "p".toList = some p → p ≠ []) :=
  ⟨by decide,
    getproxy_credentials_invariant "socks5://u:p@host:1080".toList
      { type := proxytype.PROXY_SOCKS5, user := some "u".toList, pass := some "p".toList,
        server := { host := "host".toList, port := "1080".toList, ssl := 0, verify := 0 } }
      (by decide)⟩

/-- C5 (as stated, refuted): `http://u:p@host` yields a descriptor of type
HTTP that carries the user `u` and the password `p`. -/
theorem getproxy_http_credentials_counterexample :
    getproxy "http://u:p@host".toList
        = some { type := proxytype.PROXY_HTTP, user := some "u".toList,
                 pass := some "p".toList,
                 server := { host := "host".toList, port := "http".toList, ssl := 0,
                             verify := 0 } }
      ∧ ¬ (∀ d, getproxy "http://u:p@host".toList = some d →
            (d.user.isSome ∨ d.pass.isSome) → d.type = proxytype.PROXY_SOCKS5) := by
  refine ⟨by decide, ?_⟩
  intro h
  have h2 := h _ (by decide : getproxy "http://u:p@host".toList
        = some { type := proxytype.PROXY_HTTP, user := some "u".toList,
                 pass := some "p".toList,
                 server := { host := "host".toList, port := "http".toList, ssl := 0,
                             verify := 0 } }) (by decide)
  revert h2
  decide

/-- C5 (amended): credentials are present on descriptors of every type. For
each of the four scheme prefixes and every URL with that prefix for which
`getproxy` returns a descriptor, the type of the descriptor is the type of
the scheme (HTTP, HTTPS or SOCKS5), and the descriptor carries a user or a
password exactly when the remainder of the URL contains an at sign, whatever
the scheme. -/
theorem getproxy_credentials_any_type (row : List Char × proxytype × Int × List Char)
    (hrow : row ∈ spec_schemes) (r : List Char) (d : proxy)
    (hd : getproxy (row.1 ++ r) = some d) :
    d.type = row.2.1 ∧ ((d.user.isSome ∨ d.pass.isSome) ↔ '@' ∈ r) := by
  rw [getproxy_spec row hrow] at hd
  obtain ⟨ht, ⟨hn, h1, h2⟩ | ⟨hs, -, -, -, h1, h2⟩⟩ := getproxy_parse_some _ _ _ hd
  · refine ⟨ht, ?_⟩
    have : '@' ∉ r := fun h => hn (spec_strip_parts r h).1
    simp [h1, h2, this]
  · refine ⟨ht, ?_⟩
    have : '@' ∈ r := by
      obtain ⟨t, e, -⟩ := spec_strip_append r
      rw [e]
      exact List.mem_append_left _ hs
    simp [h1, h2, this]

/-- C5 (amended) witness: `https://u:p@host` gives an HTTPS descriptor with
credentials. -/
theorem getproxy_credentials_any_type_witness :
    getproxy ("https://".toList ++ "u:p@host".toList)
        = some { type := proxytype.PROXY_HTTPS, user := some "u".toList,
                 pass := some "p".toList,
                 server := { host := "host".toList, port := "https".toList, ssl := 1,
                             verify := 0 } }
      ∧ proxytype.PROXY_HTTPS = proxytype.PROXY_HTTPS
      ∧ (((some "u".toList : Option (List Char)).isSome
            ∨ (some "p".toList : Option (List Char)).isSome) ↔ '@' ∈ "u:p@host".toList) :=
  ⟨by decide,
    getproxy_credentials_any_type
      ("https://".toList, proxytype.PROXY_HTTPS, 1, "https".toList) (by simp [spec_schemes])
      "u:p@host".toList
      { type := proxytype.PROXY_HTTPS, user := some "u".toList, pass := some "p".toList,
        server := { host := "host".toList, port := "https".toList, ssl := 1, verify := 0 } }
      (by decide)⟩

/-! ## socks5proxy: lemmas on the steps -/

theorem charval_eq_iff (a : abi) (b k : Nat) (hb : b < 256) (hk : k < 128) :
    charval a b = (k : Int) ↔ b = k := by
  unfold charval
  split_ifs with h <;> omega

theorem auth_iff (pr : proxy) :
    (pr.user ≠ none ∧ pr.pass ≠ none) ↔ (pr.user.isSome && pr.pass.isSome) = true := by
  cases pr.user <;> cases pr.pass <;> simp

theorem socks5_method_wr (a : abi) (pr : proxy) (i : io) :
    (socks5_method a pr i).conn.wr
      = i.wr ++ (if pr.user ≠ none ∧ pr.pass ≠ none then [5, 2, 0, 2] else [5, 1, 0]) := by
  have hiff : (pr.user ≠ none ∧ pr.pass ≠ none) ↔ (pr.user.isSome && pr.pass.isSome) = true :=
    auth_iff pr
  unfold socks5_method
  simp only [hiff]
  cases (pr.user.isSome && pr.pass.isSome) <;>
    (split_ifs <;> simp [stage.conn, io_write, io_read2])

theorem socks5_userpass_wr (a : abi) (pr : proxy) (buf : List Nat) (j : io) :
    ∃ more, (socks5_userpass a pr buf j).conn.wr = j.wr ++ more := by
  unfold socks5_userpass
  dsimp only
  split_ifs
  all_goals first
    | (refine ⟨[], ?_⟩; simp only [stage.conn, List.append_nil]; done)
    | exact ⟨_, rfl⟩

theorem socks5_request_wr (srv : server) (port : Int) (j : io) :
    ∃ more, (socks5_request srv port j).conn.wr = j.wr ++ more := by
  unfold socks5_request
  dsimp only
  split_ifs
  · exact ⟨[], by simp [stage.conn]⟩
  · exact ⟨_, rfl⟩

theorem socks5_response_wr (a : abi) (j : io) : (socks5_response a j).conn.wr = j.wr := by
  unfold socks5_response
  dsimp only
  split_ifs
  · rfl
  · rfl
  · cases socks5_status (charval a ((io_read2 j 5).1.getD 1 0)) <;> rfl

theorem socks5_flush_wr (a : abi) (buf : List Nat) (j : io) :
    (socks5_flush a buf j).conn.wr = j.wr := by
  unfold socks5_flush
  cases socks5_flushlen a buf with
  | error c => rfl
  | ok len =>
    simp only
    split_ifs <;> rfl

theorem socks5proxy_wr (a : abi) (sv : List Char → Option Nat) (srv : server) (pr : proxy)
    (i : io) (hport : 0 ≤ getport sv srv.port) :
    ∃ more, (socks5proxy a sv srv pr i).conn.wr = (socks5_method a pr i).conn.wr ++ more := by
  unfold socks5proxy
  rw [if_neg (by omega)]
  cases h1 : socks5_method a pr i with
  | fail c j => exact ⟨[], by simp [stage.conn]⟩
  | next buf j =>
    dsimp only [stage.conn]
    obtain ⟨m2, e2⟩ := socks5_userpass_wr a pr buf j
    cases h2 : socks5_userpass a pr buf j with
    | fail c k =>
      rw [h2] at e2
      exact ⟨m2, e2⟩
    | next u k =>
      rw [h2] at e2
      dsimp only [stage.conn] at e2 ⊢
      obtain ⟨m3, e3⟩ := socks5_request_wr srv (getport sv srv.port) k
      cases h3 : socks5_request srv (getport sv srv.port) k with
      | fail c l =>
        rw [h3] at e3
        dsimp only [stage.conn] at e3 ⊢
        exact ⟨m2 ++ m3, by rw [e3, e2, List.append_assoc]⟩
      | next u2 l =>
        rw [h3] at e3
        dsimp only [stage.conn] at e3 ⊢
        have e4 := socks5_response_wr a l
        cases h4 : socks5_response a l with
        | fail c m =>
          rw [h4] at e4
          dsimp only [stage.conn] at e4 ⊢
          exact ⟨m2 ++ m3, by rw [e4, e3, e2, List.append_assoc]⟩
        | next buf2 m =>
          rw [h4] at e4
          dsimp only [stage.conn] at e4 ⊢
          have e5 := socks5_flush_wr a buf2 m
          cases h5 : socks5_flush a buf2 m with
          | fail c n =>
            rw [h5] at e5
            dsimp only [stage.conn] at e5 ⊢
            exact ⟨m2 ++ m3, by rw [e5, e4, e3, e2, List.append_assoc]⟩
          | next u3 n =>
            rw [h5] at e5
            dsimp only [stage.conn] at e5 ⊢
            exact ⟨m2 ++ m3, by rw [e5, e4, e3, e2, List.append_assoc]⟩

theorem socks5proxy_method_fail (a : abi) (sv : List Char → Option Nat) (srv : server)
    (pr : proxy) (i j : io) (c : String) (hport : 0 ≤ getport sv srv.port)
    (h1 : socks5_method a pr i = stage.fail c j) :
    socks5proxy a sv srv pr i = ⟨1, some c, j⟩ := by
  unfold socks5proxy
  rw [if_neg (by omega), h1]

theorem socks5proxy_userpass_fail (a : abi) (sv : List Char → Option Nat) (srv : server)
    (pr : proxy) (i j k : io) (buf : List Nat) (c : String) (hport : 0 ≤ getport sv srv.port)
    (h1 : socks5_method a pr i = stage.next buf j)
    (h2 : socks5_userpass a pr buf j = stage.fail c k) :
    socks5proxy a sv srv pr i = ⟨1, some c, k⟩ := by
  unfold socks5proxy
  rw [if_neg (by omega), h1]
  dsimp only
  rw [h2]

theorem socks5proxy_request_fail (a : abi) (sv : List Char → Option Nat) (srv : server)
    (pr : proxy) (i j k l : io) (buf : List Nat) (c : String)
    (hport : 0 ≤ getport sv srv.port)
    (h1 : socks5_method a pr i = stage.next buf j)
    (h2 : socks5_userpass a pr buf j = stage.next () k)
    (h3 : socks5_request srv (getport sv srv.port) k = stage.fail c l) :
    socks5proxy a sv srv pr i = ⟨1, some c, l⟩ := by
  unfold socks5proxy
  rw [if_neg (by omega), h1]
  dsimp only
  rw [h2]
  dsimp only
  rw [h3]

theorem socks5proxy_response_fail (a : abi) (sv : List Char → Option Nat) (srv : server)
    (pr : proxy) (i j k l m : io) (buf : List Nat) (c : String)
    (hport : 0 ≤ getport sv srv.port)
    (h1 : socks5_method a pr i = stage.next buf j)
    (h2 : socks5_userpass a pr buf j = stage.next () k)
    (h3 : socks5_request srv (getport sv srv.port) k = stage.next () l)
    (h4 : socks5_response a l = stage.fail c m) :
    socks5proxy a sv srv pr i = ⟨1, some c, m⟩ := by
  unfold socks5proxy
  rw [if_neg (by omega), h1]
  dsimp only
  rw [h2]
  dsimp only
  rw [h3]
  dsimp only
  rw [h4]

theorem socks5proxy_flush_fail (a : abi) (sv : List Char → Option Nat) (srv : server)
    (pr : proxy) (i j k l m n : io) (buf buf2 : List Nat) (c : String)
    (hport : 0 ≤ getport sv srv.port)
    (h1 : socks5_method a pr i = stage.next buf j)
    (h2 : socks5_userpass a pr buf j = stage.next () k)
    (h3 : socks5_request srv (getport sv srv.port) k = stage.next () l)
    (h4 : socks5_response a l = stage.next buf2 m)
    (h5 : socks5_flush a buf2 m = stage.fail c n) :
    socks5proxy a sv srv pr i = ⟨1, some c, n⟩ := by
  unfold socks5proxy
  rw [if_neg (by omega), h1]
  dsimp only
  rw [h2]
  dsimp only
  rw [h3]
  dsimp only
  rw [h4]
  dsimp only
  rw [h5]

theorem socks5proxy_flush_next (a : abi) (sv : List Char → Option Nat) (srv : server)
    (pr : proxy) (i j k l m n : io) (buf buf2 : List Nat)
    (hport : 0 ≤ getport sv srv.port)
    (h1 : socks5_method a pr i = stage.next buf j)
    (h2 : socks5_userpass a pr buf j = stage.next () k)
    (h3 : socks5_request srv (getport sv srv.port) k = stage.next () l)
    (h4 : socks5_response a l = stage.next buf2 m)
    (h5 : socks5_flush a buf2 m = stage.next () n) :
    socks5proxy a sv srv pr i = ⟨0, none, n⟩ := by
  unfold socks5proxy
  rw [if_neg (by omega), h1]
  dsimp only
  rw [h2]
  dsimp only
  rw [h3]
  dsimp only
  rw [h4]
  dsimp only
  rw [h5]

theorem socks5_method_reply (a : abi) (pr : proxy) (i : io) (v m : Nat) (rest : List Nat)
    (hv : v < 256) (hm : m < 256) (hrd : i.rd = v :: m :: rest) :
    socks5_method a pr i =
      if v ≠ 5 then
        stage.fail ("bad protocol version: " ++ fmt_d (charval a v))
          ⟨rest, i.wr ++ (if pr.user ≠ none ∧ pr.pass ≠ none then [5, 2, 0, 2] else [5, 1, 0]),
            i.error⟩
      else if (m ≠ 0 ∧ m ≠ 2) ∨ (¬ (pr.user ≠ none ∧ pr.pass ≠ none) ∧ m = 2) then
        stage.fail ("unexpected method: " ++ fmt_d (charval a m))
          ⟨rest, i.wr ++ (if pr.user ≠ none ∧ pr.pass ≠ none then [5, 2, 0, 2] else [5, 1, 0]),
            i.error⟩
      else
        stage.next [v, m]
          ⟨rest, i.wr ++ (if pr.user ≠ none ∧ pr.pass ≠ none then [5, 2, 0, 2] else [5, 1, 0]),
            i.error⟩ := by
  have hiff : (pr.user ≠ none ∧ pr.pass ≠ none) ↔ (pr.user.isSome && pr.pass.isSome) = true :=
    auth_iff pr
  have c5 := charval_eq_iff a v 5 hv (by decide)
  have c0 := charval_eq_iff a m 0 hm (by decide)
  have c2 := charval_eq_iff a m 2 hm (by decide)
  simp only [Nat.cast_ofNat, Nat.cast_zero] at c5 c0 c2
  unfold socks5_method
  simp only [hiff]
  cases (pr.user.isSome && pr.pass.isSome) <;>
    simp [io_write, io_wait, io_read2, hrd, c5, c0, c2]

/-! ## socks5proxy: method negotiation -/

/-- C6: method negotiation of `socks5proxy`. For a target whose port
resolves, the first bytes written are exactly `[5,1,0]` when the descriptor
lacks a user or a password and exactly `[5,2,0,2]` when it has both. Given
the 2-byte reply `(v, m)`, the negotiation goes on if and only if `v = 5` and
(`m = 0`, or `m = 2` and both credentials are configured); otherwise
`socks5proxy` returns 1 with the cause "bad protocol version" (when `v` is
not 5) or "unexpected method", and nothing is written after the first
bytes. -/
theorem socks5proxy_method_negotiation (a : abi) (sv : List Char → Option Nat) (srv : server)
    (pr : proxy) (i : io) (hport : 0 ≤ getport sv srv.port) :
    ((pr.user = none ∨ pr.pass = none) →
        ∃ more, (socks5proxy a sv srv pr i).conn.wr = i.wr ++ [5, 1, 0] ++ more)
      ∧ ((pr.user ≠ none ∧ pr.pass ≠ none) →
        ∃ more, (socks5proxy a sv srv pr i).conn.wr = i.wr ++ [5, 2, 0, 2] ++ more)
      ∧ ∀ v m rest, v < 256 → m < 256 → i.rd = v :: m :: rest →
          ((∃ buf j, socks5_method a pr i = stage.next buf j) ↔
              (v = 5 ∧ (m = 0 ∨ (m = 2 ∧ pr.user ≠ none ∧ pr.pass ≠ none))))
            ∧ (v ≠ 5 →
                socks5proxy a sv srv pr i
                  = ⟨1, some ("bad protocol version: " ++ fmt_d (charval a v)),
                      ⟨rest, i.wr ++ (if pr.user ≠ none ∧ pr.pass ≠ none
                                      then [5, 2, 0, 2] else [5, 1, 0]), i.error⟩⟩)
            ∧ (v = 5 → ¬ (m = 0 ∨ (m = 2 ∧ pr.user ≠ none ∧ pr.pass ≠ none)) →
                socks5proxy a sv srv pr i
                  = ⟨1, some ("unexpected method: " ++ fmt_d (charval a m)),
                      ⟨rest, i.wr ++ (if pr.user ≠ none ∧ pr.pass ≠ none
                                      then [5, 2, 0, 2] else [5, 1, 0]), i.error⟩⟩) := by
  obtain ⟨more, hmore⟩ := socks5proxy_wr a sv srv pr i hport
  rw [socks5_method_wr] at hmore
  refine ⟨?_, ?_, ?_⟩
  · intro hno
    have : ¬ (pr.user ≠ none ∧ pr.pass ≠ none) := by
      rcases hno with h | h <;> simp [h]
    rw [if_neg this] at hmore
    exact ⟨more, hmore⟩
  · intro hboth
    rw [if_pos hboth] at hmore
    exact ⟨more, hmore⟩
  · intro v m rest hv hm hrd
    have hrep := socks5_method_reply a pr i v m rest hv hm hrd
    refine ⟨?_, ?_, ?_⟩
    · by_cases h5 : v = 5
      · by_cases hbad : (m ≠ 0 ∧ m ≠ 2) ∨ (¬ (pr.user ≠ none ∧ pr.pass ≠ none) ∧ m = 2)
        · rw [if_neg (by simpa using h5), if_pos hbad] at hrep
          constructor
          · rintro ⟨buf, j, hj⟩
            rw [hrep] at hj
            cases hj
          · rintro ⟨-, h0 | ⟨h2, hb⟩⟩
            · rcases hbad with ⟨n0, -⟩ | ⟨-, e2⟩
              · exact absurd h0 n0
              · omega
            · rcases hbad with ⟨-, n2⟩ | ⟨nb, -⟩
              · exact absurd h2 n2
              · exact absurd hb nb
        · rw [if_neg (by simpa using h5), if_neg hbad] at hrep
          constructor
          · intro _
            refine ⟨h5, ?_⟩
            by_cases h0 : m = 0
            · exact Or.inl h0
            · by_cases h2 : m = 2
              · refine Or.inr ⟨h2, ?_⟩
                by_contra hb
                exact hbad (Or.inr ⟨hb, h2⟩)
              · exact absurd (Or.inl ⟨h0, h2⟩) hbad
          · intro _
            exact ⟨_, _, hrep⟩
      · rw [if_pos h5] at hrep
        constructor
        · rintro ⟨buf, j, hj⟩
          rw [hrep] at hj
          cases hj
        · rintro ⟨e5, -⟩
          exact absurd e5 h5
    · intro h5
      rw [if_pos h5] at hrep
      exact socks5proxy_method_fail a sv srv pr i _ _ hport hrep
    · intro h5 hnot
      have hbad : (m ≠ 0 ∧ m ≠ 2) ∨ (¬ (pr.user ≠ none ∧ pr.pass ≠ none) ∧ m = 2) := by
        by_cases h2 : m = 2
        · refine Or.inr ⟨fun hb => hnot (Or.inr ⟨h2, hb⟩), h2⟩
        · exact Or.inl ⟨fun h0 => hnot (Or.inl h0), h2⟩
      rw [if_neg (by simpa using h5), if_pos hbad] at hrep
      exact socks5proxy_method_fail a sv srv pr i _ _ hport hrep

/-- C6 witness: without credentials, a proxy that answers with method 2 is
refused after the three bytes `[5,1,0]`. -/
theorem socks5proxy_method_negotiation_witness :
    0 ≤ getport (fun _ => none) "110".toList
      ∧ socks5proxy ⟨true, 64⟩ (fun _ => none) ⟨"mail".toList, "110".toList, 0, 0⟩
          ⟨proxytype.PROXY_SOCKS5, none, none, ⟨"proxy".toList, "socks".toList, 0, 0⟩⟩
          ⟨[5, 2], [], "timed out"⟩
        = ⟨1, some ("unexpected method: " ++ fmt_d (charval ⟨true, 64⟩ 2)),
            ⟨[], [] ++ (if (none : Option (List Char)) ≠ none ∧ (none : Option (List Char)) ≠ none
                        then [5, 2, 0, 2] else [5, 1, 0]), "timed out"⟩⟩ :=
  ⟨by decide,
    ((socks5proxy_method_negotiation ⟨true, 64⟩ (fun _ => none)
        ⟨"mail".toList, "110".toList, 0, 0⟩
        ⟨proxytype.PROXY_SOCKS5, none, none, ⟨"proxy".toList, "socks".toList, 0, 0⟩⟩
        ⟨[5, 2], [], "timed out"⟩ (by decide)).2.2 5 2 [] (by decide) (by decide) rfl).2.2
      rfl (by decide)⟩

/-! ## socks5proxy: credential exchange -/

theorem socks5proxy_wr_userpass (a : abi) (sv : List Char → Option Nat) (srv : server)
    (pr : proxy) (i j : io) (buf : List Nat) (hport : 0 ≤ getport sv srv.port)
    (h1 : socks5_method a pr i = stage.next buf j) :
    ∃ more, (socks5proxy a sv srv pr i).conn.wr
      = (socks5_userpass a pr buf j).conn.wr ++ more := by
  unfold socks5proxy
  rw [if_neg (by omega), h1]
  dsimp only
  cases h2 : socks5_userpass a pr buf j with
  | fail c k => exact ⟨[], by simp [stage.conn]⟩
  | next u k =>
    dsimp only [stage.conn]
    obtain ⟨m3, e3⟩ := socks5_request_wr srv (getport sv srv.port) k
    cases h3 : socks5_request srv (getport sv srv.port) k with
    | fail c l =>
      rw [h3] at e3
      exact ⟨m3, e3⟩
    | next u2 l =>
      rw [h3] at e3
      dsimp only [stage.conn] at e3 ⊢
      have e4 := socks5_response_wr a l
      cases h4 : socks5_response a l with
      | fail c m =>
        rw [h4] at e4
        dsimp only [stage.conn] at e4 ⊢
        exact ⟨m3, by rw [e4, e3]⟩
      | next buf2 m =>
        rw [h4] at e4
        dsimp only [stage.conn] at e4 ⊢
        have e5 := socks5_flush_wr a buf2 m
        cases h5 : socks5_flush a buf2 m with
        | fail c n =>
          rw [h5] at e5
          dsimp only [stage.conn] at e5 ⊢
          exact ⟨m3, by rw [e5, e4, e3]⟩
        | next u3 n =>
          rw [h5] at e5
          dsimp only [stage.conn] at e5 ⊢
          exact ⟨m3, by rw [e5, e4, e3]⟩

theorem socks5_userpass_long_user (a : abi) (pr : proxy) (buf : List Nat) (j : io)
    (u : List Char) (h2 : charval a (buf.getD 1 0) = 2) (hu : pr.user = some u)
    (hlen : 255 < u.length) :
    socks5_userpass a pr buf j = stage.fail "user too long" j := by
  unfold socks5_userpass
  rw [if_pos h2]
  simp [hu, hlen]

theorem socks5_userpass_long_pass (a : abi) (pr : proxy) (buf : List Nat) (j : io)
    (u p : List Char) (h2 : charval a (buf.getD 1 0) = 2) (hu : pr.user = some u)
    (hp : pr.pass = some p) (hlen : u.length ≤ 255) (hlen2 : 255 < p.length) :
    socks5_userpass a pr buf j = stage.fail "pass too long" j := by
  unfold socks5_userpass
  rw [if_pos h2]
  simp [hu, hp, Nat.not_lt.2 hlen, hlen2]

theorem socks5_userpass_reply (a : abi) (pr : proxy) (buf : List Nat) (j : io)
    (u p : List Char) (v s : Nat) (rest : List Nat)
    (h2 : charval a (buf.getD 1 0) = 2) (hu : pr.user = some u) (hp : pr.pass = some p)
    (hlen : u.length ≤ 255) (hlen2 : p.length ≤ 255) (hv : v < 256) (hs : s < 256)
    (hrd : j.rd = v :: s :: rest) :
    socks5_userpass a pr buf j =
      if v ≠ 5 then
        stage.fail ("bad protocol version: " ++ fmt_d (charval a v))
          ⟨rest, j.wr ++ ([5, u.length] ++ bytes u ++ [p.length] ++ bytes p), j.error⟩
      else if s ≠ 0 then
        stage.fail "authentication failed"
          ⟨rest, j.wr ++ ([5, u.length] ++ bytes u ++ [p.length] ++ bytes p), j.error⟩
      else
        stage.next ()
          ⟨rest, j.wr ++ ([5, u.length] ++ bytes u ++ [p.length] ++ bytes p), j.error⟩ := by
  have c5 := charval_eq_iff a v 5 hv (by decide)
  have c0 := charval_eq_iff a s 0 hs (by decide)
  simp only [Nat.cast_ofNat, Nat.cast_zero] at c5 c0
  have m1 : u.length % 256 = u.length := Nat.mod_eq_of_lt (by omega)
  have m2 : p.length % 256 = p.length := Nat.mod_eq_of_lt (by omega)
  unfold socks5_userpass
  rw [if_pos h2]
  simp [hu, hp, Nat.not_lt.2 hlen, Nat.not_lt.2 hlen2, io_write, io_wait, io_read2, hrd,
    c5, c0, m1, m2]

theorem socks5_userpass_wr_creds (a : abi) (pr : proxy) (buf : List Nat) (j : io)
    (u p : List Char) (h2 : charval a (buf.getD 1 0) = 2) (hu : pr.user = some u)
    (hp : pr.pass = some p) (hlen : u.length ≤ 255) (hlen2 : p.length ≤ 255) :
    (socks5_userpass a pr buf j).conn.wr
      = j.wr ++ ([5, u.length] ++ bytes u ++ [p.length] ++ bytes p) := by
  have m1 : u.length % 256 = u.length := Nat.mod_eq_of_lt (by omega)
  have m2 : p.length % 256 = p.length := Nat.mod_eq_of_lt (by omega)
  unfold socks5_userpass
  rw [if_pos h2]
  simp only [hu, hp, Option.getD_some, gt_iff_lt, Nat.not_lt.2 hlen,
    Nat.not_lt.2 hlen2, if_false, m1, m2]
  split_ifs <;> simp [stage.conn, io_write, io_read2]

theorem socks5_method_selects_userpass (a : abi) (pr : proxy) (i : io) (u p : List Char)
    (rest : List Nat) (hu : pr.user = some u) (hp : pr.pass = some p)
    (hrd : i.rd = 5 :: 2 :: rest) :
    socks5_method a pr i = stage.next [5, 2] ⟨rest, i.wr ++ [5, 2, 0, 2], i.error⟩ := by
  rw [socks5_method_reply a pr i 5 2 rest (by decide) (by decide) hrd]
  simp [hu, hp]

theorem charval_two (a : abi) : charval a (([5, 2] : List Nat).getD 1 0) = 2 := by
  simp [charval]

/-- C7: credential exchange of `socks5proxy`. When the proxy selects
method 2 (reply `5, 2`, with user `u` and password `p` configured), the bytes
written after the method request are exactly
`[5, |u|] ++ u ++ [|p|] ++ p` provided both lengths are at most 255; if the
user or the password is longer than 255 bytes `socks5proxy` returns 1 with a
"too long" cause and writes no credential bytes; given the 2-byte reply
`(v, s)` the negotiation goes on if and only if `v = 5` and `s = 0`, and
`socks5proxy` fails with "authentication failed" when `v = 5` and `s` is not
0. -/
theorem socks5proxy_credential_exchange (a : abi) (sv : List Char → Option Nat)
    (srv : server) (pr : proxy) (i : io) (u p : List Char) (rest : List Nat)
    (hport : 0 ≤ getport sv srv.port) (hu : pr.user = some u) (hp : pr.pass = some p)
    (hrd : i.rd = 5 :: 2 :: rest) :
    (u.length ≤ 255 → p.length ≤ 255 →
        ∃ more, (socks5proxy a sv srv pr i).conn.wr
          = i.wr ++ [5, 2, 0, 2] ++ ([5, u.length] ++ bytes u ++ [p.length] ++ bytes p) ++ more)
      ∧ (255 < u.length →
          socks5proxy a sv srv pr i
            = ⟨1, some "user too long", ⟨rest, i.wr ++ [5, 2, 0, 2], i.error⟩⟩)
      ∧ (u.length ≤ 255 → 255 < p.length →
          socks5proxy a sv srv pr i
            = ⟨1, some "pass too long", ⟨rest, i.wr ++ [5, 2, 0, 2], i.error⟩⟩)
      ∧ ∀ v s rest2, v < 256 → s < 256 → u.length ≤ 255 → p.length ≤ 255 →
          rest = v :: s :: rest2 →
          ((∃ k, socks5_userpass a pr [5, 2] ⟨rest, i.wr ++ [5, 2, 0, 2], i.error⟩
                = stage.next () k) ↔ (v = 5 ∧ s = 0))
            ∧ (v = 5 → s ≠ 0 →
                socks5proxy a sv srv pr i
                  = ⟨1, some "authentication failed",
                      ⟨rest2, i.wr ++ [5, 2, 0, 2]
                          ++ ([5, u.length] ++ bytes u ++ [p.length] ++ bytes p),
                        i.error⟩⟩) := by
  have h1 := socks5_method_selects_userpass a pr i u p rest hu hp hrd
  have h2 := charval_two a
  refine ⟨?_, ?_, ?_, ?_⟩
  · intro hlen hlen2
    obtain ⟨more, hmore⟩ := socks5proxy_wr_userpass a sv srv pr i _ _ hport h1
    rw [socks5_userpass_wr_creds a pr _ _ u p h2 hu hp hlen hlen2] at hmore
    exact ⟨more, hmore⟩
  · intro hlen
    exact socks5proxy_userpass_fail a sv srv pr i _ _ _ _ hport h1
      (socks5_userpass_long_user a pr _ _ u h2 hu hlen)
  · intro hlen hlen2
    exact socks5proxy_userpass_fail a sv srv pr i _ _ _ _ hport h1
      (socks5_userpass_long_pass a pr _ _ u p h2 hu hp hlen hlen2)
  · intro v s rest2 hv hs hlen hlen2 hrest
    have hrep := socks5_userpass_reply a pr [5, 2] ⟨rest, i.wr ++ [5, 2, 0, 2], i.error⟩ u p v s
      rest2 h2 hu hp hlen hlen2 hv hs hrest
    refine ⟨?_, ?_⟩
    · by_cases h5 : v = 5
      · by_cases h0 : s = 0
        · rw [if_neg (by simpa using h5), if_neg (by simpa using h0)] at hrep
          exact ⟨fun _ => ⟨h5, h0⟩, fun _ => ⟨_, hrep⟩⟩
        · rw [if_neg (by simpa using h5), if_pos h0] at hrep
          constructor
          · rintro ⟨k, hk⟩
            rw [hrep] at hk
            cases hk
          · rintro ⟨-, e0⟩
            exact absurd e0 h0
      · rw [if_pos h5] at hrep
        constructor
        · rintro ⟨k, hk⟩
          rw [hrep] at hk
          cases hk
        · rintro ⟨e5, -⟩
          exact absurd e5 h5
    · intro h5 h0
      rw [if_neg (by simpa using h5), if_pos h0] at hrep
      exact socks5proxy_userpass_fail a sv srv pr i _ _ _ _ hport h1 hrep

/-- C7 witness: user `u`, password `p`, and a proxy that answers the
credentials with status 1. -/
theorem socks5proxy_credential_exchange_witness :
    0 ≤ getport (fun _ => none) "110".toList
      ∧ socks5proxy ⟨true, 64⟩ (fun _ => none) ⟨"mail".toList, "110".toList, 0, 0⟩
          ⟨proxytype.PROXY_SOCKS5, some "u".toList, some "p".toList,
            ⟨"proxy".toList, "socks".toList, 0, 0⟩⟩
          ⟨[5, 2, 5, 1], [], "timed out"⟩
        = ⟨1, some "authentication failed",
            ⟨[], [] ++ [5, 2, 0, 2]
                ++ ([5, "u".toList.length] ++ bytes "u".toList ++ ["p".toList.length]
                      ++ bytes "p".toList),
              "timed out"⟩⟩ :=
  ⟨by decide,
    ((socks5proxy_credential_exchange ⟨true, 64⟩ (fun _ => none)
        ⟨"mail".toList, "110".toList, 0, 0⟩
        ⟨proxytype.PROXY_SOCKS5, some "u".toList, some "p".toList,
          ⟨"proxy".toList, "socks".toList, 0, 0⟩⟩
        ⟨[5, 2, 5, 1], [], "timed out"⟩ "u".toList "p".toList [5, 1] (by decide) rfl rfl rfl).2.2.2
      5 1 [] (by decide) (by decide) (by decide) (by decide) rfl).2 rfl (by decide)⟩

/-! ## socks5proxy: connect request -/

theorem getport_resolves (sv : List Char → Option Nat) (port : List Char) (n : Nat)
    (hsv : ∀ s q, sv s = some q → q < 65536) (h : spec_resolves sv port n) :
    getport sv port = (n : Int) := by
  unfold getport
  rcases h with h | ⟨hnone, hne, hdig, hdec, h1, h2⟩
  · rw [h]
    have := hsv port n h
    simp [Nat.mod_eq_of_lt this]
  · rw [hnone]
    subst hdec
    have hall : port.all Char.isDigit = true := List.all_eq_true.2 hdig
    have l1 : ¬ ((decimal port : Int) < 1) := by omega
    have l2 : ¬ ((decimal port : Int) > 65535) := by omega
    simp only [strtonum, hne, hall, false_or, Bool.true_eq_false, if_false, l1, l2]

theorem getport_unresolved (sv : List Char → Option Nat) (port : List Char)
    (h : ¬ ∃ n, spec_resolves sv port n) : getport sv port = -1 := by
  unfold getport
  cases hs : sv port with
  | some q => exact absurd ⟨q, Or.inl hs⟩ h
  | none =>
    dsimp only
    unfold strtonum
    split_ifs with c1 c2 c3
    · rfl
    · rfl
    · rfl
    · exfalso
      apply h
      refine ⟨decimal port, Or.inr ⟨hs, ?_, ?_, rfl, ?_, ?_⟩⟩
      · exact fun e => c1 (Or.inl e)
      · apply List.all_eq_true.1
        by_contra hn
        exact c1 (Or.inr (by simpa using hn))
      · omega
      · omega

theorem socks5proxy_wr_request (a : abi) (sv : List Char → Option Nat) (srv : server)
    (pr : proxy) (i j k : io) (buf : List Nat) (hport : 0 ≤ getport sv srv.port)
    (h1 : socks5_method a pr i = stage.next buf j)
    (h2 : socks5_userpass a pr buf j = stage.next () k) :
    (socks5proxy a sv srv pr i).conn.wr
      = (socks5_request srv (getport sv srv.port) k).conn.wr := by
  unfold socks5proxy
  rw [if_neg (by omega), h1]
  dsimp only
  rw [h2]
  dsimp only
  cases h3 : socks5_request srv (getport sv srv.port) k with
  | fail c l => rfl
  | next u2 l =>
    dsimp only [stage.conn]
    have e4 := socks5_response_wr a l
    cases h4 : socks5_response a l with
    | fail c m =>
      rw [h4] at e4
      exact e4
    | next buf2 m =>
      rw [h4] at e4
      dsimp only [stage.conn] at e4 ⊢
      have e5 := socks5_flush_wr a buf2 m
      cases h5 : socks5_flush a buf2 m with
      | fail c n =>
        rw [h5] at e5
        dsimp only [stage.conn] at e5 ⊢
        rw [e5, e4]
      | next u3 n =>
        rw [h5] at e5
        dsimp only [stage.conn] at e5 ⊢
        rw [e5, e4]

/-- C8: connect request of `socks5proxy`. For every target port string that
resolves to `n` (services table first, else a decimal number in [1, 65535];
the table holds 16-bit port numbers), `getport` returns `n`, the two port
bytes `n / 256` and `n % 256` recover `n`, and whenever the negotiation
reaches the connect request with a host of length `L` at most 255 the bytes
written by it are exactly `[5,1,0,3,L] ++ host ++ [n / 256, n % 256]`; a host
longer than 255 bytes makes `socks5proxy` return 1 with "host too long". A
port string that does not resolve makes it return 1 with "bad port" before
anything is written. -/
theorem socks5proxy_connect_request (a : abi) (sv : List Char → Option Nat) (srv : server)
    (pr : proxy) (i : io) (hsv : ∀ s q, sv s = some q → q < 65536) :
    (∀ n, spec_resolves sv srv.port n →
        getport sv srv.port = (n : Int) ∧ 256 * (n / 256) + n % 256 = n ∧ n / 256 < 256
          ∧ ∀ buf j k, socks5_method a pr i = stage.next buf j →
              socks5_userpass a pr buf j = stage.next () k →
              (srv.host.length ≤ 255 →
                  (socks5proxy a sv srv pr i).conn.wr
                    = k.wr ++ ([5, 1, 0, 3, srv.host.length] ++ bytes srv.host
                                ++ [n / 256, n % 256]))
                ∧ (255 < srv.host.length →
                    socks5proxy a sv srv pr i = ⟨1, some "host too long", k⟩))
      ∧ ((¬ ∃ n, spec_resolves sv srv.port n) →
          socks5proxy a sv srv pr i = ⟨1, some ("bad port: " ++ fmt_s srv.port), i⟩) := by
  constructor
  · intro n hres
    have hg := getport_resolves sv srv.port n hsv hres
    have hn : n < 65536 := by
      rcases hres with h | ⟨-, -, -, -, -, h⟩
      · exact hsv _ _ h
      · omega
    have hport : 0 ≤ getport sv srv.port := by rw [hg]; omega
    refine ⟨hg, by omega, by omega, ?_⟩
    intro buf j k h1 h2
    constructor
    · intro hlen
      rw [socks5proxy_wr_request a sv srv pr i j k buf hport h1 h2, hg]
      unfold socks5_request
      have m1 : srv.host.length % 256 = srv.host.length := Nat.mod_eq_of_lt (by omega)
      have m2 : n / 256 % 256 = n / 256 := Nat.mod_eq_of_lt (by omega)
      simp [Nat.not_lt.2 hlen, stage.conn, io_write, m1, m2]
    · intro hlen
      apply socks5proxy_request_fail a sv srv pr i j k k buf _ hport h1 h2
      unfold socks5_request
      simp [hlen]
  · intro hno
    unfold socks5proxy
    rw [getport_unresolved sv srv.port hno]
    simp

/-- C8 witness: host `mail`, port `pop3` found in the services table as
110, a proxy that selects method 0. -/
theorem socks5proxy_connect_request_witness :
    spec_resolves (fun s => if s = "pop3".toList then some 110 else none) "pop3".toList 110
      ∧ (socks5proxy ⟨true, 64⟩ (fun s => if s = "pop3".toList then some 110 else none)
            ⟨"mail".toList, "pop3".toList, 0, 0⟩
            ⟨proxytype.PROXY_SOCKS5, none, none, ⟨"proxy".toList, "socks".toList, 0, 0⟩⟩
            ⟨[5, 0], [], "timed out"⟩).conn.wr
          = [5, 1, 0] ++ ([5, 1, 0, 3, "mail".toList.length] ++ bytes "mail".toList
                            ++ [110 / 256, 110 % 256]) :=
  ⟨Or.inl (by decide),
    (((socks5proxy_connect_request ⟨true, 64⟩
        (fun s => if s = "pop3".toList then some 110 else none)
        ⟨"mail".toList, "pop3".toList, 0, 0⟩
        ⟨proxytype.PROXY_SOCKS5, none, none, ⟨"proxy".toList, "socks".toList, 0, 0⟩⟩
        ⟨[5, 0], [], "timed out"⟩
        (by intro s q h; dsimp only at h; split_ifs at h; injection h with h; omega)).1 110
        (Or.inl (by decide))).2.2.2 [5, 0] ⟨[], [5, 1, 0], "timed out"⟩
        ⟨[], [5, 1, 0], "timed out"⟩ (by decide) (by decide)).1 (by decide)⟩

/-! ## socks5proxy: connect response -/

theorem socks5_status_nonneg (s : Nat) (hs : 1 ≤ s) :
    socks5_status (s : Int) = some (fmt_d (s : Int) ++ ": " ++ spec_status_text s) := by
  unfold socks5_status spec_status_text
  have e0 : ¬ ((s : Int) = 0) := by omega
  rw [if_neg e0]
  by_cases h1 : s = 1
  · subst h1; rfl
  by_cases h2 : s = 2
  · subst h2; rfl
  by_cases h3 : s = 3
  · subst h3; rfl
  by_cases h4 : s = 4
  · subst h4; rfl
  by_cases h5 : s = 5
  · subst h5; rfl
  by_cases h6 : s = 6
  · subst h6; rfl
  by_cases h7 : s = 7
  · subst h7; rfl
  by_cases h8 : s = 8
  · subst h8; rfl
  have i1 : ¬ ((s : Int) = 1) := by omega
  have i2 : ¬ ((s : Int) = 2) := by omega
  have i3 : ¬ ((s : Int) = 3) := by omega
  have i4 : ¬ ((s : Int) = 4) := by omega
  have i5 : ¬ ((s : Int) = 5) := by omega
  have i6 : ¬ ((s : Int) = 6) := by omega
  have i7 : ¬ ((s : Int) = 7) := by omega
  have i8 : ¬ ((s : Int) = 8) := by omega
  simp only [h1, h2, h3, h4, h5, h6, h7, h8, i1, i2, i3, i4, i5, i6, i7, i8, if_false,
    String.append_assoc]
  rfl

/-- The connect response step on a 5-byte reply `v, s, _, _, _`: a first
byte other than 5 fails with "bad protocol version"; with `v = 5`, status 0
goes on to the drain and every status from 1 on whose `char` value is not
negative (every status when plain `char` is unsigned, the statuses up to 127
when it is signed) fails with the numeric code and the description assigned
to it. -/
theorem socks5_response_reply (a : abi) (j : io) (v s b2 b3 b4 : Nat) (rest : List Nat)
    (hv : v < 256) (hs : s < 256) (hrd : j.rd = v :: s :: b2 :: b3 :: b4 :: rest) :
    (v ≠ 5 →
        socks5_response a j
          = stage.fail ("bad protocol version: " ++ fmt_d (charval a v))
              ⟨rest, j.wr, j.error⟩)
      ∧ (v = 5 → s = 0 →
          socks5_response a j = stage.next [v, s, b2, b3, b4] ⟨rest, j.wr, j.error⟩)
      ∧ (v = 5 → 1 ≤ s → (a.char_signed = false ∨ s < 128) →
          socks5_response a j
            = stage.fail (fmt_d (s : Int) ++ ": " ++ spec_status_text s)
                ⟨rest, j.wr, j.error⟩) := by
  have c5 := charval_eq_iff a v 5 hv (by decide)
  simp only [Nat.cast_ofNat] at c5
  have hw : io_wait j 5 = 0 := by simp [io_wait, hrd]
  have hb : (io_read2 j 5).1 = [v, s, b2, b3, b4] := by simp [io_read2, hrd]
  have hj : (io_read2 j 5).2 = ⟨rest, j.wr, j.error⟩ := by simp [io_read2, hrd]
  unfold socks5_response
  simp only [hw, ne_eq, not_true_eq_false, if_false, hb, hj, List.getD_cons_zero,
    List.getD_cons_succ, c5]
  refine ⟨?_, ?_, ?_⟩
  · intro h5
    rw [if_pos h5]
  · intro h5 h0
    subst h0
    rw [if_neg (by simpa using h5)]
    have : charval a 0 = 0 := by simp [charval]
    rw [this]
    rfl
  · intro h5 h1 hsig
    rw [if_neg (by simpa using h5)]
    have : charval a s = (s : Int) := by
      unfold charval
      rcases hsig with h | h
      · simp [h]
      · rw [if_neg (by omega)]
    rw [this, socks5_status_nonneg s h1]

/-- C9 (the code at the failing input): with a signed plain `char`, the
connect reply `5, 200, 0, 1, 0` makes `socks5proxy` return 1 with the cause
"-56: unknown failure", which does not contain the status code 200; where
plain `char` is unsigned the cause is "200: unknown failure". -/
theorem socks5proxy_status_signed_char :
    socks5proxy ⟨true, 64⟩ (fun _ => none) ⟨"mail".toList, "110".toList, 0, 0⟩
        ⟨proxytype.PROXY_SOCKS5, none, none, ⟨"proxy".toList, "socks".toList, 0, 0⟩⟩
        ⟨[5, 0, 5, 200, 0, 1, 0], [], "timed out"⟩
      = ⟨1, some "-56: unknown failure",
          ⟨[], [5, 1, 0, 5, 1, 0, 3, 4, 109, 97, 105, 108, 0, 110], "timed out"⟩⟩
      ∧ socks5proxy ⟨false, 64⟩ (fun _ => none) ⟨"mail".toList, "110".toList, 0, 0⟩
          ⟨proxytype.PROXY_SOCKS5, none, none, ⟨"proxy".toList, "socks".toList, 0, 0⟩⟩
          ⟨[5, 0, 5, 200, 0, 1, 0], [], "timed out"⟩
        = ⟨1, some "200: unknown failure",
            ⟨[], [5, 1, 0, 5, 1, 0, 3, 4, 109, 97, 105, 108, 0, 110], "timed out"⟩⟩ := by
  constructor <;> decide

/-! ## socks5proxy: trailing address drain -/

theorem to_size_t_small (a : abi) (n : Nat) (hw : 9 ≤ a.size_bits) (hn : n < 512) :
    to_size_t a (n : Int) = n := by
  unfold to_size_t
  have h1 : (2 : Nat) ^ 9 ≤ 2 ^ a.size_bits := Nat.pow_le_pow_right (by decide) hw
  have h2 : (n : Int) < (2 : Int) ^ a.size_bits := by
    have : n < 2 ^ a.size_bits := by omega
    exact_mod_cast this
  rw [Int.emod_eq_of_lt (by omega) h2]
  simp

theorem socks5_flushlen_known (a : abi) (b0 b1 b2 b3 b4 : Nat) (h3 : b3 < 256)
    (h4 : b4 < 256) (hw : 9 ≤ a.size_bits) :
    (b3 = 1 → socks5_flushlen a [b0, b1, b2, b3, b4] = Except.ok 5)
      ∧ (b3 = 3 → socks5_flushlen a [b0, b1, b2, b3, b4] = Except.ok 17)
      ∧ (b3 = 4 → (a.char_signed = false ∨ b4 < 128) →
          socks5_flushlen a [b0, b1, b2, b3, b4] = Except.ok (b4 + 2))
      ∧ (b3 ≠ 1 → b3 ≠ 3 → b3 ≠ 4 →
          socks5_flushlen a [b0, b1, b2, b3, b4]
            = Except.error ("unknown address type: " ++ fmt_d (charval a b3))) := by
  have c1 := charval_eq_iff a b3 1 h3 (by decide)
  have c3 := charval_eq_iff a b3 3 h3 (by decide)
  have c4 := charval_eq_iff a b3 4 h3 (by decide)
  simp only [Nat.cast_ofNat, Nat.cast_one] at c1 c3 c4
  unfold socks5_flushlen
  simp only [List.getD_cons_zero, List.getD_cons_succ, c1, c3, c4]
  refine ⟨?_, ?_, ?_, ?_⟩
  · intro e
    simp [e]
  · intro e
    simp [e]
  · intro e hsig
    have hc : charval a b4 = (b4 : Int) := by
      unfold charval
      rcases hsig with h | h
      · simp [h]
      · rw [if_neg (by omega)]
    have := to_size_t_small a (b4 + 2) hw (by omega)
    simp only [Nat.cast_add, Nat.cast_ofNat] at this
    simp [e, hc, this]
  · intro e1 e3 e4
    simp [e1, e3, e4]

/-- The drain step on a connect response `_, _, _, t, b`: it waits for and
consumes exactly 5 bytes for address type 1, exactly 17 for type 3, and
exactly `b + 2` for type 4 when the `char` value of `b` is not negative (any
`b` when plain `char` is unsigned, `b` up to 127 when it is signed); any other
address type fails with "unknown address type" and consumes nothing. -/
theorem socks5_flush_drain (a : abi) (j : io) (b0 b1 b2 b3 b4 : Nat) (h3 : b3 < 256)
    (h4 : b4 < 256) (hw : 9 ≤ a.size_bits) :
    (b3 = 1 → 5 ≤ j.rd.length →
        socks5_flush a [b0, b1, b2, b3, b4] j = stage.next () ⟨j.rd.drop 5, j.wr, j.error⟩)
      ∧ (b3 = 3 → 17 ≤ j.rd.length →
          socks5_flush a [b0, b1, b2, b3, b4] j = stage.next () ⟨j.rd.drop 17, j.wr, j.error⟩)
      ∧ (b3 = 4 → (a.char_signed = false ∨ b4 < 128) → b4 + 2 ≤ j.rd.length →
          socks5_flush a [b0, b1, b2, b3, b4] j
            = stage.next () ⟨j.rd.drop (b4 + 2), j.wr, j.error⟩)
      ∧ (b3 ≠ 1 → b3 ≠ 3 → b3 ≠ 4 →
          socks5_flush a [b0, b1, b2, b3, b4] j
            = stage.fail ("unknown address type: " ++ fmt_d (charval a b3)) j) := by
  obtain ⟨k1, k3, k4, k0⟩ := socks5_flushlen_known a b0 b1 b2 b3 b4 h3 h4 hw
  unfold socks5_flush
  refine ⟨?_, ?_, ?_, ?_⟩
  · intro e hl
    rw [k1 e]
    simp [io_wait, io_read2, hl]
  · intro e hl
    rw [k3 e]
    simp [io_wait, io_read2, hl]
  · intro e hsig hl
    rw [k4 e hsig]
    simp [io_wait, io_read2, hl]
  · intro e1 e3 e4
    rw [k0 e1 e3 e4]

/-- With method byte 0, status 0 and address type 1, `socks5proxy` succeeds
having read exactly 5 trailing bytes. -/
theorem socks5proxy_ipv4_success (a : abi) (sv : List Char → Option Nat) (srv : server)
    (pr : proxy) (i : io) (b2 b4 : Nat) (t : List Nat) (hport : 0 ≤ getport sv srv.port)
    (hhost : srv.host.length ≤ 255) (hw : 9 ≤ a.size_bits) (h4 : b4 < 256)
    (hrd : i.rd = 5 :: 0 :: 5 :: 0 :: b2 :: 1 :: b4 :: t) (ht : 5 ≤ t.length) :
    ∃ wr, socks5proxy a sv srv pr i = ⟨0, none, ⟨t.drop 5, wr, i.error⟩⟩ := by
  have h1 := socks5_method_reply a pr i 5 0 _ (by decide) (by decide) hrd
  simp only [ne_eq, not_true_eq_false, if_false, and_false, false_or] at h1
  rw [if_neg (by simp)] at h1
  generalize (i.wr ++ if ¬pr.user = none ∧ ¬pr.pass = none then [5, 2, 0, 2] else [5, 1, 0])
    = w at h1
  have h2 : socks5_userpass a pr [5, 0] ⟨5 :: 0 :: b2 :: 1 :: b4 :: t, w, i.error⟩
      = stage.next () ⟨5 :: 0 :: b2 :: 1 :: b4 :: t, w, i.error⟩ := by
    unfold socks5_userpass
    rw [if_neg (by simp [charval])]
  obtain ⟨req, hreq⟩ : ∃ req, socks5_request srv (getport sv srv.port)
      ⟨5 :: 0 :: b2 :: 1 :: b4 :: t, w, i.error⟩
      = stage.next () ⟨5 :: 0 :: b2 :: 1 :: b4 :: t, w ++ req, i.error⟩ := by
    unfold socks5_request
    dsimp only
    rw [if_neg (by omega)]
    exact ⟨_, rfl⟩
  have h5 := (socks5_response_reply a ⟨5 :: 0 :: b2 :: 1 :: b4 :: t, w ++ req, i.error⟩
      5 0 b2 1 b4 t (by decide) (by decide) rfl).2.1 rfl rfl
  have h6 := (socks5_flush_drain a ⟨t, w ++ req, i.error⟩ 5 0 b2 1 b4 (by decide) h4 hw).1
    rfl ht
  exact ⟨_, socks5proxy_flush_next a sv srv pr i _ _ _ _ _ _ _ hport h1 h2 hreq h5 h6⟩

set_option maxRecDepth 100000 in
/-- C10 (the code at the failing input): with a signed plain `char` and a
64-bit `size_t`, the connect reply `5, 0, 0, 4, 200` makes the drain length
`(size_t)(-56 + 2) = 2^64 - 54` instead of `200 + 2`: `socks5proxy` waits for
that many bytes and returns 1 with the transport's cause although the 202
trailing bytes are there, none of which it consumes; where plain `char` is
unsigned it consumes the 202 bytes and returns 0. -/
theorem socks5proxy_drain_signed_char :
    socks5_flushlen ⟨true, 64⟩ [5, 0, 0, 4, 200] = Except.ok 18446744073709551562
      ∧ socks5proxy ⟨true, 64⟩ (fun _ => none) ⟨"mail".toList, "110".toList, 0, 0⟩
          ⟨proxytype.PROXY_SOCKS5, none, none, ⟨"proxy".toList, "socks".toList, 0, 0⟩⟩
          ⟨[5, 0, 5, 0, 0, 4, 200] ++ List.replicate 202 0, [], "timed out"⟩
        = ⟨1, some "timed out",
            ⟨List.replicate 202 0, [5, 1, 0, 5, 1, 0, 3, 4, 109, 97, 105, 108, 0, 110],
              "timed out"⟩⟩
      ∧ socks5proxy ⟨false, 64⟩ (fun _ => none) ⟨"mail".toList, "110".toList, 0, 0⟩
          ⟨proxytype.PROXY_SOCKS5, none, none, ⟨"proxy".toList, "socks".toList, 0, 0⟩⟩
          ⟨[5, 0, 5, 0, 0, 4, 200] ++ List.replicate 202 0, [], "timed out"⟩
        = ⟨0, none,
            ⟨[], [5, 1, 0, 5, 1, 0, 3, 4, 109, 97, 105, 108, 0, 110], "timed out"⟩⟩ := by
  refine ⟨rfl, ?_, ?_⟩ <;> decide

/-! ## httpproxy: the status line -/

theorem strncmp_starts_zero (p r : List Char) : strncmp (p ++ r) p p.length = 0 := by
  induction p with
  | nil => simp [strncmp]
  | cons y ys ih => simp [strncmp, ih]

/-- The first line is refused by the code exactly when it fails the
status-line condition of the specification. -/
theorem httpproxy_unexpected_iff (line : List Char) :
    httpproxy_unexpected line ↔ ¬ spec_status_ok line := by
  have h5 : strncmp line "HTTP/".toList 5 = 0 ↔ "HTTP/".toList <+: line := by
    constructor
    · intro h
      exact strncmp_zero_starts _ _ (by decide) h
    · rintro ⟨r, rfl⟩
      exact strncmp_starts_zero _ r
  have h4 : strncmp (line.drop 8) " 200".toList 4 = 0
      ↔ (line.drop 8).take 4 = " 200".toList := by
    constructor
    · intro h
      have := strncmp_zero_starts " 200".toList (line.drop 8) (by decide) h
      rw [List.prefix_iff_eq_take] at this
      exact this.symm
    · intro h
      have hp : " 200".toList <+: line.drop 8 := by
        rw [← h]
        exact List.take_prefix _ _
      obtain ⟨r, hr⟩ := hp
      rw [← hr]
      exact strncmp_starts_zero _ r
  unfold httpproxy_unexpected spec_status_ok
  rw [ne_eq, ne_eq, h5, h4]
  constructor
  · rintro (h | h | h) ⟨a, b, c⟩
    · omega
    · exact h b
    · exact h c
  · intro h
    by_cases a : line.length < 12
    · exact Or.inl a
    · by_cases b : "HTTP/".toList <+: line
      · by_cases c : (line.drop 8).take 4 = " 200".toList
        · exact absurd ⟨by omega, b, c⟩ h
        · exact Or.inr (Or.inr c)
      · exact Or.inr (Or.inl b)

/-! ## httpproxy: reading lines -/

theorem isline_tail (eol : List Nat) (x : Nat) (xs : List Nat) (h : isline eol (x :: xs)) :
    isline eol xs := by
  intro k hk
  have := h (k + 1) (by simpa using hk)
  simpa using this

theorem findeol_cons (eol : List Nat) (b : Nat) (bs : List Nat) :
    findeol eol (b :: bs) =
      if eol.isPrefixOf (b :: bs) = true then some ([], (b :: bs).drop eol.length)
      else
        match findeol eol bs with
        | none => none
        | some (l, r) => some (b :: l, r) := by
  rw [findeol]

theorem findeol_line (eol l rest : List Nat) (heol : eol ≠ []) (hl : isline eol l) :
    findeol eol (l ++ eol ++ rest) = some (l, rest) := by
  induction l with
  | nil =>
    obtain ⟨e, es, rfl⟩ := List.exists_cons_of_ne_nil heol
    have hp : (e :: es).isPrefixOf (e :: (es ++ rest)) = true := by
      rw [List.isPrefixOf_iff_prefix]
      exact ⟨rest, by simp⟩
    have hd : List.drop (e :: es).length (e :: (es ++ rest)) = rest := by
      simp
    rw [List.nil_append, List.cons_append, findeol_cons, if_pos hp, hd]
  | cons x xs ih =>
    have h0 : ¬ eol <+: (x :: xs ++ eol) := by
      have := hl 0 (by simp)
      simpa using this
    have hp : ¬ (eol.isPrefixOf (x :: (xs ++ eol ++ rest)) = true) := by
      rw [List.isPrefixOf_iff_prefix]
      intro hpre
      apply h0
      have h2 : (x :: xs ++ eol) <+: (x :: (xs ++ eol ++ rest)) := ⟨rest, by simp⟩
      apply List.prefix_of_prefix_length_le hpre h2
      simp only [List.cons_append, List.length_cons, List.length_append]
      omega
    rw [List.cons_append, List.cons_append, findeol_cons, if_neg hp,
      ih (isline_tail eol x xs hl)]

theorem cstr_bytes (l : List Char) (h : ∀ c ∈ l, c.toNat ≠ 0) : cstr (bytes l) = l := by
  unfold cstr bytes
  have ht : (l.map Char.toNat).takeWhile (· ≠ 0) = l.map Char.toNat := by
    rw [List.takeWhile_eq_self_iff]
    intro x hx
    obtain ⟨c, hc, rfl⟩ := List.mem_map.1 hx
    simpa using h c hc
  rw [ht, List.map_map]
  have : (Char.ofNat ∘ Char.toNat) = id := by
    funext c
    simp
  rw [this, List.map_id]

theorem io_pollline_line (eol l : List Char) (rest wr : List Nat) (err : String)
    (heol : eol ≠ []) (hl : wfline eol l) :
    io_pollline eol ⟨bytes l ++ bytes eol ++ rest, wr, err⟩ = (1, l, ⟨rest, wr, err⟩) := by
  have hb : bytes eol ≠ [] := by
    unfold bytes
    simpa using heol
  unfold io_pollline
  simp only [findeol_line (bytes eol) (bytes l) rest hb hl.2, cstr_bytes l hl.1]

theorem io_pollline_none (eol : List Char) (i : io) (h : findeol (bytes eol) i.rd = none) :
    io_pollline eol i = (0, [], i) := by
  unfold io_pollline
  rw [h]

theorem httpproxy_loop_succ (freed : List Char → List Char) (eol : List Char) (n : Nat)
    (header : Int) (i : io) :
    httpproxy_loop freed eol (n + 1) header i =
      if (io_pollline eol i).1 ≠ 1 then ⟨1, some i.error, (io_pollline eol i).2.2⟩
      else if header = 0 then
        if httpproxy_unexpected (io_pollline eol i).2.1 then
          ⟨1, some ("unexpected data: " ++ fmt_s (freed (io_pollline eol i).2.1)),
            (io_pollline eol i).2.2⟩
        else httpproxy_loop freed eol n 1 (io_pollline eol i).2.2
      else if (io_pollline eol i).2.1 = [] then ⟨0, none, (io_pollline eol i).2.2⟩
      else httpproxy_loop freed eol n header (io_pollline eol i).2.2 := by
  rw [httpproxy_loop]

theorem spec_response_cons (eol l : List Char) (ls : List (List Char)) (rest : List Nat) :
    spec_response eol (l :: ls) ++ rest
      = bytes l ++ bytes eol ++ (spec_response eol ls ++ rest) := by
  simp [spec_response]

theorem spec_response_length (eol : List Char) (heol : eol ≠ []) (ls : List (List Char)) :
    ls.length ≤ (spec_response eol ls).length := by
  induction ls with
  | nil => simp
  | cons l ls ih =>
    have : 0 < eol.length := List.length_pos.2 heol
    simp only [spec_response, List.length_cons, List.length_append, bytes, List.length_map]
    omega

theorem wfline_nil (eol : List Char) : wfline eol [] := by
  refine ⟨by simp, ?_⟩
  intro k hk
  simp [bytes] at hk

/-- Reading the header lines: non-empty lines are discarded, and the first
empty line ends the negotiation with success, leaving what follows it
unread. -/
theorem httpproxy_loop_headers (freed : List Char → List Char) (eol : List Char)
    (heol : eol ≠ []) (headers : List (List Char))
    (hh : ∀ h ∈ headers, wfline eol h ∧ h ≠ []) (rest wr : List Nat) (err : String) (n : Nat)
    (hn : headers.length < n) :
    httpproxy_loop freed eol n 1 ⟨spec_response eol (headers ++ [[]]) ++ rest, wr, err⟩
      = ⟨0, none, ⟨rest, wr, err⟩⟩ := by
  induction headers generalizing n with
  | nil =>
    obtain ⟨m, rfl⟩ : ∃ m, n = m + 1 := ⟨n - 1, by omega⟩
    rw [List.nil_append, spec_response_cons, httpproxy_loop_succ,
      io_pollline_line eol [] _ wr err heol (wfline_nil eol)]
    simp [spec_response]
  | cons h hs ih =>
    obtain ⟨m, rfl⟩ : ∃ m, n = m + 1 := ⟨n - 1, by omega⟩
    have hw := hh h (by simp)
    rw [List.cons_append, spec_response_cons, httpproxy_loop_succ,
      io_pollline_line eol h _ wr err heol hw.1]
    simp only [ne_eq, not_true_eq_false, if_false, one_ne_zero, hw.2]
    exact ih (fun x hx => hh x (by simp [hx])) m (by simpa using hn)

/-- Reading the header lines when the line source fails before an empty
line: the negotiation fails with the transport's cause. -/
theorem httpproxy_loop_starved (freed : List Char → List Char) (eol : List Char)
    (heol : eol ≠ []) (headers : List (List Char))
    (hh : ∀ h ∈ headers, wfline eol h ∧ h ≠ []) (tail wr : List Nat) (err : String)
    (ht : findeol (bytes eol) tail = none) (n : Nat) (hn : headers.length < n) :
    httpproxy_loop freed eol n 1 ⟨spec_response eol headers ++ tail, wr, err⟩
      = ⟨1, some err, ⟨tail, wr, err⟩⟩ := by
  induction headers generalizing n with
  | nil =>
    obtain ⟨m, rfl⟩ : ∃ m, n = m + 1 := ⟨n - 1, by omega⟩
    have hp := io_pollline_none eol ⟨tail, wr, err⟩ ht
    simp only [spec_response, List.nil_append]
    rw [httpproxy_loop_succ, hp]
    simp
  | cons h hs ih =>
    obtain ⟨m, rfl⟩ : ∃ m, n = m + 1 := ⟨n - 1, by omega⟩
    have hw := hh h (by simp)
    rw [spec_response_cons, httpproxy_loop_succ,
      io_pollline_line eol h _ wr err heol hw.1]
    simp only [ne_eq, not_true_eq_false, if_false, one_ne_zero, hw.2]
    exact ih (fun x hx => hh x (by simp [hx])) m (by simpa using hn)

/-- The first iteration of the loop on a complete first line: a line that
fails the status-line condition ends the negotiation with the cause
"unexpected data: " followed by what the freed line reads as; a line that
passes it is consumed and the loop goes on to the headers. -/
theorem httpproxy_loop_first (freed : List Char → List Char) (eol : List Char)
    (heol : eol ≠ []) (line : List Char) (hl : wfline eol line) (rest wr : List Nat)
    (err : String) (n : Nat) :
    httpproxy_loop freed eol (n + 1) 0 ⟨bytes line ++ bytes eol ++ rest, wr, err⟩ =
      if spec_status_ok line then httpproxy_loop freed eol n 1 ⟨rest, wr, err⟩
      else ⟨1, some ("unexpected data: " ++ fmt_s (freed line)), ⟨rest, wr, err⟩⟩ := by
  rw [httpproxy_loop_succ, io_pollline_line eol line rest wr err heol hl]
  simp only [ne_eq, not_true_eq_false, if_false, if_true, httpproxy_unexpected_iff]
  by_cases h : spec_status_ok line
  · simp [h]
  · simp [h]

/-! ## httpproxy: end to end -/

theorem httpproxy_start (freed : List Char → List Char) (sv : List Char → Option Nat)
    (eol : List Char) (srv : server) (pr : proxy) (rd wr : List Nat) (err : String) (n : Nat)
    (huser : pr.user = none) (hpass : pr.pass = none)
    (hsv : ∀ s q, sv s = some q → q < 65536) (hres : spec_resolves sv srv.port n) :
    httpproxy freed sv eol srv pr ⟨rd, wr, err⟩
      = httpproxy_loop freed eol (rd.length + 1) 0
          ⟨rd, wr ++ (bytes (spec_connect_line srv.host n) ++ bytes eol) ++ bytes eol, err⟩ := by
  have hg := getport_resolves sv srv.port n hsv hres
  unfold httpproxy
  rw [if_neg (by simp [huser, hpass]), hg, if_neg (by omega)]
  have hfmt : fmt_d ((n : Nat) : Int) = toString n := rfl
  simp [io_writeline, io_write, spec_connect_line, hfmt, bytes]

/-- C12: HTTP CONNECT end to end. For every descriptor without credentials,
every target whose port resolves to `n`, and every response made of a status
line that passes the status-line condition, any number of non-empty header
lines and then an empty line, `httpproxy` writes exactly the two lines
`CONNECT host:n HTTP/1.1` and the empty line, returns 0, and consumes the
response up to and including the first empty line and nothing after it,
whatever the header lines contain. If the line source fails before an empty
line is read (before the status line, or after the status line and some
non-empty header lines), `httpproxy` returns 1 with the transport's cause. -/
theorem httpproxy_connect (freed : List Char → List Char) (sv : List Char → Option Nat)
    (eol : List Char) (srv : server) (pr : proxy) (i : io) (n : Nat)
    (status : List Char) (headers : List (List Char))
    (huser : pr.user = none) (hpass : pr.pass = none)
    (hsv : ∀ s q, sv s = some q → q < 65536) (hres : spec_resolves sv srv.port n)
    (heol : eol ≠ []) (hst : spec_status_ok status) (hstw : wfline eol status)
    (hh : ∀ h ∈ headers, wfline eol h ∧ h ≠ []) :
    (∀ rest, i.rd = spec_response eol (status :: headers ++ [[]]) ++ rest →
        httpproxy freed sv eol srv pr i
          = ⟨0, none,
              ⟨rest, i.wr ++ (bytes (spec_connect_line srv.host n) ++ bytes eol) ++ bytes eol,
                i.error⟩⟩)
      ∧ (∀ tail, findeol (bytes eol) tail = none →
          (i.rd = tail ∨ i.rd = spec_response eol (status :: headers) ++ tail) →
          httpproxy freed sv eol srv pr i
            = ⟨1, some i.error,
                ⟨tail, i.wr ++ (bytes (spec_connect_line srv.host n) ++ bytes eol) ++ bytes eol,
                  i.error⟩⟩) := by
  obtain ⟨rd, wr, err⟩ := i
  simp only
  constructor
  · intro rest hrd
    subst hrd
    rw [httpproxy_start freed sv eol srv pr _ wr err n huser hpass hsv hres,
      List.cons_append, spec_response_cons, httpproxy_loop_first freed eol heol status hstw,
      if_pos hst]
    apply httpproxy_loop_headers freed eol heol headers hh
    have h1 := spec_response_length eol heol (headers ++ [[]])
    simp only [List.length_append, List.length_cons, List.length_nil] at h1 ⊢
    omega
  · intro tail ht hrd
    rw [httpproxy_start freed sv eol srv pr _ wr err n huser hpass hsv hres]
    rcases hrd with hrd | hrd
    · subst hrd
      rw [httpproxy_loop_succ, io_pollline_none eol _ ht]
      simp
    · subst hrd
      rw [spec_response_cons, httpproxy_loop_first freed eol heol status hstw, if_pos hst]
      apply httpproxy_loop_starved freed eol heol headers hh tail _ err ht
      have h1 := spec_response_length eol heol headers
      have h2 : 0 < (bytes eol).length := by
        simpa [bytes] using List.length_pos.2 heol
      simp only [List.length_append] at h1 ⊢
      omega

/-- C12 witness: the response `HTTP/1.1 200 Connection Established`, one
header line and an empty line, followed by bytes that stay unread. -/
theorem httpproxy_connect_witness :
    httpproxy id (fun _ => none) "\r\n".toList ⟨"mail".toList, "110".toList, 0, 0⟩
        ⟨proxytype.PROXY_HTTP, none, none, ⟨"proxy".toList, "http".toList, 0, 0⟩⟩
        ⟨spec_response "\r\n".toList
            ("HTTP/1.1 200 Connection Established".toList :: ["Via: x".toList] ++ [[]])
          ++ [43, 79, 75], [], "timed out"⟩
      = ⟨0, none,
          ⟨[43, 79, 75],
            [] ++ (bytes (spec_connect_line "mail".toList 110) ++ bytes "\r\n".toList)
              ++ bytes "\r\n".toList,
            "timed out"⟩⟩ :=
  (httpproxy_connect id (fun _ => none) "\r\n".toList ⟨"mail".toList, "110".toList, 0, 0⟩
    ⟨proxytype.PROXY_HTTP, none, none, ⟨"proxy".toList, "http".toList, 0, 0⟩⟩
    ⟨spec_response "\r\n".toList
        ("HTTP/1.1 200 Connection Established".toList :: ["Via: x".toList] ++ [[]])
      ++ [43, 79, 75], [], "timed out"⟩
    110 "HTTP/1.1 200 Connection Established".toList ["Via: x".toList] rfl rfl
    (by intro s q h; cases h) (Or.inr (by decide)) (by decide) (by decide) (by decide)
    (by decide)).1 [43, 79, 75] rfl

theorem findeol_split (eol : List Nat) (rd l r : List Nat)
    (h : findeol eol rd = some (l, r)) : rd = l ++ eol ++ r ∧ (eol = [] → l = []) := by
  induction rd generalizing l r with
  | nil =>
    rw [findeol] at h
    split_ifs at h with he
    injection h with h
    injection h with h1 h2
    subst h1 h2 he
    exact ⟨rfl, fun _ => rfl⟩
  | cons b bs ih =>
    rw [findeol_cons] at h
    split_ifs at h with hp
    · injection h with h
      injection h with h1 h2
      subst h1 h2
      rw [List.isPrefixOf_iff_prefix, List.prefix_iff_eq_take] at hp
      refine ⟨?_, fun _ => rfl⟩
      rw [List.nil_append]
      conv_lhs => rw [← List.take_append_drop eol.length (b :: bs)]
      rw [← hp]
    · cases hf : findeol eol bs with
      | none => rw [hf] at h; cases h
      | some p =>
        obtain ⟨l2, r2⟩ := p
        rw [hf] at h
        injection h with h
        injection h with h1 h2
        subst h1 h2
        obtain ⟨e1, -⟩ := ih l2 r2 hf
        refine ⟨by rw [e1]; simp, ?_⟩
        intro he
        subst he
        exact absurd (by simp) hp

/-- The bound on the iterations of the loop is never reached: with more
iterations allowed than there are unread bytes, the result of the loop does
not depend on the bound. -/
theorem httpproxy_loop_fuel (freed : List Char → List Char) (eol : List Char) (n m : Nat)
    (header : Int) (i : io) (hn : i.rd.length < n) (hm : i.rd.length < m) :
    httpproxy_loop freed eol n header i = httpproxy_loop freed eol m header i := by
  induction n generalizing m header i with
  | zero => omega
  | succ n ih =>
    obtain ⟨m, rfl⟩ : ∃ k, m = k + 1 := ⟨m - 1, by omega⟩
    rw [httpproxy_loop_succ, httpproxy_loop_succ]
    cases hf : findeol (bytes eol) i.rd with
    | none =>
      have hp := io_pollline_none eol i hf
      rw [hp]
      simp
    | some p =>
      obtain ⟨l, r⟩ := p
      have hp : io_pollline eol i = (1, cstr l, { i with rd := r }) := by
        unfold io_pollline
        rw [hf]
      obtain ⟨hsplit, hnil⟩ := findeol_split _ _ _ _ hf
      rw [hp]
      simp only [ne_eq, not_true_eq_false, if_false]
      by_cases he : bytes eol = []
      · have hl : cstr l = [] := by
          rw [hnil he]
          rfl
        have hu : httpproxy_unexpected [] := Or.inl (by simp)
        rw [hl]
        by_cases h0 : header = 0
        · simp [h0, hu]
        · simp [h0]
      · have hlen : r.length < i.rd.length := by
          rw [hsplit]
          have : 0 < (bytes eol).length := List.length_pos.2 he
          simp only [List.length_append]
          omega
        have e1 := ih m 1 { i with rd := r } (by simp only; omega) (by simp only; omega)
        have e2 := ih m header { i with rd := r } (by simp only; omega) (by simp only; omega)
        rw [e1, e2]

/-- The status-line check of `httpproxy`: on a complete first line the
negotiation goes on to the header lines exactly when the line passes the
status-line condition; every other first line makes `httpproxy` return 1 with
the cause "unexpected data: " followed by what the line reads as after it
has been freed. -/
theorem httpproxy_status_line (freed : List Char → List Char)
    (sv : List Char → Option Nat) (eol : List Char) (srv : server) (pr : proxy)
    (line : List Char) (rest wr : List Nat) (err : String) (n : Nat)
    (huser : pr.user = none) (hpass : pr.pass = none)
    (hsv : ∀ s q, sv s = some q → q < 65536) (hres : spec_resolves sv srv.port n)
    (heol : eol ≠ []) (hl : wfline eol line) :
    httpproxy freed sv eol srv pr ⟨bytes line ++ bytes eol ++ rest, wr, err⟩ =
      if spec_status_ok line then
        httpproxy_loop freed eol (bytes line ++ bytes eol ++ rest).length 1
          ⟨rest, wr ++ (bytes (spec_connect_line srv.host n) ++ bytes eol) ++ bytes eol, err⟩
      else
        ⟨1, some ("unexpected data: " ++ fmt_s (freed line)),
          ⟨rest, wr ++ (bytes (spec_connect_line srv.host n) ++ bytes eol) ++ bytes eol,
            err⟩⟩ := by
  rw [httpproxy_start freed sv eol srv pr _ wr err n huser hpass hsv hres,
    httpproxy_loop_first freed eol heol line hl]

/-- C11 (the code at the failing input): the first line
`HTTP/1.1 407 Proxy Authentication Required` is refused, but the cause is
formatted from the line after `xfree(line)`: where the freed memory reads as
the empty string the cause is "unexpected data: " and does not embed the
line; the line appears in the cause only where the freed memory still holds
it. -/
theorem httpproxy_cause_after_free :
    httpproxy (fun _ => []) (fun _ => none) "\r\n".toList
        ⟨"mail".toList, "110".toList, 0, 0⟩
        ⟨proxytype.PROXY_HTTP, none, none, ⟨"proxy".toList, "http".toList, 0, 0⟩⟩
        ⟨bytes "HTTP/1.1 407 Proxy Authentication Required\r\n".toList, [], "timed out"⟩
      = ⟨1, some "unexpected data: ",
          ⟨[], bytes "CONNECT mail:110 HTTP/1.1\r\n\r\n".toList, "timed out"⟩⟩
      ∧ httpproxy id (fun _ => none) "\r\n".toList
          ⟨"mail".toList, "110".toList, 0, 0⟩
          ⟨proxytype.PROXY_HTTP, none, none, ⟨"proxy".toList, "http".toList, 0, 0⟩⟩
          ⟨bytes "HTTP/1.1 407 Proxy Authentication Required\r\n".toList, [], "timed out"⟩
        = ⟨1, some "unexpected data: HTTP/1.1 407 Proxy Authentication Required",
            ⟨[], bytes "CONNECT mail:110 HTTP/1.1\r\n\r\n".toList, "timed out"⟩⟩ := by
  constructor <;> decide

/-! ## socks5proxy: bound on the drain length -/

/-- Where plain `char` is unsigned, or for a 5th byte up to 127, the drain
length of a reply with a known address type is at most 257. -/
theorem socks5_flushlen_bounded (a : abi) (b0 b1 b2 b3 b4 len : Nat) (h3 : b3 < 256)
    (h4 : b4 < 256) (hw : 9 ≤ a.size_bits) (hsig : a.char_signed = false ∨ b4 < 128)
    (h : socks5_flushlen a [b0, b1, b2, b3, b4] = Except.ok len) : len ≤ 257 := by
  obtain ⟨k1, k3, k4, k0⟩ := socks5_flushlen_known a b0 b1 b2 b3 b4 h3 h4 hw
  by_cases e1 : b3 = 1
  · rw [k1 e1] at h
    injection h with h
    omega
  by_cases e3 : b3 = 3
  · rw [k3 e3] at h
    injection h with h
    omega
  by_cases e4 : b3 = 4
  · rw [k4 e4 hsig] at h
    injection h with h
    omega
  · rw [k0 e1 e3 e4] at h
    cases h

/-- C19 (the code at the failing input): with a signed plain `char` and a
64-bit `size_t`, the connect reply `5, 0, 0, 4, 128` has version 5, status 0
and the known address type 4, and the drain length computed from it is
`(size_t)(-128 + 2) = 2^64 - 126`, far above 257 and above the 1024 bytes of
the buffer; so the bound does not hold for every 5th byte. -/
theorem socks5_flushlen_signed_char :
    socks5_flushlen ⟨true, 64⟩ [5, 0, 0, 4, 128] = Except.ok 18446744073709551490
      ∧ ¬ (∀ b4 len, b4 < 256 →
            socks5_flushlen ⟨true, 64⟩ [5, 0, 0, 4, b4] = Except.ok len → len ≤ 257) := by
  refine ⟨rfl, ?_⟩
  intro h
  have h2 := h 128 18446744073709551490 (by decide) rfl
  omega

/-! ## makessl -/

theorem makessl_handshake (e : env) (t : tls) (fd : Int) (mode : Nat) (verify : Int)
    (hnew : t.ssl_new = true) (hfd : t.ssl_set_fd = 1) (hfc : e.fcntl_ok = true)
    (hconn : 1 ≤ t.ssl_connect) :
    makessl e t fd mode verify =
      if t.peer_cert = true then
        if verify ≠ 0 ∧ t.verify_result ≠ X509_V_OK then
          ⟨none, some ("certificate verification failed: " ++ t.verify_string), none,
            andnot mode e.O_NONBLOCK,
            [event.setfl fd (andnot mode e.O_NONBLOCK), event.ssl_connect fd,
              event.setfl fd (andnot mode e.O_NONBLOCK)]
              ++ [event.x509_free, event.ssl_ctx_free, event.ssl_free]⟩
        else
          ⟨some ⟨fd⟩, none, none, andnot mode e.O_NONBLOCK,
            [event.setfl fd (andnot mode e.O_NONBLOCK), event.ssl_connect fd,
              event.setfl fd (andnot mode e.O_NONBLOCK)]⟩
      else if verify ≠ 0 then
        ⟨none, some "certificate verification failed: no certificate", none,
          andnot mode e.O_NONBLOCK,
          [event.setfl fd (andnot mode e.O_NONBLOCK), event.ssl_connect fd,
            event.setfl fd (andnot mode e.O_NONBLOCK)]
            ++ [event.ssl_ctx_free, event.ssl_free]⟩
      else
        ⟨some ⟨fd⟩, none, none, andnot mode e.O_NONBLOCK,
          [event.setfl fd (andnot mode e.O_NONBLOCK), event.ssl_connect fd,
            event.setfl fd (andnot mode e.O_NONBLOCK)]⟩ := by
  unfold makessl
  rw [if_neg (by simp [hnew]), if_neg (by simp [hfd]), if_neg (by simp [hfc]),
    if_neg (by omega)]

/-- C14: verification decision of `makessl`. Given a successful handshake
(the session is created and bound, `fcntl` succeeds, `SSL_connect` returns at
least 1), `makessl` returns a session if and only if verification is not
requested, or the peer presented a certificate and the verification result is
`X509_V_OK`; the session returned is the one on the descriptor. With
verification requested and no peer certificate it returns `NULL` with the
cause "certificate verification failed: no certificate"; with verification
disabled the same peer gets a session; with verification requested and a
certificate that does not verify the cause carries the validator's
reason. -/
theorem makessl_verification (e : env) (t : tls) (fd : Int) (mode : Nat) (verify : Int)
    (hnew : t.ssl_new = true) (hfd : t.ssl_set_fd = 1) (hfc : e.fcntl_ok = true)
    (hconn : 1 ≤ t.ssl_connect) :
    ((makessl e t fd mode verify).ssl ≠ none
        ↔ (verify = 0 ∨ (t.peer_cert = true ∧ t.verify_result = X509_V_OK)))
      ∧ ((makessl e t fd mode verify).ssl ≠ none →
          (makessl e t fd mode verify).ssl = some ⟨fd⟩
            ∧ (makessl e t fd mode verify).cause = none
            ∧ (makessl e t fd mode verify).fatal = none)
      ∧ (verify ≠ 0 → t.peer_cert = false →
          (makessl e t fd mode verify).ssl = none
            ∧ (makessl e t fd mode verify).cause
                = some "certificate verification failed: no certificate")
      ∧ (verify = 0 → t.peer_cert = false →
          (makessl e t fd mode verify).ssl = some ⟨fd⟩)
      ∧ (verify ≠ 0 → t.peer_cert = true → t.verify_result ≠ X509_V_OK →
          (makessl e t fd mode verify).ssl = none
            ∧ (makessl e t fd mode verify).cause
                = some ("certificate verification failed: " ++ t.verify_string)) := by
  rw [makessl_handshake e t fd mode verify hnew hfd hfc hconn]
  by_cases hc : t.peer_cert = true
  · by_cases hv : verify = 0
    · simp [hc, hv]
    · by_cases hr : t.verify_result = X509_V_OK
      · simp [hc, hv, hr]
      · simp [hc, hv, hr]
  · by_cases hv : verify = 0
    · simp [hc, hv]
    · simp [hc, hv]

/-- C14 witness: verification requested, a handshake that succeeds, and a
peer without a certificate. -/
theorem makessl_verification_witness :
    (makessl ⟨2048, true, 2, 0, fun _ _ => Except.ok [], fun _ => "", fun _ => "", [], ""⟩
        ⟨true, 1, 1, 0, 0, false, 0, "", ""⟩ 5 2050 1).ssl = none
      ∧ (makessl ⟨2048, true, 2, 0, fun _ _ => Except.ok [], fun _ => "", fun _ => "", [], ""⟩
          ⟨true, 1, 1, 0, 0, false, 0, "", ""⟩ 5 2050 1).cause
        = some "certificate verification failed: no certificate" :=
  (makessl_verification
    ⟨2048, true, 2, 0, fun _ _ => Except.ok [], fun _ => "", fun _ => "", [], ""⟩
    ⟨true, 1, 1, 0, 0, false, 0, "", ""⟩ 5 2050 1 rfl rfl rfl (by decide)).2.2.1
    (by decide) rfl

theorem andnot_testBit (m b i : Nat) :
    (andnot m b).testBit i = (m.testBit i && !b.testBit i) := by
  unfold andnot
  rw [Nat.testBit_xor, Nat.testBit_and]
  cases m.testBit i <;> cases b.testBit i <;> rfl

theorem andnot_and (m b : Nat) : andnot m b &&& b = 0 := by
  apply Nat.eq_of_testBit_eq
  intro i
  rw [Nat.testBit_and, andnot_testBit, Nat.zero_testBit]
  cases m.testBit i <;> cases b.testBit i <;> rfl

/-- The flags of the descriptor around the handshake of `makessl`: whenever
the handshake is reached it runs right after the descriptor is set to
`mode & ~O_NONBLOCK` (blocking), and when `makessl` returns a session the
flags are again `mode & ~O_NONBLOCK`: every `O_NONBLOCK` bit is clear and the
other bits are those of `mode`. -/
theorem makessl_flags (e : env) (t : tls) (fd : Int) (mode : Nat) (verify : Int)
    (hnew : t.ssl_new = true) (hfd : t.ssl_set_fd = 1) (hfc : e.fcntl_ok = true) :
    (∃ rest, (makessl e t fd mode verify).trace
        = event.setfl fd (andnot mode e.O_NONBLOCK) :: event.ssl_connect fd :: rest)
      ∧ andnot mode e.O_NONBLOCK &&& e.O_NONBLOCK = 0
      ∧ ((makessl e t fd mode verify).ssl ≠ none →
          (makessl e t fd mode verify).flags = andnot mode e.O_NONBLOCK
            ∧ (makessl e t fd mode verify).flags &&& e.O_NONBLOCK = 0
            ∧ ∀ i, e.O_NONBLOCK.testBit i = false →
                (makessl e t fd mode verify).flags.testBit i = mode.testBit i) := by
  refine ⟨?_, andnot_and _ _, ?_⟩
  · unfold makessl
    rw [if_neg (by simp [hnew]), if_neg (by simp [hfd]), if_neg (by simp [hfc])]
    dsimp only
    split_ifs <;> exact ⟨_, rfl⟩
  · intro hs
    have hflags : (makessl e t fd mode verify).flags = andnot mode e.O_NONBLOCK := by
      revert hs
      unfold makessl
      rw [if_neg (by simp [hnew]), if_neg (by simp [hfd]), if_neg (by simp [hfc])]
      dsimp only
      split_ifs <;> simp
    refine ⟨hflags, by rw [hflags]; exact andnot_and _ _, ?_⟩
    intro i hi
    rw [hflags, andnot_testBit, hi]
    simp

/-- C15 (the code at the failing input): on Linux (`O_NONBLOCK` is 2048) a
descriptor with the flags `O_RDWR | O_NONBLOCK` (2050), as `connectio` hands
it to `makessl`, is set to 2 (blocking) for the handshake and, after
`makessl` has returned a session, its flags are still 2: the call commented
"reset to non-blocking mode" passes `mode & ~O_NONBLOCK` again, so the
`O_NONBLOCK` flag is not set. -/
theorem makessl_leaves_blocking :
    makessl ⟨2048, true, 2, 0, fun _ _ => Except.ok [], fun _ => "", fun _ => "", [], ""⟩
        ⟨true, 1, 1, 0, 0, true, 0, "", ""⟩ 5 2050 1
      = ⟨some ⟨5⟩, none, none, 2,
          [event.setfl 5 2, event.ssl_connect 5, event.setfl 5 2]⟩
      ∧ (2 : Nat) &&& 2048 = 0 := by
  constructor <;> decide

/-! ## connectio: the connect fallback -/

theorem connectio_loop_failed (l : List candidate) (st : loopstate)
    (hall : ∀ x ∈ l, ¬ cand_ok x) :
    (connectio_loop l st).trace = st.trace ++ spec_failed l
      ∧ (l = [] → connectio_loop l st = st)
      ∧ (∀ hne : l ≠ [],
          (connectio_loop l st).fd < 0
            ∧ (connectio_loop l st).fn
                = some (if (l.getLast hne).sock < 0 then "socket" else "connect")
            ∧ (connectio_loop l st).errno
                = (if (l.getLast hne).sock < 0 then (l.getLast hne).sock_errno
                   else (l.getLast hne).conn_errno)) := by
  induction l generalizing st with
  | nil =>
    refine ⟨by simp [connectio_loop, spec_failed], fun _ => rfl, ?_⟩
    intro hne
    exact absurd rfl hne
  | cons c cs ih =>
    have hc : ¬ cand_ok c := hall c (by simp)
    have hcs : ∀ x ∈ cs, ¬ cand_ok x := fun x hx => hall x (by simp [hx])
    by_cases hs : c.sock < 0
    · have hstep : connectio_loop (c :: cs) st
          = connectio_loop cs ⟨c.sock, some "socket", c.sock_errno,
              st.trace ++ [event.socket c.addr]⟩ := by
        rw [connectio_loop, if_pos hs]
      obtain ⟨i1, i2, i3⟩ := ih ⟨c.sock, some "socket", c.sock_errno,
        st.trace ++ [event.socket c.addr]⟩ hcs
      rw [hstep]
      refine ⟨?_, fun h => absurd h (by simp), ?_⟩
      · rw [i1]
        simp [spec_failed, spec_failed_calls, hs]
      · intro hne
        by_cases hnil : cs = []
        · subst hnil
          rw [i2 rfl]
          simp [hs]
        · have := i3 hnil
          rw [List.getLast_cons hnil]
          exact this
    · have hconn : c.conn < 0 := by
        by_contra hn
        exact hc ⟨by omega, by omega⟩
      have hstep : connectio_loop (c :: cs) st
          = connectio_loop cs ⟨-1, some "connect", c.conn_errno,
              st.trace ++ [event.socket c.addr, event.connect c.sock c.addr,
                event.close c.sock]⟩ := by
        rw [connectio_loop, if_neg hs, if_pos hconn]
      obtain ⟨i1, i2, i3⟩ := ih ⟨-1, some "connect", c.conn_errno,
        st.trace ++ [event.socket c.addr, event.connect c.sock c.addr,
          event.close c.sock]⟩ hcs
      rw [hstep]
      refine ⟨?_, fun h => absurd h (by simp), ?_⟩
      · rw [i1]
        simp [spec_failed, spec_failed_calls, hs]
      · intro hne
        by_cases hnil : cs = []
        · subst hnil
          rw [i2 rfl]
          simp [hs]
        · have := i3 hnil
          rw [List.getLast_cons hnil]
          exact this

theorem connectio_loop_first_ok (pre post : List candidate) (c : candidate) (st : loopstate)
    (hpre : ∀ x ∈ pre, ¬ cand_ok x) (hc : cand_ok c) :
    (connectio_loop (pre ++ c :: post) st).fd = c.sock
      ∧ (connectio_loop (pre ++ c :: post) st).trace
          = st.trace ++ spec_failed pre
              ++ [event.socket c.addr, event.connect c.sock c.addr] := by
  induction pre generalizing st with
  | nil =>
    have h1 : ¬ c.sock < 0 := by have := hc.1; omega
    have h2 : ¬ c.conn < 0 := by have := hc.2; omega
    rw [List.nil_append, connectio_loop, if_neg h1, if_neg h2]
    simp [spec_failed]
  | cons p ps ih =>
    have hp : ¬ cand_ok p := hpre p (by simp)
    have hps : ∀ x ∈ ps, ¬ cand_ok x := fun x hx => hpre x (by simp [hx])
    by_cases hs : p.sock < 0
    · rw [List.cons_append, connectio_loop, if_pos hs]
      obtain ⟨i1, i2⟩ := ih ⟨p.sock, some "socket", p.sock_errno,
        st.trace ++ [event.socket p.addr]⟩ hps
      refine ⟨i1, ?_⟩
      rw [i2]
      simp [spec_failed, spec_failed_calls, hs]
    · have hconn : p.conn < 0 := by
        by_contra hn
        exact hp ⟨by omega, by omega⟩
      rw [List.cons_append, connectio_loop, if_neg hs, if_pos hconn]
      obtain ⟨i1, i2⟩ := ih ⟨-1, some "connect", p.conn_errno,
        st.trace ++ [event.socket p.addr, event.connect p.sock p.addr,
          event.close p.sock]⟩ hps
      refine ⟨i1, ?_⟩
      rw [i2]
      simp [spec_failed, spec_failed_calls, hs]

theorem exists_first_ok (l : List candidate) (h : ∃ x ∈ l, cand_ok x) :
    ∃ pre c post, l = pre ++ c :: post ∧ (∀ x ∈ pre, ¬ cand_ok x) ∧ cand_ok c := by
  induction l with
  | nil =>
    obtain ⟨x, hx, -⟩ := h
    simp at hx
  | cons a as ih =>
    by_cases ha : cand_ok a
    · exact ⟨[], a, as, rfl, by simp, ha⟩
    · obtain ⟨x, hx, hok⟩ := h
      have hx2 : x ∈ as := by
        rcases List.mem_cons.1 hx with e | e
        · exact absurd (e ▸ hok) ha
        · exact e
      obtain ⟨pre, c, post, e1, e2, e3⟩ := ih ⟨x, hx2, hok⟩
      refine ⟨a :: pre, c, post, by rw [e1]; rfl, ?_, e3⟩
      intro y hy
      rcases List.mem_cons.1 hy with e | e
      · exact e ▸ ha
      · exact e2 y e

/-- C16 (amended): connect fallback of `connectio`. For every non-empty list of
candidate addresses, the candidates are tried in list order: when `c` is the
first candidate for which both `socket` and `connect` succeed, the calls made
are those for the failed candidates before it (with `close` of every socket
whose `connect` failed) followed by `socket` and `connect` for `c`, no call is
made for a candidate after it, the connected descriptor is the socket of `c`,
and without TLS `connectio` returns a transport on it. When no candidate
succeeds `connectio` returns `NULL` and the cause names the operation
("socket" or "connect") that failed for the last candidate with its system
error. Without TLS, `connectio` fails if and only if no candidate
succeeds. -/
theorem connectio_fallback (e : env) (t : tls) (srv : server) (l : List candidate)
    (eol : List Char) (timeout : Int) (hne : l ≠ []) :
    (∀ pre c post, l = pre ++ c :: post → (∀ x ∈ pre, ¬ cand_ok x) → cand_ok c →
        (connectio_loop l ⟨-1, none, e.errno, []⟩).fd = c.sock
          ∧ (connectio_loop l ⟨-1, none, e.errno, []⟩).trace
              = spec_failed pre ++ [event.socket c.addr, event.connect c.sock c.addr]
          ∧ (srv.ssl = 0 →
              connectio e t srv (some l) eol timeout
                = ⟨some (io_create e c.sock none eol timeout e.newflags), none, none, some l,
                    spec_failed pre ++ [event.socket c.addr, event.connect c.sock c.addr]
                      ++ [event.setfl c.sock (e.newflags ||| e.O_NONBLOCK),
                          event.io_create c.sock]⟩))
      ∧ ((∀ x ∈ l, ¬ cand_ok x) →
          connectio e t srv (some l) eol timeout
            = ⟨none, some (spec_failed_cause e (l.getLast hne)), none, some l, spec_failed l⟩)
      ∧ (srv.ssl = 0 →
          ((connectio e t srv (some l) eol timeout).io = none ↔ ∀ x ∈ l, ¬ cand_ok x)) := by
  have hok : ∀ pre c post, l = pre ++ c :: post → (∀ x ∈ pre, ¬ cand_ok x) → cand_ok c →
      (connectio_loop l ⟨-1, none, e.errno, []⟩).fd = c.sock
        ∧ (connectio_loop l ⟨-1, none, e.errno, []⟩).trace
            = spec_failed pre ++ [event.socket c.addr, event.connect c.sock c.addr]
        ∧ (srv.ssl = 0 →
            connectio e t srv (some l) eol timeout
              = ⟨some (io_create e c.sock none eol timeout e.newflags), none, none, some l,
                  spec_failed pre ++ [event.socket c.addr, event.connect c.sock c.addr]
                    ++ [event.setfl c.sock (e.newflags ||| e.O_NONBLOCK),
                        event.io_create c.sock]⟩) := by
    intro pre c post hl hpre hc
    subst hl
    obtain ⟨h1, h2⟩ := connectio_loop_first_ok pre post c ⟨-1, none, e.errno, []⟩ hpre hc
    simp only [List.nil_append] at h2
    refine ⟨h1, h2, ?_⟩
    intro hssl
    have hfd : ¬ (connectio_loop (pre ++ c :: post) ⟨-1, none, e.errno, []⟩).fd < 0 := by
      rw [h1]
      have := hc.1
      omega
    have hfd2 : ¬ c.sock < 0 := by
      have := hc.1
      omega
    unfold connectio connectio_connect
    simp only [hssl, if_true, h1, h2, hfd2, if_false]
  have hfail : (∀ x ∈ l, ¬ cand_ok x) →
      connectio e t srv (some l) eol timeout
        = ⟨none, some (spec_failed_cause e (l.getLast hne)), none, some l, spec_failed l⟩ := by
    intro hall
    obtain ⟨h1, -, h3⟩ := connectio_loop_failed l ⟨-1, none, e.errno, []⟩ hall
    obtain ⟨hfd, hfn, herr⟩ := h3 hne
    simp only [List.nil_append] at h1
    unfold connectio connectio_connect
    simp only [hfd, if_true, hfn, herr, h1, Option.getD_some]
    unfold spec_failed_cause
    by_cases hs : (l.getLast hne).sock < 0
    · simp [hs]
    · simp [hs]
  refine ⟨hok, hfail, ?_⟩
  intro hssl
  constructor
  · intro hnone x hx hcx
    obtain ⟨pre, c, post, e1, e2, e3⟩ := exists_first_ok l ⟨x, hx, hcx⟩
    rw [(hok pre c post e1 e2 e3).2.2 hssl] at hnone
    cases hnone
  · intro hall
    rw [hfail hall]

/-- C16 (amended) witness: two candidates, the first refuses the connection and the
second accepts: the result is a transport on the socket of the second. -/
theorem connectio_fallback_witness :
    connectio ⟨2048, true, 2, 0, fun _ _ => Except.ok [], fun _ => "", fun _ => "", [], ""⟩
        ⟨true, 1, 1, 0, 0, true, 0, "", ""⟩ ⟨"mail".toList, "110".toList, 0, 0⟩
        (some [⟨1, 3, 0, -1, 111⟩, ⟨2, 4, 0, 0, 0⟩]) "\n".toList 30
      = ⟨some (io_create
            ⟨2048, true, 2, 0, fun _ _ => Except.ok [], fun _ => "", fun _ => "", [], ""⟩
            4 none "\n".toList 30 2),
          none, none, some [⟨1, 3, 0, -1, 111⟩, ⟨2, 4, 0, 0, 0⟩],
          spec_failed [⟨1, 3, 0, -1, 111⟩] ++ [event.socket 2, event.connect 4 2]
            ++ [event.setfl 4 (2 ||| 2048), event.io_create 4]⟩ :=
  ((connectio_fallback
    ⟨2048, true, 2, 0, fun _ _ => Except.ok [], fun _ => "", fun _ => "", [], ""⟩
    ⟨true, 1, 1, 0, 0, true, 0, "", ""⟩ ⟨"mail".toList, "110".toList, 0, 0⟩
    [⟨1, 3, 0, -1, 111⟩, ⟨2, 4, 0, 0, 0⟩] "\n".toList 30 (by decide)).1
    [⟨1, 3, 0, -1, 111⟩] ⟨2, 4, 0, 0, 0⟩ [] rfl (by decide) (by decide)).2.2 rfl

/-! ## connectproxy -/

theorem makessl_ssl_fatal (e : env) (t : tls) (fd : Int) (mode : Nat) (verify : Int)
    (h : (makessl e t fd mode verify).ssl ≠ none) :
    (makessl e t fd mode verify).fatal = none := by
  revert h
  unfold makessl
  dsimp only
  split_ifs <;> simp

theorem connectproxy_negotiated (a : abi) (e : env) (tp tt : tls)
    (freed : List Char → List Char) (sv : List Char → Option Nat) (srv : server)
    (srvai : Option (List candidate)) (pr : proxy) (prai : Option (List candidate))
    (eol : List Char) (timeout : Int) (io : transport) (o : outcome)
    (hc : (connectio e tp pr.server prai IO_CRLF timeout).io = some io)
    (hn : connectproxy_negotiate a freed sv srv pr io = some o) :
    connectproxy a e tp tt freed sv srv srvai (some pr) prai eol timeout =
      if o.ret ≠ 0 then
        ⟨none, o.cause, none, (connectio e tp pr.server prai IO_CRLF timeout).ai,
          (connectio e tp pr.server prai IO_CRLF timeout).trace
            ++ [event.io_close io.fd, event.io_free io.fd]⟩
      else if srv.ssl ≠ 0 then
        match (makessl e tt io.fd io.flags srv.verify).fatal with
        | some msg =>
          ⟨none, none, some msg, (connectio e tp pr.server prai IO_CRLF timeout).ai,
            (connectio e tp pr.server prai IO_CRLF timeout).trace
              ++ (makessl e tt io.fd io.flags srv.verify).trace⟩
        | none =>
          match (makessl e tt io.fd io.flags srv.verify).ssl with
          | none =>
            ⟨none, (makessl e tt io.fd io.flags srv.verify).cause, none,
              (connectio e tp pr.server prai IO_CRLF timeout).ai,
              (connectio e tp pr.server prai IO_CRLF timeout).trace
                ++ (makessl e tt io.fd io.flags srv.verify).trace
                ++ [event.io_close io.fd, event.io_free io.fd]⟩
          | some ssl =>
            ⟨some { io with ssl := some ssl, eol := eol,
                            flags := (makessl e tt io.fd io.flags srv.verify).flags,
                            buf := o.conn },
              none, none, (connectio e tp pr.server prai IO_CRLF timeout).ai,
              (connectio e tp pr.server prai IO_CRLF timeout).trace
                ++ (makessl e tt io.fd io.flags srv.verify).trace⟩
      else
        ⟨some { io with eol := eol, buf := o.conn }, none, none,
          (connectio e tp pr.server prai IO_CRLF timeout).ai,
          (connectio e tp pr.server prai IO_CRLF timeout).trace⟩ := by
  unfold connectproxy
  simp only [hc, hn]

/-- C17 (the code at the failing input): `getproxy` returns a descriptor of
type HTTPS for `https://proxy`, and once the connection to that proxy is made
`connectproxy` reaches the `default` case of its `switch`: the process is
aborted with "unknown proxy type" and no negotiator is called. -/
theorem connectproxy_https_fatal :
    getproxy "https://proxy".toList
        = some ⟨proxytype.PROXY_HTTPS, none, none,
            ⟨"proxy".toList, "https".toList, 1, 0⟩⟩
      ∧ connectproxy ⟨true, 64⟩
          ⟨2048, true, 2, 0, fun _ _ => Except.ok [], fun _ => "", fun _ => "", [], ""⟩
          ⟨true, 1, 1, 0, 0, true, 0, "", ""⟩ ⟨true, 1, 1, 0, 0, true, 0, "", ""⟩ id
          (fun _ => none) ⟨"mail".toList, "110".toList, 0, 0⟩ none
          (getproxy "https://proxy".toList) (some [⟨2, 4, 0, 0, 0⟩]) "\n".toList 30
        = ⟨none, none, some "unknown proxy type", some [⟨2, 4, 0, 0, 0⟩],
            [event.socket 2, event.connect 4 2, event.setfl 4 2050, event.setfl 4 2,
              event.ssl_connect 4, event.setfl 4 2, event.setfl 4 2050,
              event.io_create 4]⟩ := by
  constructor <;> decide

/-- The dispatch of `connectproxy` by proxy type: HTTP goes to `httpproxy`,
SOCKS5 to `socks5proxy`, and HTTPS to neither. -/
theorem connectproxy_negotiate_type (a : abi) (freed : List Char → List Char)
    (sv : List Char → Option Nat) (srv : server) (pr : proxy) (io : transport) :
    (pr.type = proxytype.PROXY_HTTP →
        connectproxy_negotiate a freed sv srv pr io
          = some (httpproxy freed sv io.eol srv pr io.buf))
      ∧ (pr.type = proxytype.PROXY_SOCKS5 →
          connectproxy_negotiate a freed sv srv pr io = some (socks5proxy a sv srv pr io.buf))
      ∧ (pr.type = proxytype.PROXY_HTTPS →
          connectproxy_negotiate a freed sv srv pr io = none) := by
  unfold connectproxy_negotiate
  refine ⟨?_, ?_, ?_⟩ <;> intro h <;> rw [h]

/-- C13 (as stated, refuted): for the HTTP descriptor of `http://u:p@proxy`
the attempt fails with "HTTP proxy authentication is not supported", but only
after the connection to the proxy has been made (`socket`, `connect`,
`io_create`); the connection is then closed and freed. -/
theorem connectproxy_http_credentials_counterexample :
    connectproxy ⟨true, 64⟩
        ⟨2048, true, 2, 0, fun _ _ => Except.ok [], fun _ => "", fun _ => "", [], ""⟩
        ⟨true, 1, 1, 0, 0, true, 0, "", ""⟩ ⟨true, 1, 1, 0, 0, true, 0, "", ""⟩ id
        (fun _ => none) ⟨"mail".toList, "110".toList, 0, 0⟩ none
        (getproxy "http://u:p@proxy".toList) (some [⟨2, 4, 0, 0, 0⟩]) "\n".toList 30
      = ⟨none, some "HTTP proxy authentication is not supported", none,
          some [⟨2, 4, 0, 0, 0⟩],
          [event.socket 2, event.connect 4 2, event.setfl 4 2050, event.io_create 4,
            event.io_close 4, event.io_free 4]⟩
      ∧ event.connect 4 2 ∈
          (connectproxy ⟨true, 64⟩
            ⟨2048, true, 2, 0, fun _ _ => Except.ok [], fun _ => "", fun _ => "", [], ""⟩
            ⟨true, 1, 1, 0, 0, true, 0, "", ""⟩ ⟨true, 1, 1, 0, 0, true, 0, "", ""⟩ id
            (fun _ => none) ⟨"mail".toList, "110".toList, 0, 0⟩ none
            (getproxy "http://u:p@proxy".toList) (some [⟨2, 4, 0, 0, 0⟩]) "\n".toList
            30).trace := by
  constructor <;> decide

/-- C13 (amended): for every proxy descriptor that carries a user or a
password, `httpproxy` returns 1 with the cause "HTTP proxy authentication is
not supported" and leaves the transport untouched: no byte is written to or
read from the proxy connection. For a descriptor of type HTTP, `connectproxy`
makes the connection to the proxy first and then, on that failure, closes and
frees it and returns no transport, with that cause. -/
theorem httpproxy_credentials_rejected (a : abi) (e : env) (tp tt : tls)
    (freed : List Char → List Char) (sv : List Char → Option Nat) (srv : server)
    (srvai : Option (List candidate)) (pr : proxy) (prai : Option (List candidate))
    (eol : List Char) (timeout : Int) (hcred : pr.user ≠ none ∨ pr.pass ≠ none) :
    (∀ el i, httpproxy freed sv el srv pr i
        = ⟨1, some "HTTP proxy authentication is not supported", i⟩)
      ∧ (pr.type = proxytype.PROXY_HTTP →
          ∀ io, (connectio e tp pr.server prai IO_CRLF timeout).io = some io →
            connectproxy a e tp tt freed sv srv srvai (some pr) prai eol timeout
              = ⟨none, some "HTTP proxy authentication is not supported", none,
                  (connectio e tp pr.server prai IO_CRLF timeout).ai,
                  (connectio e tp pr.server prai IO_CRLF timeout).trace
                    ++ [event.io_close io.fd, event.io_free io.fd]⟩) := by
  have h1 : ∀ el i, httpproxy freed sv el srv pr i
      = ⟨1, some "HTTP proxy authentication is not supported", i⟩ := by
    intro el i
    unfold httpproxy
    rw [if_pos hcred]
  refine ⟨h1, ?_⟩
  intro ht io hc
  have hn := (connectproxy_negotiate_type a freed sv srv pr io).1 ht
  rw [connectproxy_negotiated a e tp tt freed sv srv srvai pr prai eol timeout io _ hc hn,
    h1]
  simp

/-- C13 (amended) witness: the HTTP descriptor with user `u` and password
`p`, and a transport with unread bytes that stay unread. -/
theorem httpproxy_credentials_rejected_witness :
    httpproxy id (fun _ => none) "\r\n".toList ⟨"mail".toList, "110".toList, 0, 0⟩
        ⟨proxytype.PROXY_HTTP, some "u".toList, some "p".toList,
          ⟨"proxy".toList, "http".toList, 0, 0⟩⟩
        ⟨[72, 84], [], "timed out"⟩
      = ⟨1, some "HTTP proxy authentication is not supported",
          ⟨[72, 84], [], "timed out"⟩⟩ :=
  (httpproxy_credentials_rejected ⟨true, 64⟩
    ⟨2048, true, 2, 0, fun _ _ => Except.ok [], fun _ => "", fun _ => "", [], ""⟩
    ⟨true, 1, 1, 0, 0, true, 0, "", ""⟩ ⟨true, 1, 1, 0, 0, true, 0, "", ""⟩ id
    (fun _ => none) ⟨"mail".toList, "110".toList, 0, 0⟩ none
    ⟨proxytype.PROXY_HTTP, some "u".toList, some "p".toList,
      ⟨"proxy".toList, "http".toList, 0, 0⟩⟩
    none "\n".toList 30 (Or.inl (by decide))).1 "\r\n".toList ⟨[72, 84], [], "timed out"⟩

/-- C18: outcome of `connectproxy`. With a proxy, `connectproxy` returns a
transport if and only if the connection to the proxy is made, the negotiator
selected by the proxy type returns 0 and, when the TLS flag of the original
target is set, `makessl` on the tunnelled descriptor returns a session. When
the negotiation succeeds, `makessl` is called on the descriptor of the proxy
connection exactly when the TLS flag of the target is set (the flag of the
proxy does not enter), and the transport returned carries the line terminator
of the caller. When the negotiation or the TLS establishment fails, the
proxy connection is closed and freed and no transport is returned; when the
connection to the proxy fails, the result is that of `connectio`. Without a
proxy, `connectproxy` returns exactly what `connectio` returns for the
target. -/
theorem connectproxy_outcome (a : abi) (e : env) (tp tt : tls)
    (freed : List Char → List Char) (sv : List Char → Option Nat) (srv : server)
    (srvai : Option (List candidate)) (pr : proxy) (prai : Option (List candidate))
    (eol : List Char) (timeout : Int) :
    ((connectproxy a e tp tt freed sv srv srvai (some pr) prai eol timeout).io ≠ none ↔
        ∃ io o, (connectio e tp pr.server prai IO_CRLF timeout).io = some io
          ∧ connectproxy_negotiate a freed sv srv pr io = some o ∧ o.ret = 0
          ∧ (srv.ssl ≠ 0 → (makessl e tt io.fd io.flags srv.verify).ssl ≠ none))
      ∧ (∀ io o, (connectio e tp pr.server prai IO_CRLF timeout).io = some io →
          connectproxy_negotiate a freed sv srv pr io = some o → o.ret = 0 →
          (srv.ssl = 0 →
              connectproxy a e tp tt freed sv srv srvai (some pr) prai eol timeout
                = ⟨some { io with eol := eol, buf := o.conn }, none, none,
                    (connectio e tp pr.server prai IO_CRLF timeout).ai,
                    (connectio e tp pr.server prai IO_CRLF timeout).trace⟩)
            ∧ (srv.ssl ≠ 0 → ∀ ssl, (makessl e tt io.fd io.flags srv.verify).ssl = some ssl →
                connectproxy a e tp tt freed sv srv srvai (some pr) prai eol timeout
                  = ⟨some { io with ssl := some ssl, eol := eol,
                                    flags := (makessl e tt io.fd io.flags srv.verify).flags,
                                    buf := o.conn },
                      none, none, (connectio e tp pr.server prai IO_CRLF timeout).ai,
                      (connectio e tp pr.server prai IO_CRLF timeout).trace
                        ++ (makessl e tt io.fd io.flags srv.verify).trace⟩)
            ∧ (srv.ssl ≠ 0 → (makessl e tt io.fd io.flags srv.verify).ssl = none →
                (makessl e tt io.fd io.flags srv.verify).fatal = none →
                connectproxy a e tp tt freed sv srv srvai (some pr) prai eol timeout
                  = ⟨none, (makessl e tt io.fd io.flags srv.verify).cause, none,
                      (connectio e tp pr.server prai IO_CRLF timeout).ai,
                      (connectio e tp pr.server prai IO_CRLF timeout).trace
                        ++ (makessl e tt io.fd io.flags srv.verify).trace
                        ++ [event.io_close io.fd, event.io_free io.fd]⟩))
      ∧ (∀ io o, (connectio e tp pr.server prai IO_CRLF timeout).io = some io →
          connectproxy_negotiate a freed sv srv pr io = some o → o.ret ≠ 0 →
          connectproxy a e tp tt freed sv srv srvai (some pr) prai eol timeout
            = ⟨none, o.cause, none, (connectio e tp pr.server prai IO_CRLF timeout).ai,
                (connectio e tp pr.server prai IO_CRLF timeout).trace
                  ++ [event.io_close io.fd, event.io_free io.fd]⟩)
      ∧ ((connectio e tp pr.server prai IO_CRLF timeout).io = none →
          connectproxy a e tp tt freed sv srv srvai (some pr) prai eol timeout
            = connectio e tp pr.server prai IO_CRLF timeout)
      ∧ connectproxy a e tp tt freed sv srv srvai none prai eol timeout
          = connectio e tt srv srvai eol timeout := by
  have hgood : ∀ io o, (connectio e tp pr.server prai IO_CRLF timeout).io = some io →
      connectproxy_negotiate a freed sv srv pr io = some o → o.ret = 0 →
      (srv.ssl = 0 →
          connectproxy a e tp tt freed sv srv srvai (some pr) prai eol timeout
            = ⟨some { io with eol := eol, buf := o.conn }, none, none,
                (connectio e tp pr.server prai IO_CRLF timeout).ai,
                (connectio e tp pr.server prai IO_CRLF timeout).trace⟩)
        ∧ (srv.ssl ≠ 0 → ∀ ssl, (makessl e tt io.fd io.flags srv.verify).ssl = some ssl →
            connectproxy a e tp tt freed sv srv srvai (some pr) prai eol timeout
              = ⟨some { io with ssl := some ssl, eol := eol,
                                flags := (makessl e tt io.fd io.flags srv.verify).flags,
                                buf := o.conn },
                  none, none, (connectio e tp pr.server prai IO_CRLF timeout).ai,
                  (connectio e tp pr.server prai IO_CRLF timeout).trace
                    ++ (makessl e tt io.fd io.flags srv.verify).trace⟩)
        ∧ (srv.ssl ≠ 0 → (makessl e tt io.fd io.flags srv.verify).ssl = none →
            (makessl e tt io.fd io.flags srv.verify).fatal = none →
            connectproxy a e tp tt freed sv srv srvai (some pr) prai eol timeout
              = ⟨none, (makessl e tt io.fd io.flags srv.verify).cause, none,
                  (connectio e tp pr.server prai IO_CRLF timeout).ai,
                  (connectio e tp pr.server prai IO_CRLF timeout).trace
                    ++ (makessl e tt io.fd io.flags srv.verify).trace
                    ++ [event.io_close io.fd, event.io_free io.fd]⟩) := by
    intro io o hc hn hret
    have hrw := connectproxy_negotiated a e tp tt freed sv srv srvai pr prai eol timeout io o
      hc hn
    rw [if_neg (by simp [hret])] at hrw
    refine ⟨?_, ?_, ?_⟩
    · intro hs
      rw [hrw, if_neg (by simp [hs])]
    · intro hs ssl hssl
      have hf := makessl_ssl_fatal e tt io.fd io.flags srv.verify (by rw [hssl]; simp)
      rw [hrw, if_pos hs, hf, hssl]
    · intro hs hssl hf
      rw [hrw, if_pos hs, hf, hssl]
  have hbad : ∀ io o, (connectio e tp pr.server prai IO_CRLF timeout).io = some io →
      connectproxy_negotiate a freed sv srv pr io = some o → o.ret ≠ 0 →
      connectproxy a e tp tt freed sv srv srvai (some pr) prai eol timeout
        = ⟨none, o.cause, none, (connectio e tp pr.server prai IO_CRLF timeout).ai,
            (connectio e tp pr.server prai IO_CRLF timeout).trace
              ++ [event.io_close io.fd, event.io_free io.fd]⟩ := by
    intro io o hc hn hret
    rw [connectproxy_negotiated a e tp tt freed sv srv srvai pr prai eol timeout io o hc hn,
      if_pos hret]
  have hnoconn : (connectio e tp pr.server prai IO_CRLF timeout).io = none →
      connectproxy a e tp tt freed sv srv srvai (some pr) prai eol timeout
        = connectio e tp pr.server prai IO_CRLF timeout := by
    intro hc
    unfold connectproxy
    simp only [hc]
  refine ⟨?_, hgood, hbad, hnoconn, rfl⟩
  constructor
  · intro hio
    cases hc : (connectio e tp pr.server prai IO_CRLF timeout).io with
    | none =>
      rw [hnoconn hc] at hio
      exact absurd hc hio
    | some io =>
      cases hn : connectproxy_negotiate a freed sv srv pr io with
      | none =>
        exfalso
        apply hio
        unfold connectproxy
        simp only [hc, hn]
      | some o =>
        by_cases hret : o.ret = 0
        · refine ⟨io, o, rfl, hn, hret, ?_⟩
          intro hs hssl
          obtain ⟨-, -, h3⟩ := hgood io o hc hn hret
          cases hf : (makessl e tt io.fd io.flags srv.verify).fatal with
          | none =>
            rw [h3 hs hssl hf] at hio
            exact hio rfl
          | some msg =>
            apply hio
            rw [connectproxy_negotiated a e tp tt freed sv srv srvai pr prai eol timeout io o
              hc hn, if_neg (by simp [hret]), if_pos hs, hf]
        · rw [hbad io o hc hn hret] at hio
          exact absurd rfl hio
  · rintro ⟨io, o, hc, hn, hret, htls⟩
    obtain ⟨h1, h2, -⟩ := hgood io o hc hn hret
    by_cases hs : srv.ssl = 0
    · rw [h1 hs]
      simp
    · cases hssl : (makessl e tt io.fd io.flags srv.verify).ssl with
      | none => exact absurd hssl (htls hs)
      | some ssl =>
        rw [h2 hs ssl hssl]
        simp

/-- C16 (as stated, refuted): with the TLS flag of the target set, the only
candidate succeeds (`socket` and `connect` succeed for it), yet `connectio`
returns `NULL`, because the peer presents no certificate and verification is
requested: the failure of `connectio` is not equivalent to the failure of
every candidate. -/
theorem connectio_tls_counterexample :
    connectio ⟨2048, true, 2, 0, fun _ _ => Except.ok [], fun _ => "", fun _ => "", [], ""⟩
        ⟨true, 1, 1, 0, 0, false, 0, "", ""⟩ ⟨"mail".toList, "995".toList, 1, 1⟩
        (some [⟨2, 4, 0, 0, 0⟩]) "\n".toList 30
      = ⟨none, some "certificate verification failed: no certificate", none,
          some [⟨2, 4, 0, 0, 0⟩],
          [event.socket 2, event.connect 4 2, event.setfl 4 2050, event.setfl 4 2,
            event.ssl_connect 4, event.setfl 4 2, event.ssl_ctx_free, event.ssl_free,
            event.close 4]⟩
      ∧ cand_ok ⟨2, 4, 0, 0, 0⟩
      ∧ ¬ ((connectio
              ⟨2048, true, 2, 0, fun _ _ => Except.ok [], fun _ => "", fun _ => "", [], ""⟩
              ⟨true, 1, 1, 0, 0, false, 0, "", ""⟩ ⟨"mail".toList, "995".toList, 1, 1⟩
              (some [⟨2, 4, 0, 0, 0⟩]) "\n".toList 30).io = none
            ↔ ∀ x ∈ [(⟨2, 4, 0, 0, 0⟩ : candidate)], ¬ cand_ok x) := by
  refine ⟨by decide, by decide, ?_⟩
  intro h
  have h1 := h.1 (by decide) ⟨2, 4, 0, 0, 0⟩ (by simp)
  exact h1 (by decide)

/-! ## The cache -/

/-- C20: when `cache_add` has to enlarge the string area and `xrealloc` moves
the block, `memmove` reads the entries through the pointer `ce` taken before
`xrealloc`. With an allocator that clears released memory, after adding "b"
and "a" the key "a" is found with value "2", and after adding "c" with a
value that does not fit in the sixteen characters the key "a" is not found any
more. -/
theorem cache_add_stale_entries :
    ∃ c1 c2 c3 : cache,
      cache_add cachecfg_cleared (cache_clear cachecfg_cleared ⟨[], [], 0⟩)
        "b".toList "1".toList = Except.ok c1 ∧
      cache_add cachecfg_cleared c1 "a".toList "2".toList = Except.ok c2 ∧
      cache_find cachecfg_cleared c2 "a".toList = some 0 ∧
      CACHE_VALUE c2 (cache_entry c2 0) = "2".toList ∧
      cache_add cachecfg_cleared c2 "c".toList "xxxxxxxxxx".toList = Except.ok c3 ∧
      cache_find cachecfg_cleared c3 "a".toList = none := by
  refine ⟨_, _, _, rfl, rfl, ?_, ?_, rfl, ?_⟩
  · decide
  · decide
  · decide

theorem Char_toNat_inj {x y : Char} (h : x.toNat = y.toNat) : x = y := by
  have hx := Char.ofNat_toNat x
  have hy := Char.ofNat_toNat y
  rw [h] at hx
  exact hx.symm.trans hy

theorem NUL_toNat : NUL.toNat = 0 := by decide

theorem toNat_pos_of_ne_NUL {x : Char} (h : x ≠ NUL) : 0 < x.toNat := by
  rcases Nat.eq_zero_or_pos x.toNat with h0 | h0
  · exact absurd (Char_toNat_inj (h0.trans NUL_toNat.symm)) h
  · exact h0

theorem strcmp_nil_nil : strcmp [] [] = 0 := by rw [strcmp]
theorem strcmp_nil_cons (y : Char) (ys : List Char) : strcmp [] (y :: ys) = 0 - (y.toNat : Int) := by
  rw [strcmp]
theorem strcmp_cons_nil (x : Char) (xs : List Char) : strcmp (x :: xs) [] = (x.toNat : Int) := by
  rw [strcmp]
theorem strcmp_cons_cons (x y : Char) (xs ys : List Char) :
    strcmp (x :: xs) (y :: ys) =
      if x = y then strcmp xs ys else (x.toNat : Int) - (y.toNat : Int) := by
  rw [strcmp]

theorem strcmp_self (a : List Char) : strcmp a a = 0 := by
  induction a with
  | nil => exact strcmp_nil_nil
  | cons x xs ih => rw [strcmp_cons_cons, if_pos rfl, ih]

theorem strcmp_neg (a b : List Char) : strcmp b a = - strcmp a b := by
  induction a generalizing b with
  | nil =>
    cases b with
    | nil => simp [strcmp_nil_nil]
    | cons y ys => simp [strcmp_nil_cons, strcmp_cons_nil]
  | cons x xs ih =>
    cases b with
    | nil => simp [strcmp_nil_cons, strcmp_cons_nil]
    | cons y ys =>
      rw [strcmp_cons_cons, strcmp_cons_cons]
      by_cases h : x = y
      · subst h; simp [ih]
      · rw [if_neg h, if_neg (Ne.symm h)]; omega

theorem strcmp_eq_zero {a b : List Char} (ha : NUL ∉ a) (hb : NUL ∉ b)
    (h : strcmp a b = 0) : a = b := by
  induction a generalizing b with
  | nil =>
    cases b with
    | nil => rfl
    | cons y ys =>
      rw [strcmp_nil_cons] at h
      have := toNat_pos_of_ne_NUL (x := y) (fun e => hb (e ▸ List.mem_cons_self _ _))
      omega
  | cons x xs ih =>
    cases b with
    | nil =>
      rw [strcmp_cons_nil] at h
      have := toNat_pos_of_ne_NUL (x := x) (fun e => ha (e ▸ List.mem_cons_self _ _))
      omega
    | cons y ys =>
      rw [strcmp_cons_cons] at h
      by_cases hxy : x = y
      · subst hxy
        rw [if_pos rfl] at h
        rw [ih (fun m => ha (List.mem_cons_of_mem _ m)) (fun m => hb (List.mem_cons_of_mem _ m)) h]
      · rw [if_neg hxy] at h
        exact absurd (Char_toNat_inj (by omega)) hxy

theorem strcmp_trans {a b c : List Char} (ha : NUL ∉ a) (hb : NUL ∉ b)
    (h1 : strcmp a b ≤ 0) (h2 : strcmp b c ≤ 0) : strcmp a c ≤ 0 := by
  induction a generalizing b c with
  | nil =>
    cases c with
    | nil => simp [strcmp_nil_nil]
    | cons z zs => rw [strcmp_nil_cons]; omega
  | cons x xs ih =>
    have hx := toNat_pos_of_ne_NUL (x := x) (fun e => ha (e ▸ List.mem_cons_self _ _))
    cases b with
    | nil => rw [strcmp_cons_nil] at h1; omega
    | cons y ys =>
      have hy := toNat_pos_of_ne_NUL (x := y) (fun e => hb (e ▸ List.mem_cons_self _ _))
      cases c with
      | nil => rw [strcmp_cons_nil] at h2; omega
      | cons z zs =>
        rw [strcmp_cons_cons] at h1 h2 ⊢
        by_cases hxy : x = y
        · subst hxy
          rw [if_pos rfl] at h1
          by_cases hxz : x = z
          · subst hxz
            rw [if_pos rfl] at h2 ⊢
            exact ih (fun m => ha (List.mem_cons_of_mem _ m))
              (fun m => hb (List.mem_cons_of_mem _ m)) h1 h2
          · rw [if_neg hxz] at h2 ⊢
            exact h2
        · rw [if_neg hxy] at h1
          by_cases hyz : y = z
          · subst hyz
            rw [if_neg hxy]; exact h1
          · rw [if_neg hyz] at h2
            have hxz : x ≠ z := fun e => by subst e; exact hxy (Char_toNat_inj (by omega))
            rw [if_neg hxz]; omega

theorem takeWhile_append_short {α : Type} (p : α → Bool) (l r : List α)
    (h : (l.takeWhile p).length < l.length) : (l ++ r).takeWhile p = l.takeWhile p := by
  induction l with
  | nil => simp at h
  | cons x xs ih =>
    rw [List.cons_append, List.takeWhile_cons, List.takeWhile_cons]
    rw [List.takeWhile_cons] at h
    cases hp : p x
    · simp
    · simp only [hp, if_true, List.length_cons] at h ⊢
      rw [ih (by omega)]

theorem takeWhile_short_of_append {α : Type} (p : α → Bool) (l r : List α)
    (h : ((l ++ r).takeWhile p).length < l.length) :
    (l.takeWhile p).length < l.length := by
  induction l with
  | nil => simp at h
  | cons x xs ih =>
    rw [List.cons_append, List.takeWhile_cons] at h
    rw [List.takeWhile_cons]
    cases hp : p x
    · simp
    · simp only [hp, if_true, List.length_cons] at h ⊢
      have := ih (by omega)
      omega

theorem cstr_at_agree (s s2 : List Char) (off n : Nat) (hn : n ≤ s.length)
    (h : s2.take n = s.take n) (hlt : (cstr_at s off).length + off < n) :
    cstr_at s2 off = cstr_at s off := by
  have hoff : off ≤ (s.take n).length := by rw [List.length_take]; omega
  have hs : s.drop off = (s.take n).drop off ++ s.drop n := by
    conv_lhs => rw [← List.take_append_drop n s]
    rw [List.drop_append_of_le_length hoff]
  have hs2 : s2.drop off = (s.take n).drop off ++ s2.drop n := by
    conv_lhs => rw [← List.take_append_drop n s2, h]
    rw [List.drop_append_of_le_length hoff]
  have hA : ((s.take n).drop off).length = n - off := by
    rw [List.length_drop, List.length_take]; omega
  unfold cstr_at at hlt ⊢
  rw [hs] at hlt
  have hshort := takeWhile_short_of_append (fun x => decide (x ≠ NUL)) ((s.take n).drop off)
    (s.drop n) (by rw [hA]; omega)
  rw [hs, hs2, takeWhile_append_short _ _ _ hshort, takeWhile_append_short _ _ _ hshort]

theorem memcpy_str_take (s : List Char) (off : Nat) (src : List Char) (h : off ≤ s.length) :
    (memcpy_str s off src).take off = s.take off := by
  unfold memcpy_str
  rw [List.append_assoc, List.take_append_of_le_length (by rw [List.length_take]; omega)]
  rw [List.take_take]; simp

theorem memcpy_str_length (s : List Char) (off : Nat) (src : List Char)
    (h : off + (src.length + 1) ≤ s.length) : (memcpy_str s off src).length = s.length := by
  unfold memcpy_str
  simp only [List.length_append, List.length_take, List.length_drop, List.length_cons,
    List.length_nil]
  omega

theorem takeWhile_ne_append {α : Type} [DecidableEq α] (a : α) (l r : List α) (h : a ∉ l) :
    (l ++ a :: r).takeWhile (· ≠ a) = l := by
  induction l with
  | nil => simp
  | cons x xs ih =>
    have hx : x ≠ a := fun e => h (e ▸ List.mem_cons_self _ _)
    rw [List.cons_append, List.takeWhile_cons]
    simp only [ne_eq, hx, not_false_eq_true, decide_True, if_true]
    rw [ih (fun m => h (List.mem_cons_of_mem _ m))]

theorem memcpy_str_cstr (s : List Char) (off : Nat) (src : List Char) (h : off ≤ s.length)
    (hsrc : NUL ∉ src) : cstr_at (memcpy_str s off src) off = src := by
  unfold cstr_at memcpy_str
  rw [List.append_assoc, List.drop_append_of_le_length (by rw [List.length_take]; omega)]
  have : (s.take off).drop off = [] := by
    apply List.drop_eq_nil_of_le; rw [List.length_take]; omega
  rw [this, List.nil_append, List.append_assoc, List.singleton_append]
  exact takeWhile_ne_append NUL src _ hsrc

theorem cstr_at_nul (s : List Char) (off : Nat) : NUL ∉ cstr_at s off := by
  unfold cstr_at
  intro h
  have := List.mem_takeWhile_imp h
  simp at this

theorem getD_mem {α : Type} (l : List α) (n : Nat) (d : α) (h : n < l.length) :
    l.getD n d ∈ l := by
  induction l generalizing n with
  | nil => simp at h
  | cons x xs ih =>
    cases n with
    | zero => simp
    | succ m =>
      have := ih m (by simpa using h)
      simp only [List.getD_cons_succ]
      exact List.mem_cons_of_mem _ this

theorem cache_sortcmp_total (c : cache) (x y : cacheent) :
    cache_sortcmp c x y ≤ 0 ∨ cache_sortcmp c y x ≤ 0 := by
  unfold cache_sortcmp
  by_cases hx : x.used = 0 <;> by_cases hy : y.used = 0
  · simp [hx, hy]
  · simp [hx, hy]
  · simp [hx, hy]
  · simp only [hx, hy, false_and, and_false, if_false]
    have := strcmp_neg (CACHE_KEY c x) (CACHE_KEY c y)
    omega

theorem cache_sortcmp_trans (c : cache) (x y z : cacheent)
    (h1 : cache_sortcmp c x y ≤ 0) (h2 : cache_sortcmp c y z ≤ 0) :
    cache_sortcmp c x z ≤ 0 := by
  unfold cache_sortcmp at h1 h2 ⊢
  by_cases hx : x.used = 0 <;> by_cases hy : y.used = 0 <;> by_cases hz : z.used = 0 <;>
    simp only [hx, hy, hz, false_and, and_false, if_false, true_and, and_true, if_true,
      ne_eq, not_true_eq_false, not_false_eq_true, and_self] at h1 h2 ⊢ <;>
    first
      | omega
      | exact strcmp_trans (cstr_at_nul _ _) (cstr_at_nul _ _) h1 h2

theorem cache_before_of_sorted (c : cache) (l : List cacheent)
    (hs : l.Pairwise (fun x y => cache_sortcmp c x y ≤ 0))
    (hd : l.Pairwise (fun x y => x.used ≠ 0 → y.used ≠ 0 → CACHE_KEY c x ≠ CACHE_KEY c y)) :
    l.Pairwise (cache_before c) := by
  refine (hs.and hd).imp ?_
  rintro x y ⟨h1, h2⟩
  unfold cache_sortcmp at h1
  unfold cache_before
  by_cases hx : x.used = 0 <;> by_cases hy : y.used = 0 <;>
    simp only [hx, hy, false_and, and_false, if_false, true_and, and_true, if_true,
      ne_eq, not_true_eq_false, not_false_eq_true, and_self] at h1 ⊢
  · simp
  · omega
  · simp
  · refine ⟨fun h => h, fun _ _ => ?_⟩
    rcases lt_or_eq_of_le h1 with h | h
    · exact h
    · exact absurd (strcmp_eq_zero (cstr_at_nul _ _) (cstr_at_nul _ _) h) (h2 hx hy)

theorem cache_sorted (cfg : cachecfg) (hq : qsort_ok cfg.qsort) (c : cache) (l : List cacheent)
    (hd : l.Pairwise (fun x y => x.used ≠ 0 → y.used ≠ 0 → CACHE_KEY c x ≠ CACHE_KEY c y)) :
    (cfg.qsort (cache_sortcmp c) l).Perm l ∧
      (cfg.qsort (cache_sortcmp c) l).Pairwise (cache_before c) := by
  obtain ⟨hp, hs⟩ := hq (cache_sortcmp c) (cache_sortcmp_total c) (cache_sortcmp_trans c) l
  refine ⟨hp, cache_before_of_sorted c _ hs ?_⟩
  exact hp.symm.pairwise hd (fun {x y} h hy hx e => h hx hy e.symm)

theorem cache_before_distinct (c : cache) (l : List cacheent)
    (h : l.Pairwise (cache_before c)) :
    l.Pairwise (fun x y => x.used ≠ 0 → y.used ≠ 0 → CACHE_KEY c x ≠ CACHE_KEY c y) := by
  refine h.imp ?_
  intro x y hb hx hy e
  have := hb.2 hx hy
  rw [e, strcmp_self] at this
  omega

theorem cache_key_unique (c : cache) (l : List cacheent) (h : l.Pairwise (cache_before c))
    (e1 e2 : cacheent) (h1 : e1 ∈ l) (h2 : e2 ∈ l) (u1 : e1.used ≠ 0) (u2 : e2.used ≠ 0)
    (hk : CACHE_KEY c e1 = CACHE_KEY c e2) : e1 = e2 := by
  induction h with
  | nil => simp at h1
  | cons hx _ ih =>
    rename_i x xs
    rcases List.mem_cons.1 h1 with a1 | a1 <;> rcases List.mem_cons.1 h2 with a2 | a2
    · rw [a1, a2]
    · subst a1
      have := (hx e2 a2).2 u1 u2
      rw [hk, strcmp_self] at this; omega
    · subst a2
      have := (hx e1 a1).2 u2 u1
      rw [hk, strcmp_self] at this; omega
    · exact ih a1 a2

theorem cache_searchable (c : cache) (k : List Char) (hk : NUL ∉ k) (l : List cacheent)
    (h : l.Pairwise (cache_before c)) :
    l.Pairwise (fun x y => (0 ≤ cache_searchcmp c k y → 0 ≤ cache_searchcmp c k x) ∧
      (0 < cache_searchcmp c k y → 0 < cache_searchcmp c k x)) := by
  refine h.imp ?_
  intro x y hb
  unfold cache_searchcmp
  by_cases hy : y.used = 0
  · simp [hy]
  · have hx : x.used ≠ 0 := fun e => hy (hb.1 e)
    have hlt := hb.2 hx hy
    simp only [hx, hy, if_false]
    have n1 := strcmp_neg (CACHE_KEY c x) k
    have n2 := strcmp_neg (CACHE_KEY c y) k
    have n3 := strcmp_neg (CACHE_KEY c x) (CACHE_KEY c y)
    constructor
    · intro h0
      have := strcmp_trans (a := CACHE_KEY c x) (b := CACHE_KEY c y) (c := k)
        (cstr_at_nul _ _) (cstr_at_nul _ _) (by omega) (by omega)
      omega
    · intro h0
      have h1 := strcmp_trans (a := CACHE_KEY c x) (b := CACHE_KEY c y) (c := k)
        (cstr_at_nul _ _) (cstr_at_nul _ _) (by omega) (by omega)
      by_contra hc
      have h2 := strcmp_trans (a := k) (b := CACHE_KEY c x) (c := CACHE_KEY c y)
        hk (cstr_at_nul _ _) (by omega) (by omega)
      omega

theorem cache_find_some (cfg : cachecfg) (hb : bsearch_ok cfg.bsearch) (c : cache)
    (hs : c.ents.Pairwise (cache_before c)) (k : List Char) (hk : NUL ∉ k) (n : Nat)
    (h : cache_find cfg c k = some n) :
    n < c.ents.length ∧ (cache_entry c n).used ≠ 0 ∧ CACHE_KEY c (cache_entry c n) = k := by
  obtain ⟨h1, h2⟩ := (hb (cache_searchcmp c k) c.ents (cache_searchable c k hk _ hs)).1 n h
  refine ⟨h1, ?_⟩
  unfold cache_searchcmp at h2
  unfold cache_entry
  by_cases hu : (c.ents.getD n ⟨0, 0, 0⟩).used = 0
  · rw [if_pos hu] at h2; omega
  · rw [if_neg hu] at h2
    exact ⟨hu, (strcmp_eq_zero hk (cstr_at_nul _ _) h2).symm⟩

theorem cache_find_none (cfg : cachecfg) (hb : bsearch_ok cfg.bsearch) (c : cache)
    (hs : c.ents.Pairwise (cache_before c)) (k : List Char) (hk : NUL ∉ k)
    (h : cache_find cfg c k = none) :
    ∀ e ∈ c.ents, e.used ≠ 0 → CACHE_KEY c e ≠ k := by
  intro e he hu hkey
  have := (hb (cache_searchcmp c k) c.ents (cache_searchable c k hk _ hs)).2 h e he
  apply this
  unfold cache_searchcmp
  rw [if_neg hu, hkey, strcmp_self]

theorem cache_found_of_holds (cfg : cachecfg) (hb : bsearch_ok cfg.bsearch) (c : cache)
    (hs : c.ents.Pairwise (cache_before c)) (k v : List Char) (hk : NUL ∉ k)
    (h : cache_holds c k v) : cache_found cfg c k v := by
  obtain ⟨e, he, hu, hkey, hval⟩ := h
  cases hf : cache_find cfg c k with
  | none => exact absurd hkey (cache_find_none cfg hb c hs k hk hf e he hu)
  | some n =>
    obtain ⟨h1, h2, h3⟩ := cache_find_some cfg hb c hs k hk n hf
    have hmem : cache_entry c n ∈ c.ents := getD_mem _ _ _ h1
    have := cache_key_unique c _ hs _ _ hmem he h2 hu (h3.trans hkey.symm)
    exact ⟨n, hf, h1, h2, h3, this ▸ hval⟩

theorem cache_holds_of_found (cfg : cachecfg) (c : cache) (k v : List Char)
    (h : cache_found cfg c k v) : cache_holds c k v := by
  obtain ⟨n, _, h1, h2, h3, h4⟩ := h
  exact ⟨_, getD_mem _ _ _ h1, h2, h3, h4⟩

theorem pairwise_set {α : Type} (R : α → α → Prop) (d b : α) (l : List α) (n : Nat)
    (hn : n < l.length) (hl : l.Pairwise R)
    (h1 : ∀ x ∈ l, R x (l.getD n d) → R x b) (h2 : ∀ y ∈ l, R (l.getD n d) y → R b y) :
    (l.set n b).Pairwise R := by
  induction l generalizing n with
  | nil => simp at hn
  | cons x xs ih =>
    rw [List.pairwise_cons] at hl
    cases n with
    | zero =>
      rw [List.set_cons_zero, List.pairwise_cons]
      refine ⟨fun y hy => h2 y (List.mem_cons_of_mem _ hy) ?_, hl.2⟩
      simpa using hl.1 y hy
    | succ m =>
      have hm : m < xs.length := by simpa using hn
      rw [List.set_cons_succ, List.pairwise_cons]
      constructor
      · intro y hy
        rcases List.mem_or_eq_of_mem_set hy with h | h
        · exact hl.1 y h
        · rw [h]
          apply h1 x (List.mem_cons_self _ _)
          simp only [List.getD_cons_succ]
          exact hl.1 _ (getD_mem xs m d hm)
      · apply ih m hm hl.2
        · intro y hy hr
          apply h1 y (List.mem_cons_of_mem _ hy)
          simpa only [List.getD_cons_succ] using hr
        · intro y hy hr
          apply h2 y (List.mem_cons_of_mem _ hy)
          simpa only [List.getD_cons_succ] using hr

theorem mem_set_of_ne {α : Type} (d b e : α) (l : List α) (n : Nat) (he : e ∈ l)
    (hne : e ≠ l.getD n d) : e ∈ l.set n b := by
  induction l generalizing n with
  | nil => simp at he
  | cons x xs ih =>
    cases n with
    | zero =>
      rw [List.set_cons_zero]
      rcases List.mem_cons.1 he with h | h
      · exact absurd (by simpa using h) hne
      · exact List.mem_cons_of_mem _ h
    | succ m =>
      rw [List.set_cons_succ]
      rcases List.mem_cons.1 he with h | h
      · rw [h]; exact List.mem_cons_self _ _
      · exact List.mem_cons_of_mem _ (ih m h (by simpa only [List.getD_cons_succ] using hne))

theorem getD_set_self {α : Type} (d b : α) (l : List α) (n : Nat) (hn : n < l.length) :
    (l.set n b).getD n d = b := by
  induction l generalizing n with
  | nil => simp at hn
  | cons x xs ih =>
    cases n with
    | zero => simp
    | succ m =>
      rw [List.set_cons_succ, List.getD_cons_succ]
      exact ih m (by simpa using hn)

theorem mem_set_self {α : Type} (b : α) (l : List α) (n : Nat) (hn : n < l.length) :
    b ∈ l.set n b := by
  induction l generalizing n with
  | nil => simp at hn
  | cons x xs ih =>
    cases n with
    | zero => simp
    | succ m =>
      rw [List.set_cons_succ]
      exact List.mem_cons_of_mem _ (ih m (by simpa using hn))

theorem filter_set_length {α : Type} (p : α → Bool) (d b : α) (l : List α) (n : Nat)
    (hn : n < l.length) (hp : p b = p (l.getD n d)) :
    ((l.set n b).filter p).length = (l.filter p).length := by
  induction l generalizing n with
  | nil => simp at hn
  | cons x xs ih =>
    cases n with
    | zero =>
      have hp2 : p b = p x := by simpa using hp
      rw [List.set_cons_zero, List.filter_cons, List.filter_cons, hp2]
      cases p x <;> simp
    | succ m =>
      have := ih m (by simpa using hn) (by simpa only [List.getD_cons_succ] using hp)
      rw [List.set_cons_succ, List.filter_cons, List.filter_cons]
      cases p x <;> simp [this]

theorem cache_strings_agree (c : cache) (s2 : List Char) (hc : cache_inv c)
    (h : s2.take c.str_used = c.str.take c.str_used) :
    ∀ e ∈ c.ents, e.used ≠ 0 →
      cstr_at s2 e.key = cstr_at c.str e.key ∧ cstr_at s2 e.value = cstr_at c.str e.value := by
  intro e he hu
  obtain ⟨_, _, hle, _, hstr⟩ := hc
  obtain ⟨hk, hv⟩ := hstr e he hu
  exact ⟨cstr_at_agree _ _ _ _ hle h hk, cstr_at_agree _ _ _ _ hle h hv⟩

theorem cache_add_value_eq (cfg : cachecfg) (c : cache) (n : Nat) (v : List Char)
    (hn : n < c.ents.length) :
    cache_add_value cfg c n v =
      if (cache_entry c n).used ≠ 0 then
        ⟨c.ents.set n ⟨(cache_entry c n).used, (cache_entry c n).key, c.str_used⟩,
          memcpy_str c.str c.str_used v, c.str_used + (v.length + 1)⟩
      else
        ⟨cfg.qsort (cache_sortcmp ⟨c.ents.set n ⟨1, (cache_entry c n).key, c.str_used⟩,
            memcpy_str c.str c.str_used v, c.str_used + (v.length + 1)⟩)
            (c.ents.set n ⟨1, (cache_entry c n).key, c.str_used⟩),
          memcpy_str c.str c.str_used v, c.str_used + (v.length + 1)⟩ := by
  unfold cache_add_value
  simp only [cache_entry, getD_set_self _ _ _ _ hn, List.set_set]

theorem cache_before_agree (c : cache) (s2 : List Char) (su2 : Nat) (l : List cacheent)
    (hc : cache_inv c) (h : s2.take c.str_used = c.str.take c.str_used) :
    c.ents.Pairwise (cache_before ⟨l, s2, su2⟩) := by
  have hag := cache_strings_agree c s2 hc h
  refine List.Pairwise.imp_of_mem ?_ hc.2.2.2.1
  intro a b ha hb hab
  refine ⟨hab.1, fun ua ub => ?_⟩
  have := hab.2 ua ub
  unfold CACHE_KEY at this ⊢
  dsimp only
  rw [(hag a ha ua).1, (hag b hb ub).1]
  exact this

theorem cache_add_value_used (cfg : cachecfg) (c : cache) (n : Nat) (v : List Char)
    (hc : cache_inv c) (hn : n < c.ents.length) (hu : (cache_entry c n).used ≠ 0)
    (hroom : c.str_used + (v.length + 1) ≤ c.str.length) (hv : NUL ∉ v) :
    cache_inv (cache_add_value cfg c n v) ∧
    cache_holds (cache_add_value cfg c n v) (CACHE_KEY c (cache_entry c n)) v ∧
    (∀ k2 v2, k2 ≠ CACHE_KEY c (cache_entry c n) → cache_holds c k2 v2 →
      cache_holds (cache_add_value cfg c n v) k2 v2) ∧
    cache_used (cache_add_value cfg c n v) = cache_used c := by
  rw [cache_add_value_eq _ _ _ _ hn, if_pos hu]
  have hmem0 : cache_entry c n ∈ c.ents := getD_mem _ _ _ hn
  have hle : c.str_used ≤ c.str.length := hc.2.2.1
  have htake := memcpy_str_take c.str c.str_used v hle
  have hag := cache_strings_agree c _ hc htake
  have hval : cstr_at (memcpy_str c.str c.str_used v) c.str_used = v :=
    memcpy_str_cstr _ _ _ hle hv
  have hlen := memcpy_str_length _ _ _ hroom
  have hs1 := cache_before_agree c (memcpy_str c.str c.str_used v)
    (c.str_used + (v.length + 1))
    (c.ents.set n ⟨(cache_entry c n).used, (cache_entry c n).key, c.str_used⟩) hc htake
  have hstr := hc.2.2.2.2
  refine ⟨⟨?_, ?_, ?_, ?_, ?_⟩, ?_, ?_, ?_⟩
  · dsimp only
    intro h
    have := congrArg List.length h
    simp only [List.length_set, List.length_nil] at this
    omega
  · dsimp only; rw [hlen]; exact hc.2.1
  · dsimp only; rw [hlen]; exact hroom
  · dsimp only
    exact pairwise_set _ (⟨0, 0, 0⟩ : cacheent) _ c.ents n hn hs1 (fun _ _ h => h) (fun _ _ h => h)
  · dsimp only
    intro e he ue
    unfold CACHE_KEY CACHE_VALUE
    dsimp only
    rcases List.mem_or_eq_of_mem_set he with h | h
    · have := hstr e h ue
      unfold CACHE_KEY CACHE_VALUE at this
      rw [(hag e h ue).1, (hag e h ue).2]
      omega
    · subst h
      dsimp only
      have := hstr _ hmem0 hu
      unfold CACHE_KEY at this
      rw [(hag _ hmem0 hu).1, hval]
      omega
  · refine ⟨_, mem_set_self _ _ _ hn, hu, ?_, ?_⟩
    · unfold CACHE_KEY; dsimp only; exact (hag _ hmem0 hu).1
    · unfold CACHE_VALUE; dsimp only; exact hval
  · rintro k2 v2 hk2 ⟨e, he, ue, hke, hve⟩
    have hne : e ≠ c.ents.getD n ⟨0, 0, 0⟩ := by
      intro h; apply hk2; rw [← hke, h]; rfl
    refine ⟨e, mem_set_of_ne (⟨0, 0, 0⟩ : cacheent) _ e c.ents n he hne, ue, ?_, ?_⟩
    · unfold CACHE_KEY at hke ⊢; dsimp only; rw [(hag e he ue).1]; exact hke
    · unfold CACHE_VALUE at hve ⊢; dsimp only; rw [(hag e he ue).2]; exact hve
  · unfold cache_used
    dsimp only
    exact filter_set_length _ (⟨0, 0, 0⟩ : cacheent) _ _ _ hn rfl

theorem cache_add_value_new (cfg : cachecfg) (hq : qsort_ok cfg.qsort) (c : cache) (n : Nat)
    (k v : List Char) (hc : cache_inv c) (hn : n < c.ents.length)
    (hu : (cache_entry c n).used = 0)
    (hkey : cstr_at c.str (cache_entry c n).key = k)
    (hkl : k.length + (cache_entry c n).key < c.str_used)
    (hfree : ∀ e ∈ c.ents, e.used ≠ 0 → CACHE_KEY c e ≠ k)
    (hroom : c.str_used + (v.length + 1) ≤ c.str.length) (hv : NUL ∉ v) :
    cache_inv (cache_add_value cfg c n v) ∧
    cache_holds (cache_add_value cfg c n v) k v ∧
    (∀ k2 v2, cache_holds c k2 v2 → cache_holds (cache_add_value cfg c n v) k2 v2) := by
  rw [cache_add_value_eq _ _ _ _ hn, if_neg (not_not.2 hu)]
  have hle : c.str_used ≤ c.str.length := hc.2.2.1
  have htake := memcpy_str_take c.str c.str_used v hle
  have hag := cache_strings_agree c _ hc htake
  have hval : cstr_at (memcpy_str c.str c.str_used v) c.str_used = v :=
    memcpy_str_cstr _ _ _ hle hv
  have hkey2 : cstr_at (memcpy_str c.str c.str_used v) (cache_entry c n).key = k := by
    rw [cstr_at_agree _ _ _ _ hle htake (by rw [hkey]; exact hkl), hkey]
  have hlen := memcpy_str_length _ _ _ hroom
  have hstr := hc.2.2.2.2
  have hs1 := cache_before_agree c (memcpy_str c.str c.str_used v)
    (c.str_used + (v.length + 1))
    (c.ents.set n ⟨1, (cache_entry c n).key, c.str_used⟩) hc htake
  have hd1 := cache_before_distinct _ _ hs1
  have hd2 := pairwise_set _ (⟨0, 0, 0⟩ : cacheent) ⟨1, (cache_entry c n).key, c.str_used⟩ c.ents n hn hd1
    (by
      intro x hx _ ux _ e
      apply hfree x hx ux
      unfold CACHE_KEY at e ⊢
      dsimp only at e
      rw [← (hag x hx ux).1, e, hkey2])
    (by
      intro y hy _ _ uy e
      apply hfree y hy uy
      unfold CACHE_KEY at e ⊢
      dsimp only at e
      rw [← (hag y hy uy).1, ← e, hkey2])
  obtain ⟨hp, hsorted⟩ := cache_sorted cfg hq _ _ hd2
  refine ⟨⟨?_, ?_, ?_, ?_, ?_⟩, ?_, ?_⟩
  · dsimp only
    intro h
    have := hp.length_eq
    rw [h] at this
    simp only [List.length_set, List.length_nil] at this
    omega
  · dsimp only; rw [hlen]; exact hc.2.1
  · dsimp only; rw [hlen]; exact hroom
  · exact hsorted
  · dsimp only
    intro e he ue
    unfold CACHE_KEY CACHE_VALUE
    dsimp only
    rcases List.mem_or_eq_of_mem_set (hp.subset he) with h | h
    · have := hstr e h ue
      unfold CACHE_KEY CACHE_VALUE at this
      rw [(hag e h ue).1, (hag e h ue).2]
      omega
    · subst h
      dsimp only
      rw [hkey2, hval]
      omega
  · refine ⟨_, hp.symm.subset (mem_set_self _ _ _ hn), by simp, ?_, ?_⟩
    · unfold CACHE_KEY; dsimp only; exact hkey2
    · unfold CACHE_VALUE; dsimp only; exact hval
  · rintro k2 v2 ⟨e, he, ue, hke, hve⟩
    have hne : e ≠ c.ents.getD n ⟨0, 0, 0⟩ := by
      intro h; apply ue; rw [h]; exact hu
    refine ⟨e, hp.symm.subset (mem_set_of_ne (⟨0, 0, 0⟩ : cacheent) _ e c.ents n he hne), ue, ?_, ?_⟩
    · unfold CACHE_KEY at hke ⊢; dsimp only; rw [(hag e he ue).1]; exact hke
    · unfold CACHE_VALUE at hve ⊢; dsimp only; rw [(hag e he ue).2]; exact hve

theorem cache_add_key_inv (c : cache) (n : Nat) (k : List Char) (hc : cache_inv c)
    (hn : n < c.ents.length) (hu : (cache_entry c n).used = 0)
    (hroom : c.str_used + (k.length + 1) ≤ c.str.length) (hk : NUL ∉ k) :
    cache_inv (cache_add_key c n k) ∧
    (cache_add_key c n k).ents.length = c.ents.length ∧
    (cache_entry (cache_add_key c n k) n).used = 0 ∧
    cstr_at (cache_add_key c n k).str (cache_entry (cache_add_key c n k) n).key = k ∧
    k.length + (cache_entry (cache_add_key c n k) n).key < (cache_add_key c n k).str_used ∧
    (cache_add_key c n k).str.length = c.str.length ∧
    (cache_add_key c n k).str_used = c.str_used + (k.length + 1) ∧
    (∀ e ∈ (cache_add_key c n k).ents, e.used ≠ 0 →
      e ∈ c.ents ∧ CACHE_KEY (cache_add_key c n k) e = CACHE_KEY c e) ∧
    (∀ k2 v2, cache_holds c k2 v2 → cache_holds (cache_add_key c n k) k2 v2) := by
  have hle : c.str_used ≤ c.str.length := hc.2.2.1
  have htake := memcpy_str_take c.str c.str_used k hle
  have hag := cache_strings_agree c _ hc htake
  have hval : cstr_at (memcpy_str c.str c.str_used k) c.str_used = k :=
    memcpy_str_cstr _ _ _ hle hk
  have hlen := memcpy_str_length _ _ _ hroom
  have hstr := hc.2.2.2.2
  have hs1 := cache_before_agree c (memcpy_str c.str c.str_used k)
    (c.str_used + (k.length + 1))
    (c.ents.set n { cache_entry c n with key := c.str_used }) hc htake
  have hget : cache_entry (cache_add_key c n k) n = { cache_entry c n with key := c.str_used } := by
    unfold cache_add_key cache_entry
    exact getD_set_self _ _ _ _ hn
  have hold : ∀ e ∈ (cache_add_key c n k).ents, e.used ≠ 0 → e ∈ c.ents := by
    intro e he ue
    rcases List.mem_or_eq_of_mem_set he with h | h
    · exact h
    · exact absurd (h ▸ hu) ue
  refine ⟨⟨?_, ?_, ?_, ?_, ?_⟩, ?_, ?_, ?_, ?_, ?_, ?_, ?_, ?_⟩
  · unfold cache_add_key; dsimp only
    intro h
    have := congrArg List.length h
    simp only [List.length_set, List.length_nil] at this
    omega
  · unfold cache_add_key; dsimp only; rw [hlen]; exact hc.2.1
  · unfold cache_add_key; dsimp only; rw [hlen]; exact hroom
  · unfold cache_add_key; dsimp only
    refine pairwise_set _ (⟨0, 0, 0⟩ : cacheent) _ c.ents n hn hs1 ?_ ?_
    · intro x _ h
      exact ⟨fun _ => hu, fun _ u => absurd hu u⟩
    · intro y _ h
      exact ⟨fun _ => h.1 hu, fun u => absurd hu u⟩
  · intro e he ue
    have hm := hold e he ue
    have := hstr e hm ue
    unfold CACHE_KEY CACHE_VALUE at this ⊢
    unfold cache_add_key; dsimp only
    rw [(hag e hm ue).1, (hag e hm ue).2]
    omega
  · unfold cache_add_key; dsimp only; rw [List.length_set]
  · rw [hget]; exact hu
  · rw [hget]; unfold cache_add_key; dsimp only; exact hval
  · rw [hget]; unfold cache_add_key; dsimp only; omega
  · unfold cache_add_key; dsimp only; exact hlen
  · unfold cache_add_key; dsimp only
  · intro e he ue
    have hm := hold e he ue
    refine ⟨hm, ?_⟩
    unfold CACHE_KEY cache_add_key; dsimp only
    exact (hag e hm ue).1
  · rintro k2 v2 ⟨e, he, ue, hke, hve⟩
    have hne : e ≠ c.ents.getD n ⟨0, 0, 0⟩ := by
      intro h; apply ue; rw [h]; exact hu
    refine ⟨e, mem_set_of_ne (⟨0, 0, 0⟩ : cacheent) _ e c.ents n he hne, ue, ?_, ?_⟩
    · unfold CACHE_KEY at hke ⊢; unfold cache_add_key; dsimp only
      rw [(hag e he ue).1]; exact hke
    · unfold CACHE_VALUE at hve ⊢; unfold cache_add_key; dsimp only
      rw [(hag e he ue).2]; exact hve

theorem cache_add_size_ok (cfg : cachecfg) (c : cache) (need : Nat) :
    ∀ (fuel size s : Nat), cache_add_size cfg c need fuel size = Except.ok s →
      size ≤ s ∧ need ≤ s - c.str_used := by
  intro fuel
  induction fuel with
  | zero => intro size s h; simp [cache_add_size] at h
  | succ n ih =>
    intro size s h
    rw [cache_add_size] at h
    by_cases h1 : size - c.str_used < need
    · rw [if_pos h1] at h
      by_cases h2 : cfg.CACHE_SIZE c.ents.length size > cfg.SIZE_MAX / 2
      · rw [if_pos h2] at h; cases h
      · rw [if_neg h2] at h
        have := ih _ _ h
        omega
    · rw [if_neg h1] at h
      cases h
      omega

theorem cache_add_size_fuel (cfg : cachecfg) (c : cache) (need : Nat) :
    ∀ (fuel size : Nat), 1 ≤ size → c.str_used ≤ size → 1 ≤ fuel →
      need + 1 ≤ (size - c.str_used) + fuel →
      (∃ s, cache_add_size cfg c need fuel size = Except.ok s) ∨
      cache_add_size cfg c need fuel size = Except.error "cache_add: size too large" := by
  intro fuel
  induction fuel with
  | zero => intro size _ _ h; omega
  | succ n ih =>
    intro size hs hu _ hf
    rw [cache_add_size]
    by_cases h1 : size - c.str_used < need
    · rw [if_pos h1]
      by_cases h2 : cfg.CACHE_SIZE c.ents.length size > cfg.SIZE_MAX / 2
      · rw [if_pos h2]; exact Or.inr rfl
      · rw [if_neg h2]
        exact ih (size * 2) (by omega) (by omega) (by omega) (by omega)
    · rw [if_neg h1]
      exact Or.inl ⟨_, rfl⟩

theorem getD_append_replicate {α : Type} (d : α) (l : List α) (m n : Nat)
    (h : l.length ≤ n) : (l ++ List.replicate m d).getD n d = d := by
  induction l generalizing n with
  | nil =>
    rw [List.nil_append]
    induction m generalizing n with
    | zero => simp
    | succ j ih =>
      cases n with
      | zero => simp [List.replicate_succ]
      | succ i =>
        rw [List.replicate_succ, List.getD_cons_succ]
        exact ih i (Nat.zero_le _)
  | cons x xs ih =>
    cases n with
    | zero => simp at h
    | succ i =>
      rw [List.cons_append, List.getD_cons_succ]
      exact ih i (by simpa using h)

theorem cache_add_grow_inv (cfg : cachecfg) (hstale : ∀ l, cfg.stale l = l) (c : cache)
    (hc : cache_inv c) (size : Nat) (hsz : c.str.length ≤ size) :
    cache_inv (cache_add_grow cfg c size) ∧
    (cache_add_grow cfg c size).ents = c.ents ∧
    (cache_add_grow cfg c size).str_used = c.str_used ∧
    (cache_add_grow cfg c size).str.length = size ∧
    (∀ k v, cache_holds c k v → cache_holds (cache_add_grow cfg c size) k v) := by
  unfold cache_add_grow
  by_cases h : size ≠ c.str.length
  · rw [if_pos h, hstale]
    have hle : c.str_used ≤ c.str.length := hc.2.2.1
    have htake : (c.str ++ List.replicate (size - c.str.length) cfg.junk).take c.str_used =
        c.str.take c.str_used := List.take_append_of_le_length hle
    have hag := cache_strings_agree c _ hc htake
    have hstr := hc.2.2.2.2
    refine ⟨⟨hc.1, ?_, ?_, ?_, ?_⟩, rfl, rfl, ?_, ?_⟩
    · dsimp only; rw [List.length_append]; have := hc.2.1; omega
    · dsimp only; rw [List.length_append]; omega
    · exact cache_before_agree c _ c.str_used c.ents hc htake
    · intro e he ue
      have := hstr e he ue
      unfold CACHE_KEY CACHE_VALUE at this ⊢
      dsimp only at he ⊢
      rw [(hag e he ue).1, (hag e he ue).2]
      exact this
    · dsimp only; rw [List.length_append, List.length_replicate]; omega
    · rintro k v ⟨e, he, ue, hke, hve⟩
      refine ⟨e, he, ue, ?_, ?_⟩
      · unfold CACHE_KEY at hke ⊢; dsimp only; rw [(hag e he ue).1]; exact hke
      · unfold CACHE_VALUE at hve ⊢; dsimp only; rw [(hag e he ue).2]; exact hve
  · rw [if_neg h]
    exact ⟨hc, rfl, rfl, (not_not.1 h).symm, fun _ _ h => h⟩

theorem cache_add_double_inv (c : cache) (hc : cache_inv c) :
    cache_inv (cache_add_double c) ∧
    (cache_add_double c).ents.length - 1 < (cache_add_double c).ents.length ∧
    (cache_entry (cache_add_double c) ((cache_add_double c).ents.length - 1)).used = 0 ∧
    (cache_add_double c).str = c.str ∧
    (cache_add_double c).str_used = c.str_used ∧
    (∀ e ∈ (cache_add_double c).ents, e.used ≠ 0 → e ∈ c.ents) ∧
    (∀ k v, cache_holds c k v → cache_holds (cache_add_double c) k v) := by
  have hpos : 0 < c.ents.length := List.length_pos.2 hc.1
  have hlen : (cache_add_double c).ents.length = c.ents.length + c.ents.length := by
    unfold cache_add_double; dsimp only; rw [List.length_append, List.length_replicate]
  have hold : ∀ e ∈ (cache_add_double c).ents, e.used ≠ 0 → e ∈ c.ents := by
    intro e he ue
    rcases List.mem_append.1 he with h | h
    · exact h
    · rw [List.eq_of_mem_replicate h] at ue; exact absurd rfl ue
  refine ⟨⟨?_, hc.2.1, hc.2.2.1, ?_, ?_⟩, ?_, ?_, rfl, rfl, hold, ?_⟩
  · intro h
    have := congrArg List.length h
    rw [hlen] at this
    simp only [List.length_nil] at this
    omega
  · unfold cache_add_double; dsimp only
    rw [List.pairwise_append]
    refine ⟨hc.2.2.2.1, ?_, ?_⟩
    · rw [List.pairwise_replicate]
      exact Or.inr ⟨fun h => h, fun h => absurd rfl h⟩
    · intro a _ b hb
      rw [List.eq_of_mem_replicate hb]
      exact ⟨fun _ => rfl, fun _ h => absurd rfl h⟩
  · intro e he ue
    exact hc.2.2.2.2 e (hold e he ue) ue
  · rw [hlen]; omega
  · unfold cache_entry
    rw [hlen]
    unfold cache_add_double; dsimp only
    rw [getD_append_replicate _ _ _ _ (by omega)]
  · rintro k v ⟨e, he, h⟩
    exact ⟨e, List.mem_append_left _ he, h⟩

theorem cache_add_last (cfg : cachecfg) (hq : qsort_ok cfg.qsort) (c : cache) (k v : List Char)
    (hc : cache_inv c) (hu : (cache_entry c (c.ents.length - 1)).used = 0)
    (hfree : ∀ e ∈ c.ents, e.used ≠ 0 → CACHE_KEY c e ≠ k)
    (hroom : c.str_used + (k.length + 1) + (v.length + 1) ≤ c.str.length)
    (hk : NUL ∉ k) (hv : NUL ∉ v) :
    cache_inv (cache_add_value cfg (cache_add_key c (c.ents.length - 1) k)
      (c.ents.length - 1) v) ∧
    cache_holds (cache_add_value cfg (cache_add_key c (c.ents.length - 1) k)
      (c.ents.length - 1) v) k v ∧
    (∀ k2 v2, cache_holds c k2 v2 →
      cache_holds (cache_add_value cfg (cache_add_key c (c.ents.length - 1) k)
        (c.ents.length - 1) v) k2 v2) := by
  have hpos : 0 < c.ents.length := List.length_pos.2 hc.1
  have hn : c.ents.length - 1 < c.ents.length := by omega
  obtain ⟨i1, i2, i3, i4, i5, i6, i7, i8, i9⟩ :=
    cache_add_key_inv c (c.ents.length - 1) k hc hn hu (by omega) hk
  obtain ⟨j1, j2, j3⟩ := cache_add_value_new cfg hq (cache_add_key c (c.ents.length - 1) k)
    (c.ents.length - 1) k v i1 (by rw [i2]; exact hn) i3 i4 i5
    (fun e he ue => by rw [(i8 e he ue).2]; exact hfree e (i8 e he ue).1 ue)
    (by rw [i6, i7]; omega) hv
  exact ⟨j1, j2, fun k2 v2 h => j3 k2 v2 (i9 k2 v2 h)⟩

theorem cache_add_entry_ok (cfg : cachecfg) (hq : qsort_ok cfg.qsort)
    (hb : bsearch_ok cfg.bsearch) (c : cache) (k v : List Char) (hc : cache_inv c)
    (hroom : c.str_used + (k.length + 1) + (v.length + 1) ≤ c.str.length)
    (hk : NUL ∉ k) (hv : NUL ∉ v) :
    cache_add_entry cfg c k v = Except.error "cache_add: entries too large" ∨
    ∃ c2, cache_add_entry cfg c k v = Except.ok c2 ∧ cache_inv c2 ∧ cache_holds c2 k v ∧
      (∀ k2 v2, k2 ≠ k → cache_holds c k2 v2 → cache_holds c2 k2 v2) ∧
      ((∃ v0, cache_holds c k v0) → cache_used c2 = cache_used c) := by
  unfold cache_add_entry
  cases hf : cache_find cfg c k with
  | some n =>
    dsimp only
    obtain ⟨h1, h2, h3⟩ := cache_find_some cfg hb c hc.2.2.2.1 k hk n hf
    obtain ⟨j1, j2, j3, j4⟩ := cache_add_value_used cfg c n v hc h1 h2 (by omega) hv
    rw [h3] at j2 j3
    exact Or.inr ⟨_, rfl, j1, j2, j3, fun _ => j4⟩
  | none =>
    dsimp only
    have hfree := cache_find_none cfg hb c hc.2.2.2.1 k hk hf
    have hno : (∃ v0, cache_holds c k v0) → False := by
      rintro ⟨v0, e, he, ue, hke, _⟩
      exact hfree e he ue hke
    by_cases hu : (cache_entry c (c.ents.length - 1)).used ≠ 0
    · rw [if_pos hu]
      by_cases ho : c.ents.length > cfg.UINT_MAX / 2
      · rw [if_pos ho]; exact Or.inl rfl
      · rw [if_neg ho]
        obtain ⟨d1, _, d3, d4, d5, d6, d7⟩ := cache_add_double_inv c hc
        obtain ⟨j1, j2, j3⟩ := cache_add_last cfg hq (cache_add_double c) k v d1 d3
          (fun e he ue => hfree e (d6 e he ue) ue) (by rw [d4, d5]; exact hroom) hk hv
        exact Or.inr ⟨_, rfl, j1, j2, fun k2 v2 _ h => j3 k2 v2 (d7 k2 v2 h),
          fun h => (hno h).elim⟩
    · rw [if_neg hu]
      obtain ⟨j1, j2, j3⟩ := cache_add_last cfg hq c k v hc (not_not.1 hu) hfree hroom hk hv
      exact Or.inr ⟨_, rfl, j1, j2, fun k2 v2 _ h => j3 k2 v2 h, fun h => (hno h).elim⟩

theorem cache_add_ok (cfg : cachecfg) (hstale : ∀ l, cfg.stale l = l)
    (hq : qsort_ok cfg.qsort) (hb : bsearch_ok cfg.bsearch) (c : cache) (k v : List Char)
    (hc : cache_inv c) (hk : NUL ∉ k) (hv : NUL ∉ v) :
    cache_add cfg c k v = Except.error "cache_add: size too large" ∨
    cache_add cfg c k v = Except.error "cache_add: entries too large" ∨
    ∃ c2, cache_add cfg c k v = Except.ok c2 ∧ cache_inv c2 ∧ cache_holds c2 k v ∧
      (∀ k2 v2, k2 ≠ k → cache_holds c k2 v2 → cache_holds c2 k2 v2) ∧
      ((∃ v0, cache_holds c k v0) → cache_used c2 = cache_used c) := by
  unfold cache_add
  dsimp only
  rcases cache_add_size_fuel cfg c (k.length + 1 + (v.length + 1))
    (k.length + 1 + (v.length + 1) + 1) c.str.length hc.2.1 hc.2.2.1 (by omega) (by omega)
    with ⟨s, hs⟩ | he
  · rw [hs]
    dsimp only
    obtain ⟨s1, s2⟩ := cache_add_size_ok cfg c _ _ _ _ hs
    obtain ⟨g1, g2, g3, g4, g5⟩ := cache_add_grow_inv cfg hstale c hc s s1
    rcases cache_add_entry_ok cfg hq hb (cache_add_grow cfg c s) k v g1
      (by rw [g3, g4]; have := hc.2.2.1; omega) hk hv with h | ⟨c2, e1, e2, e3, e4, e5⟩
    · exact Or.inr (Or.inl h)
    · refine Or.inr (Or.inr ⟨c2, e1, e2, e3, fun k2 v2 hne h => e4 k2 v2 hne (g5 k2 v2 h), ?_⟩)
      rintro ⟨v0, h0⟩
      rw [e5 ⟨v0, g5 k v0 h0⟩]
      unfold cache_used
      rw [g2]
  · rw [he]
    exact Or.inl rfl

theorem cache_clear_inv (cfg : cachecfg) (he : 1 ≤ cfg.CACHEENTRIES) (hbuf : 1 ≤ cfg.CACHEBUFFER)
    (c : cache) : cache_inv (cache_clear cfg c) := by
  unfold cache_clear
  refine ⟨?_, ?_, ?_, ?_, ?_⟩
  · dsimp only
    intro h
    have := congrArg List.length h
    simp only [List.length_replicate, List.length_nil] at this
    omega
  · dsimp only
    rw [List.length_take, List.length_append, List.length_replicate]
    omega
  · dsimp only; omega
  · dsimp only
    rw [List.pairwise_replicate]
    exact Or.inr ⟨fun h => h, fun h => absurd rfl h⟩
  · dsimp only
    intro e he ue
    rw [List.eq_of_mem_replicate he] at ue
    exact absurd rfl ue

theorem cache_delete_inv (cfg : cachecfg) (hq : qsort_ok cfg.qsort) (c : cache) (n : Nat)
    (hc : cache_inv c) (hn : n < c.ents.length) : cache_inv (cache_delete cfg c n) := by
  unfold cache_delete
  dsimp only
  have hd1 := cache_before_distinct c _ hc.2.2.2.1
  have hd2 := pairwise_set _ (⟨0, 0, 0⟩ : cacheent) { cache_entry c n with used := 0 }
    c.ents n hn hd1 (fun _ _ _ _ h => absurd rfl h) (fun _ _ _ h => absurd rfl h)
  obtain ⟨hp, hsorted⟩ := cache_sorted cfg hq
    ⟨c.ents.set n { cache_entry c n with used := 0 }, c.str, c.str_used⟩ _ hd2
  refine ⟨?_, hc.2.1, hc.2.2.1, hsorted, ?_⟩
  · dsimp only
    intro h
    have := hp.length_eq
    rw [h] at this
    simp only [List.length_set, List.length_nil] at this
    omega
  · dsimp only
    intro e he ue
    rcases List.mem_or_eq_of_mem_set (hp.subset he) with h | h
    · exact hc.2.2.2.2 e h ue
    · rw [h] at ue; exact absurd rfl ue

theorem cache_reachable_inv (cfg : cachecfg) (hstale : ∀ l, cfg.stale l = l)
    (hq : qsort_ok cfg.qsort) (hb : bsearch_ok cfg.bsearch)
    (he : 1 ≤ cfg.CACHEENTRIES) (hbuf : 1 ≤ cfg.CACHEBUFFER) (c : cache)
    (hr : cache_reachable cfg c) : cache_inv c := by
  induction hr with
  | clear c => exact cache_clear_inv cfg he hbuf c
  | add c c2 k v _ hk hv hadd ih =>
    rcases cache_add_ok cfg hstale hq hb c k v ih hk hv with h | h | ⟨c3, h, hinv, _⟩
    · rw [h] at hadd; cases hadd
    · rw [h] at hadd; cases hadd
    · rw [h] at hadd
      cases hadd
      exact hinv
  | delete c n _ hn ih => exact cache_delete_inv cfg hq c n ih hn

/-- With an allocator that leaves what `cache_add` reads through `ce`
unchanged, and `qsort` and `bsearch` as ISO C describes them, `cache_add` on a
reachable cache either stops in one of its two `fatalx` calls or returns a
cache in which `cache_find` gives a used entry with the key and the value
added, every other key found before is found with its value, and the number
of used entries is unchanged when the key was present. -/
theorem cache_add_find (cfg : cachecfg) (hstale : ∀ l, cfg.stale l = l)
    (hq : qsort_ok cfg.qsort) (hb : bsearch_ok cfg.bsearch)
    (he : 1 ≤ cfg.CACHEENTRIES) (hbuf : 1 ≤ cfg.CACHEBUFFER) (c : cache)
    (hr : cache_reachable cfg c) (k v : List Char) (hk : NUL ∉ k) (hv : NUL ∉ v) :
    cache_add cfg c k v = Except.error "cache_add: size too large" ∨
    cache_add cfg c k v = Except.error "cache_add: entries too large" ∨
    ∃ c2, cache_add cfg c k v = Except.ok c2 ∧ cache_found cfg c2 k v ∧
      (∀ k2 v2, k2 ≠ k → cache_found cfg c k2 v2 → cache_found cfg c2 k2 v2) ∧
      ((∃ v0, cache_found cfg c k v0) → cache_used c2 = cache_used c) := by
  have hc := cache_reachable_inv cfg hstale hq hb he hbuf c hr
  rcases cache_add_ok cfg hstale hq hb c k v hc hk hv with h | h | ⟨c2, h, hinv, h1, h2, h3⟩
  · exact Or.inl h
  · exact Or.inr (Or.inl h)
  · refine Or.inr (Or.inr ⟨c2, h, ?_, ?_, ?_⟩)
    · exact cache_found_of_holds cfg hb c2 hinv.2.2.2.1 k v hk h1
    · intro k2 v2 hne hf
      have hk2 : NUL ∉ k2 := by
        obtain ⟨n, _, _, _, hkey, _⟩ := hf
        rw [← hkey]; exact cstr_at_nul _ _
      exact cache_found_of_holds cfg hb c2 hinv.2.2.2.1 k2 v2 hk2
        (h2 k2 v2 hne (cache_holds_of_found cfg c k2 v2 hf))
    · rintro ⟨v0, hf⟩
      exact h3 ⟨v0, cache_holds_of_found cfg c k v0 hf⟩

theorem qsort_insertion_ok : qsort_ok qsort_insertion := by
  intro cmp htot htrans l
  unfold qsort_insertion
  haveI : IsTotal cacheent (fun x y => cmp x y ≤ 0) := ⟨htot⟩
  haveI : IsTrans cacheent (fun x y => cmp x y ≤ 0) := ⟨htrans⟩
  exact ⟨List.perm_insertionSort _ l, List.sorted_insertionSort _ l⟩

theorem bsearch_scan_some (cmp : cacheent → Int) (l : List cacheent) (n : Nat)
    (h : bsearch_scan cmp l = some n) : n < l.length ∧ cmp (l.getD n ⟨0, 0, 0⟩) = 0 := by
  induction l generalizing n with
  | nil => simp [bsearch_scan] at h
  | cons x xs ih =>
    rw [bsearch_scan] at h
    by_cases hx : cmp x = 0
    · rw [if_pos hx] at h
      cases h
      simpa using hx
    · rw [if_neg hx] at h
      cases hr : bsearch_scan cmp xs with
      | none => rw [hr] at h; simp at h
      | some m =>
        rw [hr] at h
        simp only [Option.map_some', Option.some.injEq] at h
        subst h
        have := ih m hr
        rw [List.getD_cons_succ, List.length_cons]
        exact ⟨by omega, this.2⟩

theorem bsearch_scan_none (cmp : cacheent → Int) (l : List cacheent)
    (h : bsearch_scan cmp l = none) : ∀ x ∈ l, cmp x ≠ 0 := by
  induction l with
  | nil => simp
  | cons x xs ih =>
    rw [bsearch_scan] at h
    by_cases hx : cmp x = 0
    · rw [if_pos hx] at h; cases h
    · rw [if_neg hx] at h
      intro y hy
      rcases List.mem_cons.1 hy with e | e
      · rw [e]; exact hx
      · apply ih _ y e
        cases hr : bsearch_scan cmp xs with
        | none => rfl
        | some m => rw [hr] at h; simp at h

theorem bsearch_scan_ok : bsearch_ok bsearch_scan :=
  fun cmp l _ => ⟨fun n h => bsearch_scan_some cmp l n h, bsearch_scan_none cmp l⟩

theorem cache_add_find_instance :
    (∀ l, cachecfg_kept.stale l = l) ∧ qsort_ok cachecfg_kept.qsort ∧
    bsearch_ok cachecfg_kept.bsearch ∧
    (cache_add cachecfg_kept (cache_clear cachecfg_kept ⟨[], [], 0⟩) "a".toList "1".toList =
        Except.error "cache_add: size too large" ∨
      cache_add cachecfg_kept (cache_clear cachecfg_kept ⟨[], [], 0⟩) "a".toList "1".toList =
        Except.error "cache_add: entries too large" ∨
      ∃ c2, cache_add cachecfg_kept (cache_clear cachecfg_kept ⟨[], [], 0⟩) "a".toList
          "1".toList = Except.ok c2 ∧
        cache_found cachecfg_kept c2 "a".toList "1".toList ∧
        (∀ k2 v2, k2 ≠ "a".toList →
          cache_found cachecfg_kept (cache_clear cachecfg_kept ⟨[], [], 0⟩) k2 v2 →
          cache_found cachecfg_kept c2 k2 v2) ∧
        ((∃ v0, cache_found cachecfg_kept (cache_clear cachecfg_kept ⟨[], [], 0⟩)
            "a".toList v0) →
          cache_used c2 = cache_used (cache_clear cachecfg_kept ⟨[], [], 0⟩))) :=
  ⟨fun _ => rfl, qsort_insertion_ok, bsearch_scan_ok,
    cache_add_find cachecfg_kept (fun _ => rfl) qsort_insertion_ok bsearch_scan_ok
      (by decide) (by decide) _ (cache_reachable.clear ⟨[], [], 0⟩) "a".toList "1".toList
      (by decide) (by decide)⟩

/-- With the allocator that keeps the entries, the three keys of the instance
are found with their values after the string area has grown. -/
theorem cache_add_kept_entries :
    ∃ c1 c2 c3 : cache,
      cache_add cachecfg_kept (cache_clear cachecfg_kept ⟨[], [], 0⟩)
        "b".toList "1".toList = Except.ok c1 ∧
      cache_add cachecfg_kept c1 "a".toList "2".toList = Except.ok c2 ∧
      cache_add cachecfg_kept c2 "c".toList "xxxxxxxxxx".toList = Except.ok c3 ∧
      cache_find cachecfg_kept c3 "a".toList = some 0 ∧
      CACHE_VALUE c3 (cache_entry c3 0) = "2".toList ∧
      cache_find cachecfg_kept c3 "b".toList = some 1 ∧
      CACHE_VALUE c3 (cache_entry c3 1) = "1".toList := by
  refine ⟨_, _, _, rfl, rfl, rfl, ?_, ?_, ?_, ?_⟩ <;> decide

theorem not_mem_set_of_irrefl {α : Type} (R : α → α → Prop) (d b : α) (l : List α) (n : Nat)
    (hn : n < l.length) (hl : l.Pairwise R) (hr : ¬ R (l.getD n d) (l.getD n d))
    (hb : l.getD n d ≠ b) : l.getD n d ∉ l.set n b := by
  induction l generalizing n with
  | nil => simp at hn
  | cons x xs ih =>
    rw [List.pairwise_cons] at hl
    cases n with
    | zero =>
      rw [List.set_cons_zero]
      simp only [List.getD_cons_zero] at hr hb ⊢
      intro h
      rcases List.mem_cons.1 h with e | e
      · exact hb e
      · exact hr (hl.1 x e)
    | succ m =>
      have hm : m < xs.length := by simpa using hn
      rw [List.set_cons_succ]
      simp only [List.getD_cons_succ] at hr hb ⊢
      intro h
      rcases List.mem_cons.1 h with e | e
      · apply hr
        have := hl.1 _ (getD_mem xs m d hm)
        rw [← e] at this
        exact this
      · exact ih m hm hl.2 hr hb e

theorem cache_delete_find (cfg : cachecfg) (hq : qsort_ok cfg.qsort)
    (hb : bsearch_ok cfg.bsearch) (c : cache) (n : Nat) (hc : cache_inv c)
    (hn : n < c.ents.length) (hu : (cache_entry c n).used ≠ 0) :
    cache_find cfg (cache_delete cfg c n) (CACHE_KEY c (cache_entry c n)) = none := by
  have hinv := cache_delete_inv cfg hq c n hc hn
  cases hf : cache_find cfg (cache_delete cfg c n) (CACHE_KEY c (cache_entry c n)) with
  | none => rfl
  | some m =>
    exfalso
    obtain ⟨h1, h2, h3⟩ := cache_find_some cfg hb _ hinv.2.2.2.1 _ (cstr_at_nul _ _) m hf
    have hmem := getD_mem (cache_delete cfg c n).ents m (⟨0, 0, 0⟩ : cacheent) h1
    have hd1 := cache_before_distinct c _ hc.2.2.2.1
    have hd2 := pairwise_set _ (⟨0, 0, 0⟩ : cacheent) { cache_entry c n with used := 0 }
      c.ents n hn hd1 (fun _ _ _ _ h => absurd rfl h) (fun _ _ _ h => absurd rfl h)
    obtain ⟨hp, _⟩ := cache_sorted cfg hq
      ⟨c.ents.set n { cache_entry c n with used := 0 }, c.str, c.str_used⟩ _ hd2
    have hmem2 : cache_entry (cache_delete cfg c n) m ∈
        c.ents.set n { cache_entry c n with used := 0 } := hp.subset hmem
    have hold : cache_entry (cache_delete cfg c n) m ∈ c.ents := by
      rcases List.mem_or_eq_of_mem_set hmem2 with h | h
      · exact h
      · rw [h] at h2; exact absurd rfl h2
    have heq := cache_key_unique c _ hc.2.2.2.1 _ _ hold (getD_mem _ _ _ hn) h2 hu h3
    have hnot := not_mem_set_of_irrefl (cache_before c) (⟨0, 0, 0⟩ : cacheent)
      { cache_entry c n with used := 0 } c.ents n hn hc.2.2.2.1
      (fun h => by
        have := h.2 hu hu
        rw [strcmp_self] at this
        omega)
      (fun h => hu (by
        have := congrArg cacheent.used h
        exact this))
    apply hnot
    have : cache_entry (cache_delete cfg c n) m = c.ents.getD n ⟨0, 0, 0⟩ := heq
    rw [← this]
    exact hmem2

/-- With an allocator that leaves what `cache_add` reads through `ce`
unchanged, and `qsort` and `bsearch` as ISO C describes them, every reachable
cache has its used entries before the unused ones and in strictly increasing
order of their keys; `cache_find` returns an entry for a key exactly when a
used entry has that key, and the entry it returns is a used entry of the
array with that key; and after `cache_delete` of a used entry `cache_find`
returns `NULL` for the key of that entry. -/
theorem cache_order (cfg : cachecfg) (hstale : ∀ l, cfg.stale l = l)
    (hq : qsort_ok cfg.qsort) (hb : bsearch_ok cfg.bsearch)
    (he : 1 ≤ cfg.CACHEENTRIES) (hbuf : 1 ≤ cfg.CACHEBUFFER) (c : cache)
    (hr : cache_reachable cfg c) :
    c.ents.Pairwise (cache_before c) ∧
    (∀ k, NUL ∉ k →
      ((∃ n, cache_find cfg c k = some n) ↔ ∃ e ∈ c.ents, e.used ≠ 0 ∧ CACHE_KEY c e = k) ∧
      (∀ n, cache_find cfg c k = some n →
        n < c.ents.length ∧ (cache_entry c n).used ≠ 0 ∧ CACHE_KEY c (cache_entry c n) = k)) ∧
    (∀ n, n < c.ents.length → (cache_entry c n).used ≠ 0 →
      cache_find cfg (cache_delete cfg c n) (CACHE_KEY c (cache_entry c n)) = none) := by
  have hc := cache_reachable_inv cfg hstale hq hb he hbuf c hr
  refine ⟨hc.2.2.2.1, ?_, fun n hn hu => cache_delete_find cfg hq hb c n hc hn hu⟩
  intro k hk
  refine ⟨⟨?_, ?_⟩, fun n h => cache_find_some cfg hb c hc.2.2.2.1 k hk n h⟩
  · rintro ⟨n, h⟩
    obtain ⟨h1, h2, h3⟩ := cache_find_some cfg hb c hc.2.2.2.1 k hk n h
    exact ⟨_, getD_mem _ _ _ h1, h2, h3⟩
  · rintro ⟨e, he, ue, hke⟩
    cases hf : cache_find cfg c k with
    | none => exact absurd hke (cache_find_none cfg hb c hc.2.2.2.1 k hk hf e he ue)
    | some n => exact ⟨n, rfl⟩

/-- C21: when `cache_add` has to enlarge the string area and `xrealloc` moves
the block, the entry array is rebuilt from what the pointer `ce`, taken before
`xrealloc`, reads. With an allocator that moves the data down by one entry,
the cache that holds "a", "b", "c" and "d" in order has, after adding "e", two
used entries with the key "d": the keys are not strictly increasing any more,
and after `cache_delete` of the first of them `cache_find` still returns an
entry for "d". -/
theorem cache_add_stale_order :
    ∃ c1 c2 c3 c4 c5 : cache,
      cache_add cachecfg_shifted (cache_clear cachecfg_shifted ⟨[], [], 0⟩)
        "a".toList "1".toList = Except.ok c1 ∧
      cache_add cachecfg_shifted c1 "b".toList "2".toList = Except.ok c2 ∧
      cache_add cachecfg_shifted c2 "c".toList "3".toList = Except.ok c3 ∧
      cache_add cachecfg_shifted c3 "d".toList "4".toList = Except.ok c4 ∧
      c4.ents.Pairwise (cache_before c4) ∧
      cache_add cachecfg_shifted c4 "e".toList "5".toList = Except.ok c5 ∧
      ¬ c5.ents.Pairwise (cache_before c5) ∧
      (cache_entry c5 2).used ≠ 0 ∧ CACHE_KEY c5 (cache_entry c5 2) = "d".toList ∧
      (cache_entry c5 3).used ≠ 0 ∧ CACHE_KEY c5 (cache_entry c5 3) = "d".toList ∧
      cache_find cachecfg_shifted (cache_delete cachecfg_shifted c5 2) "d".toList =
        some 2 := by
  refine ⟨_, _, _, _, _, rfl, rfl, rfl, rfl, ?_, rfl, ?_, ?_, ?_, ?_, ?_, ?_⟩ <;> decide

theorem cache_order_instance :
    (∀ l, cachecfg_kept.stale l = l) ∧ qsort_ok cachecfg_kept.qsort ∧
    bsearch_ok cachecfg_kept.bsearch ∧
    (cache_clear cachecfg_kept ⟨[], [], 0⟩).ents.Pairwise
      (cache_before (cache_clear cachecfg_kept ⟨[], [], 0⟩)) ∧
    (∀ n, n < (cache_clear cachecfg_kept ⟨[], [], 0⟩).ents.length →
      (cache_entry (cache_clear cachecfg_kept ⟨[], [], 0⟩) n).used ≠ 0 →
      cache_find cachecfg_kept
        (cache_delete cachecfg_kept (cache_clear cachecfg_kept ⟨[], [], 0⟩) n)
        (CACHE_KEY (cache_clear cachecfg_kept ⟨[], [], 0⟩)
          (cache_entry (cache_clear cachecfg_kept ⟨[], [], 0⟩) n)) = none) :=
  ⟨fun _ => rfl, qsort_insertion_ok, bsearch_scan_ok,
    (cache_order cachecfg_kept (fun _ => rfl) qsort_insertion_ok bsearch_scan_ok
      (by decide) (by decide) _ (cache_reachable.clear ⟨[], [], 0⟩)).1,
    (cache_order cachecfg_kept (fun _ => rfl) qsort_insertion_ok bsearch_scan_ok
      (by decide) (by decide) _ (cache_reachable.clear ⟨[], [], 0⟩)).2.2⟩

/-- With the allocator that keeps the entries, the same five calls leave the
five keys in strictly increasing order, and after `cache_delete` of the entry
of "d" the key is not found. -/
theorem cache_add_kept_order :
    ∃ c1 c2 c3 c4 c5 : cache,
      cache_add cachecfg_kept (cache_clear cachecfg_kept ⟨[], [], 0⟩)
        "a".toList "1".toList = Except.ok c1 ∧
      cache_add cachecfg_kept c1 "b".toList "2".toList = Except.ok c2 ∧
      cache_add cachecfg_kept c2 "c".toList "3".toList = Except.ok c3 ∧
      cache_add cachecfg_kept c3 "d".toList "4".toList = Except.ok c4 ∧
      cache_add cachecfg_kept c4 "e".toList "5".toList = Except.ok c5 ∧
      c5.ents.Pairwise (cache_before c5) ∧
      cache_find cachecfg_kept c5 "d".toList = some 3 ∧
      cache_find cachecfg_kept (cache_delete cachecfg_kept c5 3) "d".toList = none := by
  refine ⟨_, _, _, _, _, rfl, rfl, rfl, rfl, rfl, ?_, ?_, ?_⟩ <;> decide

end Fdm
